import Mathlib

/-!
# Verification of the ESPv2 configuration-translation core

A shallow embedding of the service-model builder
(`src/go/configinfo/service_info.go`) and the route-table generator
(`configgenerator`, route generation file) of the ESPv2 control plane,
together with proofs of the behavioural claims about them.

Conventions of the embedding:
* Go maps keyed by selector are association lists in insertion order;
  lookups are by key, so no theorem depends on representation order.
* Go `nil`-pointer dereferences (writing through a missing map entry)
  are modelled as the distinguished build outcome `BuildErr.nilDeref`.
* `float64` deadlines are modelled as rationals; `math.Round` is
  round-half-away-from-zero, which for the positive deadlines reaching
  it is `⌊q + 1/2⌋`.
* The `httppattern` and `util` packages are not part of the provided
  sources; definitions taken from them are modelled from the spec and
  are marked `Modelled from the spec:` in their doc comments.
-/

namespace ESPv2

/-- Build-time failure. `msg` mirrors Go `error` returns; `nilDeref`
models a Go nil-pointer panic (writing a field of a `nil` `*MethodInfo`
obtained from a missing map entry). -/
inductive BuildErr where
  | msg (s : String)
  | nilDeref
deriving DecidableEq, Repr

instance [DecidableEq ε] [DecidableEq α] : DecidableEq (Except ε α) := fun x y =>
  match x, y with
  | .ok a, .ok b =>
    if h : a = b then .isTrue (by rw [h]) else .isFalse (by intro he; cases he; exact h rfl)
  | .error a, .error b =>
    if h : a = b then .isTrue (by rw [h]) else .isFalse (by intro he; cases he; exact h rfl)
  | .ok _, .error _ => .isFalse (by intro h; cases h)
  | .error _, .ok _ => .isFalse (by intro h; cases h)

/-- Whether an `Except` outcome is a success. -/
def isOkE : Except BuildErr α → Bool
  | .ok _ => true
  | .error _ => false

/-- Fold a list through an `Except`-valued step, stopping at the first
error.  All rule-processing loops of the builder are instances. -/
def foldE (f : σ → α → Except BuildErr σ) : σ → List α → Except BuildErr σ
  | s, [] => .ok s
  | s, a :: l =>
    match f s a with
    | .error e => .error e
    | .ok s' => foldE f s' l

/-! ## URI templates

Modelled from the spec (§4.1 URI-Template Engine): the `httppattern`
package is not among the provided sources.  Templates are represented
pre-parsed as segment lists (string-level brace errors cannot arise);
`parseUriTemplate` keeps the semantic validity checks. -/

/-- A segment allowed inside the sub-pattern of a `\x7bname=...\x7d` capture. -/
inductive SubSeg where
  | lit (s : String)
  | star
  | doubleStar
deriving DecidableEq, Repr

/-- One `/`-separated segment of a URI template. -/
inductive Seg where
  | lit (s : String)
  | star
  | doubleStar
  | capture (fieldPath : String) (subpattern : Option (List SubSeg))
deriving DecidableEq, Repr

/-- Modelled from the spec: `httppattern.UriTemplate`, pre-parsed. -/
structure UriTemplate where
  segments : List Seg
deriving DecidableEq, Repr

/-- The names of the captured variables, in order of appearance. -/
def UriTemplate.variableNames (t : UriTemplate) : List String :=
  t.segments.filterMap fun s =>
    match s with
    | .capture n _ => some n
    | _ => none

/-- Whether a double wildcard occurs only in last position. -/
def doubleStarLastOnly : List Seg → Bool
  | [] => true
  | [_] => true
  | .doubleStar :: _ :: _ => false
  | _ :: rest => doubleStarLastOnly rest

/-- Modelled from the spec: `httppattern.ParseUriTemplate` — validity
checks on a pre-parsed template (duplicate variable names, misplaced
`**`, empty variable names are `MalformedTemplate`). -/
def parseUriTemplate (t : UriTemplate) : Except BuildErr UriTemplate :=
  if t.variableNames.Nodup ∧ doubleStarLastOnly t.segments
      ∧ t.variableNames.all (· ≠ "") then .ok t
  else .error (.msg "MalformedTemplate")

def SubSeg.regex : SubSeg → String
  | .lit s => s
  | .star => "[^/]+"
  | .doubleStar => ".*"

def Seg.regex : Seg → String
  | .lit s => s
  | .star => "[^/]+"
  | .doubleStar => ".*"
  | .capture _ none => "[^/]+"
  | .capture _ (some ps) => String.intercalate "/" (ps.map SubSeg.regex)

/-- Modelled from the spec: `UriTemplate.Regex()` — one full-path regex:
`*` becomes `[^/]+`, `**` becomes `.*`, captures compile to their
sub-pattern (default `[^/]+`). -/
def UriTemplate.regex (t : UriTemplate) : String :=
  "^/" ++ String.intercalate "/" (t.segments.map Seg.regex) ++ "$"

/-- Modelled from the spec: `UriTemplate.IsExactMatch()` — true when the
template has no wildcards and no captures. -/
def UriTemplate.isExactMatch (t : UriTemplate) : Bool :=
  t.segments.all fun s =>
    match s with
    | .lit _ => true
    | _ => false

def Seg.render : Seg → String
  | .lit s => s
  | .star => "*"
  | .doubleStar => "**"
  | .capture n _ => "\x7b" ++ n ++ "\x7d"

/-- Modelled from the spec: `UriTemplate.ExactMatchString(trailingSlash)`
— the two variants differ only in the trailing slash. -/
def UriTemplate.exactMatchString (t : UriTemplate) (trailingSlash : Bool) : String :=
  "/" ++ String.intercalate "/" (t.segments.map Seg.render)
    ++ (if trailingSlash then "/" else "")

def lookupStr (k : String) : List (String × String) → Option String
  | [] => none
  | (k', v) :: rest => if k' = k then some v else lookupStr k rest

def Seg.rename (m : List (String × String)) : Seg → Seg
  | .capture n sp => .capture ((lookupStr n m).getD n) sp
  | s => s

/-- Modelled from the spec: `UriTemplate.ReplaceVariableField(map)` —
every capture whose name is a key of the map is renamed to the mapped
value; structure (and hence the regex) is untouched. -/
def UriTemplate.replaceVariableField (t : UriTemplate) (m : List (String × String)) :
    UriTemplate :=
  ⟨t.segments.map (Seg.rename m)⟩

/-- An (HTTP method, URI template) pair — `httppattern.Pattern`. -/
structure Pattern where
  httpMethod : String
  uriTemplate : UriTemplate
deriving DecidableEq, Repr

/-- Modelled from the spec: `httppattern.HttpMethodWildCard`. -/
def httpMethodWildCard : String := "*"

/-! ## util: backend addresses and protocols

Modelled from the spec (§4.3 phase 1, §3 BackendCluster, §4.6): the
`util` package is not among the provided sources. -/

inductive BackendProtocol where
  | http1
  | http2
  | grpc
deriving DecidableEq, Repr

/-- Modelled from the spec: the output of `util.ParseURI` — addresses
appear pre-parsed as (scheme, host, optional explicit port, path); an
empty backend-rule address is `Option.none` at the rule level. -/
structure UriAddr where
  scheme : String
  host : String
  port : Option Nat
  path : String
deriving DecidableEq, Repr

/-- Whether a scheme implies TLS. -/
def schemeUsesTLS (scheme : String) : Bool :=
  scheme = "https" ∨ scheme = "grpcs"

/-- Modelled from the spec: scheme-based default ports (443 under TLS,
80 otherwise), as in scenario 2 where `https://api.example.com` resolves
to port 443. -/
def UriAddr.effectivePort (a : UriAddr) : Nat :=
  a.port.getD (if schemeUsesTLS a.scheme then 443 else 80)

/-- The `host:port` key remote clusters are deduplicated by. -/
def UriAddr.hostPort (a : UriAddr) : String :=
  a.host ++ ":" ++ toString a.effectivePort

/-- Modelled from the spec: `util.ParseBackendProtocol` — maps scheme
(and the rule's explicit protocol for HTTP schemes) to
(protocol ∈ \x7bHTTP1, HTTP2, GRPC\x7d, tls flag). -/
def parseBackendProtocol (scheme protocol : String) :
    Except BuildErr (BackendProtocol × Bool) :=
  if scheme = "grpc" then .ok (.grpc, false)
  else if scheme = "grpcs" then .ok (.grpc, true)
  else if scheme = "http" ∨ scheme = "https" then
    if protocol = "" ∨ protocol = "http/1.1" then
      .ok (.http1, schemeUsesTLS scheme)
    else if protocol = "h2" then .ok (.http2, schemeUsesTLS scheme)
    else .error (.msg "unknown backend protocol")
  else .error (.msg "unknown backend scheme")

/-- Modelled from the spec: `util.BackendClusterName`. -/
def backendClusterName (address : String) : String :=
  "backend-cluster-" ++ address

/-- Modelled from the spec: the default response deadline, 15 seconds
(scenario 5), in milliseconds. -/
def defaultResponseDeadlineMs : Int := 15000

/-- `getJwtAudienceFromBackendAddr`: grpc→http, grpcs→https (the
protocol-parse error is discarded in the source, leaving tls=false for
unknown schemes). -/
def getJwtAudienceFromBackendAddr (scheme hostname : String) : String :=
  if schemeUsesTLS scheme then "https://" ++ hostname else "http://" ++ hostname

/-- Modelled from the spec: `util.TypeUrlPrefix` for request type URLs. -/
def typeUrlBase : String := "type.googleapis.com/"

/-- Modelled from the spec: `util.EspOperation`, the api name of the
synthetic health-check method (`espv2_deployment`). -/
def espOperation : String := "espv2_deployment"

/-- Modelled from the spec: `util.AutogeneratedOperationPrefix`
(`ESPv2_Autogenerated`). -/
def autogenBase : String := "ESPv2_Autogenerated"

/-- Modelled from the spec: `util.SpanNamePrefix` — decorator operations
are `ingress <shortName>`. -/
def spanNameBase : String := "ingress"

/-- Modelled from the spec: `util.ApiKeyParameterName`. -/
def apiKeyParameterName : String := "api_key"

/-- Modelled from the spec: the two default API-key query names. -/
def defaultApiKeyQueryParamKey : String := "key"

def defaultApiKeyQueryParamApiKey : String := "api_key"

/-- Modelled from the spec: `util.GoogleRE2MaxProgramSize` — the
data-plane regex program-size bound. -/
def googleRE2MaxProgramSize : Nat := 100

/-- Modelled from the spec: `util.ValidateRegexProgramSize` — rejects
regexes that expand beyond the data-plane's program-size limit.  The
RE2 program-size computation is external; it is modelled as a length
bound. -/
def validateRegexProgramSize (regex : String) (maxSize : Nat) : Bool :=
  regex.length ≤ maxSize

/-! ## The input service description

The structural image of the standard API Service schema fields the
builder reads (§6).  Pattern paths and backend addresses appear
pre-parsed (see `UriTemplate`, `UriAddr`). -/

structure ApiMethod where
  name : String
  requestStreaming : Bool
  responseStreaming : Bool
  requestTypeUrl : String
deriving DecidableEq, Repr

structure Api where
  name : String
  version : String
  methods : List ApiMethod
deriving DecidableEq, Repr

/-- The `pattern` oneof of an HTTP rule.  `custom` carries the kind
(verb) and path. -/
inductive HttpRulePattern where
  | get (path : UriTemplate)
  | put (path : UriTemplate)
  | post (path : UriTemplate)
  | delete (path : UriTemplate)
  | patch (path : UriTemplate)
  | custom (kind : String) (path : UriTemplate)
deriving DecidableEq, Repr

/-- An HTTP rule.  Additional bindings cannot be nested, so only their
`pattern` oneof is relevant to the builder (`none` = oneof unset). -/
structure HttpRule where
  selector : String
  pattern : Option HttpRulePattern
  additionalBindings : List (Option HttpRulePattern)
deriving DecidableEq, Repr

/-- The `authentication` oneof of a backend rule. -/
inductive BackendAuth where
  | jwtAudience (a : String)
  | disableAuth (b : Bool)
deriving DecidableEq, Repr

inductive PathTranslation where
  | unspecified
  | appendPathToAddress
  | constantAddress
deriving DecidableEq, Repr

/-- A backend rule.  `address = none` models the empty address string
(the rule then targets the local backend); `deadline` is the float64
seconds value, modelled as a rational. -/
structure BackendRule where
  selector : String
  address : Option UriAddr
  deadline : ℚ
  protocol : String
  authentication : Option BackendAuth
  pathTranslation : PathTranslation
deriving DecidableEq, Repr

structure UsageRule where
  selector : String
  allowUnregisteredCalls : Bool
  skipServiceControl : Bool
deriving DecidableEq, Repr

/-- A quota metric rule; the cost map is carried as a list of pairs. -/
structure MetricRule where
  selector : String
  metricCosts : List (String × Int)
deriving DecidableEq, Repr

/-- An authentication rule; only the number of requirements matters to
the builder, but the requirement provider ids are carried. -/
structure AuthRule where
  selector : String
  requirements : List String
deriving DecidableEq, Repr

structure SystemParameter where
  name : String
  urlQueryParameter : String
  httpHeader : String
deriving DecidableEq, Repr

structure SystemParameterRule where
  selector : String
  parameters : List SystemParameter
deriving DecidableEq, Repr

structure Endpoint where
  name : String
  allowCors : Bool
deriving DecidableEq, Repr

structure TypeField where
  name : String
  jsonName : String
deriving DecidableEq, Repr

structure ProtoType where
  name : String
  fields : List TypeField
deriving DecidableEq, Repr

structure ServiceConfig where
  name : String
  apis : List Api
  types : List ProtoType
  http : List HttpRule
  backend : List BackendRule
  usage : List UsageRule
  quota : List MetricRule
  authRules : List AuthRule
  systemParameters : List SystemParameterRule
  endpoints : List Endpoint
deriving DecidableEq, Repr

/-- The generator options the modelled phases read
(`options.ConfigGeneratorOptions`).  `backendAddress` appears pre-parsed
and `healthz` pre-parsed with `none` for the empty (disabled) path; the
leading-slash normalization of `Healthz` is invisible in pre-parsed
form. -/
structure ConfigGeneratorOptions where
  backendAddress : UriAddr
  corsPreset : String
  corsAllowOrigin : String
  corsAllowOriginRegex : String
  corsAllowMethods : String
  corsAllowHeaders : String
  corsExposeHeaders : String
  corsAllowCredentials : Bool
  healthz : Option UriTemplate
  backendRetryOns : String
  backendRetryNum : Nat
  nonGCP : Bool
  enableHSTS : Bool
deriving DecidableEq, Repr

/-! ## The service model -/

inductive ApiKeyLocation where
  | query (name : String)
  | header (name : String)
deriving DecidableEq, Repr

/-- `backendInfo`: the backend binding of a method.  The deadline is
stored millisecond-rounded. -/
structure BackendInfo where
  clusterName : String
  path : String
  hostname : String
  translationType : PathTranslation
  deadlineMs : Int
  retryOns : String
  retryNum : Nat
  jwtAudience : String
deriving DecidableEq, Repr

/-- `MethodInfo`.  `generatedCorsMethod` holds the selector of the
synthetic CORS companion (the Go back-pointer, keyed by selector). -/
structure MethodInfo where
  shortName : String
  apiName : String
  apiVersion : String
  isStreaming : Bool
  requestTypeName : String
  httpRule : List Pattern
  backendInfo : Option BackendInfo
  requireAuth : Bool
  allowUnregisteredCalls : Bool
  skipServiceControl : Bool
  isGenerated : Bool
  generatedCorsMethod : Option String
  metricCosts : List (String × Int)
  apiKeyLocations : List ApiKeyLocation
deriving DecidableEq, Repr

/-- The zero `MethodInfo` filled in by `getOrCreateMethod` before the
name fields are set. -/
def MethodInfo.empty : MethodInfo where
  shortName := ""
  apiName := ""
  apiVersion := ""
  isStreaming := false
  requestTypeName := ""
  httpRule := []
  backendInfo := none
  requireAuth := false
  allowUnregisteredCalls := false
  skipServiceControl := false
  isGenerated := false
  generatedCorsMethod := none
  metricCosts := []
  apiKeyLocations := []

structure BackendRoutingCluster where
  clusterName : String
  hostname : String
  port : Nat
  useTLS : Bool
  protocol : BackendProtocol
deriving DecidableEq, Repr

/-- `ServiceInfo`.  `methods` is the selector-keyed map, represented as
an association list in creation order; `operations` is the canonical
selector order. -/
structure ServiceInfo where
  name : String
  configID : String
  apiNames : List String
  operations : List String
  methods : List (String × MethodInfo)
  allTranscodingIgnoredQueryParams : List String
  allowCors : Bool
  serviceConfig : ServiceConfig
  options : ConfigGeneratorOptions
  grpcSupportRequired : Bool
  localBackendCluster : BackendRoutingCluster
  remoteBackendClusters : List BackendRoutingCluster
deriving DecidableEq, Repr

/-! ## Map primitives -/

/-- Lookup in the selector-keyed method map. -/
def lookupM (k : String) : List (String × MethodInfo) → Option MethodInfo
  | [] => none
  | (k', v) :: rest => if k' = k then some v else lookupM k rest

/-- Update the entry of `k` in place (no-op when absent); models a write
through the Go map-entry pointer. -/
def updateM (k : String) (f : MethodInfo → MethodInfo) :
    List (String × MethodInfo) → List (String × MethodInfo)
  | [] => []
  | (k', v) :: rest =>
    if k' = k then (k', f v) :: rest else (k', v) :: updateM k f rest

def keysM (l : List (String × MethodInfo)) : List String := l.map Prod.fst

/-- Whether the first character list leads the second. -/
def charsLead : List Char → List Char → Bool
  | [], _ => true
  | _ :: _, [] => false
  | a :: as, b :: bs => if a = b then charsLead as bs else false

/-- Go `strings.HasPrefix`, computed on character lists (the core
`String.startsWith` does not reduce in the kernel). -/
def strHasBase (s base : String) : Bool := charsLead base.data s.data

/-- Membership in a string list, as an executable Boolean. -/
def containsStr (x : String) : List String → Bool
  | [] => false
  | y :: ys => if y = x then true else containsStr x ys

/-- Insert into a string set kept as a duplicate-free list (a Go
`map[string]bool` used as a set). -/
def insertStr (x : String) (l : List String) : List String :=
  if containsStr x l then l else l ++ [x]

/-- Split on a character, mirroring Go `strings.Split` (always at least
one component). -/
def splitChar (c : Char) : List Char → List (List Char)
  | [] => [[]]
  | x :: xs =>
    let r := splitChar c xs
    if x = c then [] :: r
    else
      match r with
      | [] => [[x]]
      | y :: ys => (x :: y) :: ys

def splitDot (s : String) : List String :=
  (splitChar '.' s.data).map fun l => String.mk l

/-! ## The builder (`service_info.go`) -/

def ServiceInfo.localBackendClusterName (s : ServiceInfo) : String :=
  backendClusterName (s.name ++ "_local")

/-- The fresh `MethodInfo` created for an unseen selector: the short
name is the final dot-component, the api name the re-joined remainder
(the source takes the length-based substring, which is the same
string). -/
def freshMethod (name : String) : MethodInfo :=
  let names := splitDot name
  { MethodInfo.empty with
    shortName := names.getLastD ""
    apiName := String.intercalate "." names.dropLast }

/-- `getOrCreateMethod`: look the selector up, creating a fresh
`MethodInfo` (and appending to `Operations`) when absent; a selector
without a dot is a format error. -/
def getOrCreateMethod (s : ServiceInfo) (name : String) :
    Except BuildErr (MethodInfo × ServiceInfo) :=
  match lookupM name s.methods with
  | some mi => .ok (mi, s)
  | none =>
    if (splitDot name).length ≤ 1 then
      .error (.msg ("method " ++ name ++ " should be in the format of apiName.methodShortName"))
    else
      .ok (freshMethod name, { s with
        methods := s.methods ++ [(name, freshMethod name)]
        operations := s.operations ++ [name] })

/-- `buildLocalBackend` (phase 1): the local cluster from
`Options.BackendAddress`; gRPC SETS `GrpcSupportRequired`. -/
def buildLocalBackend (name : String) (opts : ConfigGeneratorOptions) :
    Except BuildErr (BackendRoutingCluster × Bool) :=
  let a := opts.backendAddress
  match parseBackendProtocol a.scheme "" with
  | .error e => .error e
  | .ok (protocol, tls) =>
    .ok ({ clusterName := backendClusterName (name ++ "_local")
           hostname := a.host
           port := a.effectivePort
           useTLS := tls
           protocol := protocol }, protocol = .grpc)

/-- `processEndpoints` (phase 2): `AllowCors` iff some endpoint with the
service's name allows CORS. -/
def processEndpoints (s : ServiceInfo) : ServiceInfo :=
  { s with allowCors :=
      s.serviceConfig.endpoints.any fun e =>
        e.name = s.serviceConfig.name ∧ e.allowCors }

/-- One (api, method) step of `processApis`.  In the source the
`getOrCreateMethod` error is discarded and the following field writes
would dereference `nil`; selectors of the form `api.method` always
contain a dot, so the error branch is unreachable, and is modelled as
`nilDeref`. -/
def processApiMethod (api : Api) (s : ServiceInfo) (method : ApiMethod) :
    Except BuildErr ServiceInfo :=
  match getOrCreateMethod s (api.name ++ "." ++ method.name) with
  | .error _ => .error .nilDeref
  | .ok (mi, s) =>
    let mi := if method.requestStreaming ∨ method.responseStreaming then
        { mi with isStreaming := true } else mi
    let mi := { mi with apiVersion := api.version }
    let mi := if strHasBase method.requestTypeUrl typeUrlBase then
        { mi with requestTypeName :=
            method.requestTypeUrl.drop typeUrlBase.length }
      else mi
    .ok { s with methods := updateM (api.name ++ "." ++ method.name) (fun _ => mi) s.methods }

/-- `processApis` (phase 3). -/
def processApis (s : ServiceInfo) : Except BuildErr ServiceInfo :=
  foldE (fun s api =>
      foldE (processApiMethod api) { s with apiNames := s.apiNames ++ [api.name] }
        api.methods)
    s s.serviceConfig.apis

/-- `processQuota` (phase 4).  The source indexes `s.Methods` directly:
`s.Methods[metricRule.GetSelector()].MetricCosts = metricCosts` — a
selector with no existing method yields a `nil` pointer and the field
write panics, modelled as `nilDeref`. -/
def processQuota (s : ServiceInfo) : Except BuildErr ServiceInfo :=
  foldE (fun s rule =>
      match lookupM rule.selector s.methods with
      | none => .error .nilDeref
      | some _ => .ok { s with
          methods := updateM rule.selector
            (fun m => { m with metricCosts := rule.metricCosts }) s.methods })
    s s.serviceConfig.quota

/-- Round-half-away-from-zero of `d * 1000` for the positive deadlines
that reach `math.Round` in the source. -/
def roundDeadlineMs (d : ℚ) : Int := (d * 1000 + mkRat 1 2).floor

/-- The deadline resolution of `addBackendInfoToMethod`: unset (0) →
default; negative → warn + default; positive → nearest millisecond. -/
def resolveDeadlineMs (d : ℚ) : Int :=
  if d = 0 then defaultResponseDeadlineMs
  else if d < 0 then defaultResponseDeadlineMs
  else roundDeadlineMs d

/-- `determineBackendAuthJwtAud`: the `authentication` oneof decides;
with no oneof an empty address yields no audience, a remote address
derives it from scheme and host. -/
def determineBackendAuthJwtAud (r : BackendRule) (scheme hostname : String) : String :=
  match r.authentication with
  | some (.jwtAudience a) => a
  | some (.disableAuth b) =>
    if b then "" else getJwtAudienceFromBackendAddr scheme hostname
  | none =>
    match r.address with
    | none => ""
    | some _ => getJwtAudienceFromBackendAddr scheme hostname

/-- The `backendInfo` value `addBackendInfoToMethod` computes: `/`
substituted for an empty `CONSTANT_ADDRESS` path, the resolved
deadline, the configured retries, and the backend-auth audience (reset
to empty with a warning on non-GCP). -/
def mkBackendInfo (r : BackendRule) (scheme hostname path clusterName : String)
    (opts : ConfigGeneratorOptions) : BackendInfo :=
  let path := if path = "" ∧ r.pathTranslation = .constantAddress then "/" else path
  let jwtAud := determineBackendAuthJwtAud r scheme hostname
  let jwtAud := if jwtAud ≠ "" ∧ opts.nonGCP then "" else jwtAud
  { clusterName := clusterName
    path := path
    hostname := hostname
    translationType := r.pathTranslation
    deadlineMs := resolveDeadlineMs r.deadline
    retryOns := opts.backendRetryOns
    retryNum := opts.backendRetryNum
    jwtAudience := jwtAud }

/-- `addBackendInfoToMethod`: bind the rule's method to the computed
`backendInfo`. -/
def addBackendInfoToMethod (s : ServiceInfo) (r : BackendRule)
    (scheme hostname path clusterName : String) : Except BuildErr ServiceInfo :=
  match getOrCreateMethod s r.selector with
  | .error e => .error e
  | .ok (_, s) =>
    let bi := mkBackendInfo r scheme hostname path clusterName s.options
    let methods' := updateM r.selector (fun m => { m with backendInfo := some bi }) s.methods
    .ok { s with methods := methods' }

/-- The remote cluster a backend rule allocates for an unseen
`host:port`. -/
def remoteClusterFor (addr : UriAddr) (protocol : BackendProtocol) (tls : Bool) :
    BackendRoutingCluster :=
  { clusterName := backendClusterName addr.hostPort
    hostname := addr.host
    port := addr.effectivePort
    useTLS := tls
    protocol := protocol }

/-- Append the freshly allocated remote cluster and raise
`GrpcSupportRequired` when its protocol is gRPC (the source sets the
flag to true only in the gRPC case, which is the same as or-ing it). -/
def addRemoteCluster (s : ServiceInfo) (addr : UriAddr) (protocol : BackendProtocol)
    (tls : Bool) : ServiceInfo :=
  { s with
    grpcSupportRequired := s.grpcSupportRequired || protocol = .grpc
    remoteBackendClusters := s.remoteBackendClusters ++ [remoteClusterFor addr protocol tls] }

/-- One rule step of `processBackendRule`; the extra state is the
`host:port → cluster name` deduplication map, kept as an association
list. -/
def processOneBackendRule (st : ServiceInfo × List (String × String))
    (r : BackendRule) : Except BuildErr (ServiceInfo × List (String × String)) :=
  let (s, clustersMap) := st
  match r.address with
  | none =>
    (addBackendInfoToMethod s r "" "" "" s.localBackendClusterName).map
      fun s' => (s', clustersMap)
  | some addr =>
    match lookupStr addr.hostPort clustersMap with
    | some clusterName =>
      (addBackendInfoToMethod s r addr.scheme addr.host addr.path clusterName).map
        fun s' => (s', clustersMap)
    | none =>
      match parseBackendProtocol addr.scheme r.protocol with
      | .error e => .error e
      | .ok (protocol, tls) =>
        let s := addRemoteCluster s addr protocol tls
        let clusterName := backendClusterName addr.hostPort
        (addBackendInfoToMethod s r addr.scheme addr.host addr.path clusterName).map
          fun s' => (s', clustersMap ++ [(addr.hostPort, clusterName)])

/-- `processBackendRule` (phase 5). -/
def processBackendRule (s : ServiceInfo) : Except BuildErr ServiceInfo :=
  match foldE processOneBackendRule (s, []) s.serviceConfig.backend with
  | .error e => .error e
  | .ok (s, _) => .ok s

/-- The verb and template of one input http-rule pattern (the `switch`
of `addHttpRule`), with the template run through `parseUriTemplate`. -/
def parseHttpPattern (hp : HttpRulePattern) : Except BuildErr Pattern :=
  match hp with
  | .get t => (parseUriTemplate t).map fun u => ⟨"GET", u⟩
  | .put t => (parseUriTemplate t).map fun u => ⟨"PUT", u⟩
  | .post t => (parseUriTemplate t).map fun u => ⟨"POST", u⟩
  | .delete t => (parseUriTemplate t).map fun u => ⟨"DELETE", u⟩
  | .patch t => (parseUriTemplate t).map fun u => ⟨"PATCH", u⟩
  | .custom kind t => (parseUriTemplate t).map fun u => ⟨kind, u⟩

/-- `addHttpRule`: parse the pattern, record the regex of an explicit
OPTIONS binding in the deduplication set, and append the pattern to the
method. -/
def addHttpRule (m : MethodInfo) (rp : Option HttpRulePattern)
    (optionsSet : List String) : Except BuildErr (MethodInfo × List String) :=
  match rp with
  | none => .error (.msg ("operation(" ++ m.apiName ++ "." ++ m.shortName
      ++ "): unsupported http method"))
  | some hp =>
    match parseHttpPattern hp with
    | .error e => .error e
    | .ok pat =>
      let optionsSet := if pat.httpMethod = "OPTIONS" then
          insertStr pat.uriTemplate.regex optionsSet
        else optionsSet
      .ok ({ m with httpRule := m.httpRule ++ [pat] }, optionsSet)

/-- One rule of the first `processHttpRule` loop: the top-level pattern,
then each additional binding, appended to the rule's method. -/
def processOneHttpRule (st : ServiceInfo × List String) (r : HttpRule) :
    Except BuildErr (ServiceInfo × List String) :=
  let (s, optionsSet) := st
  match getOrCreateMethod s r.selector with
  | .error e => .error e
  | .ok (mi, s) =>
    match addHttpRule mi r.pattern optionsSet with
    | .error e => .error e
    | .ok (mi, optionsSet) =>
      match foldE (fun (st : MethodInfo × List String) b => addHttpRule st.1 b st.2)
          (mi, optionsSet) r.additionalBindings with
      | .error e => .error e
      | .ok (mi, optionsSet) =>
        .ok ({ s with methods := updateM r.selector (fun _ => mi) s.methods },
          optionsSet)

/-- The synthetic CORS companion selector of a method. -/
def corsSelectorOf (orig : MethodInfo) : String :=
  orig.apiName ++ "." ++ autogenBase ++ "_CORS_" ++ orig.shortName

/-- `addOptionMethod`: create (or extend) the synthetic companion,
copying `ApiVersion` and `BackendInfo`, marking it generated, appending
the OPTIONS pattern and recording the back-pointer on the original. -/
def addOptionMethod (s : ServiceInfo) (originalSelector : String)
    (orig : MethodInfo) (pat : Pattern) : Except BuildErr ServiceInfo :=
  if pat.httpMethod ≠ "OPTIONS" then
    .error (.msg "adding OPTIONS method: unexpected verb")
  else
    match getOrCreateMethod s (corsSelectorOf orig) with
    | .error e => .error e
    | .ok (mi, s) =>
      let mi := { mi with
        apiVersion := orig.apiVersion
        backendInfo := orig.backendInfo
        isGenerated := true
        httpRule := mi.httpRule ++ [pat] }
      let s := { s with methods := updateM (corsSelectorOf orig) (fun _ => mi) s.methods }
      let methods' := updateM originalSelector
        (fun m => { m with generatedCorsMethod := some (corsSelectorOf orig) }) s.methods
      .ok { s with methods := methods' }

/-- One pattern of the CORS loop: non-OPTIONS patterns whose regex is
not yet covered get a companion OPTIONS method.  The fresh re-parse of
`Origin` in the source reproduces the same (already valid) template and
is the identity here. -/
def corsPatternStep (originalSelector : String) (orig : MethodInfo)
    (st : ServiceInfo × List String) (p : Pattern) :
    Except BuildErr (ServiceInfo × List String) :=
  let (s, optionsSet) := st
  if p.httpMethod ≠ "OPTIONS" then
    let routeMatch := p.uriTemplate.regex
    if containsStr routeMatch optionsSet then .ok (s, optionsSet)
    else
      match addOptionMethod s originalSelector orig ⟨"OPTIONS", p.uriTemplate⟩ with
      | .error e => .error e
      | .ok s => .ok (s, insertStr routeMatch optionsSet)
  else .ok (s, optionsSet)

/-- One rule of the CORS loop.  The source reads `s.Methods[selector]`
directly; a missing entry would panic on the `HttpRule` access. -/
def corsRuleStep (st : ServiceInfo × List String) (r : HttpRule) :
    Except BuildErr (ServiceInfo × List String) :=
  match lookupM r.selector st.1.methods with
  | none => .error .nilDeref
  | some m => foldE (corsPatternStep r.selector m) st m.httpRule

/-- The health-check step at the end of `processHttpRule`.  The source
discards the `ParseUriTemplate` error; for a pre-parsed literal path the
parse is the identity. -/
def addHealthzMethod (s : ServiceInfo) : Except BuildErr ServiceInfo :=
  match s.options.healthz with
  | none => .ok s
  | some t =>
    match getOrCreateMethod s (espOperation ++ "." ++ autogenBase ++ "_HealthCheck") with
    | .error e => .error e
    | .ok (mi, s) =>
      let mi := { mi with
        httpRule := mi.httpRule ++ [⟨"GET", t⟩]
        skipServiceControl := true
        isGenerated := true }
      let methods' := updateM (espOperation ++ "." ++ autogenBase ++ "_HealthCheck")
        (fun _ => mi) s.methods
      .ok { s with methods := methods' }

/-- `processHttpRule` (phase 6): the per-rule loop, then (when CORS is
allowed) the companion-OPTIONS loop over the same rules, then the
health-check method. -/
def processHttpRule (s : ServiceInfo) : Except BuildErr ServiceInfo :=
  match foldE processOneHttpRule (s, []) s.serviceConfig.http with
  | .error e => .error e
  | .ok (s, optionsSet) =>
    let afterCors : Except BuildErr ServiceInfo :=
      if s.allowCors then
        match foldE corsRuleStep (s, optionsSet) s.serviceConfig.http with
        | .error e => .error e
        | .ok (s, _) => .ok s
      else .ok s
    match afterCors with
    | .error e => .error e
    | .ok s => addHealthzMethod s

/-- `processUsageRule` (phase 7). -/
def processUsageRule (s : ServiceInfo) : Except BuildErr ServiceInfo :=
  foldE (fun s r =>
      match getOrCreateMethod s r.selector with
      | .error e => .error e
      | .ok (_, s) => .ok { s with
          methods := updateM r.selector
            (fun m => { m with
              allowUnregisteredCalls := r.allowUnregisteredCalls
              skipServiceControl := r.skipServiceControl }) s.methods })
    s s.serviceConfig.usage

/-- Build the snake→json map of a request type: fields whose name and
json name differ; the same snake name with a different json name is
fatal. -/
def buildSnakeToJson (fields : List TypeField) :
    Except BuildErr (List (String × String)) :=
  foldE (fun acc f =>
      if f.name ≠ f.jsonName then
        match lookupStr f.name acc with
        | some prev =>
          if prev ≠ f.jsonName then
            .error (.msg ("detected two types with same snake_name ("
              ++ f.name ++ ") but mistmatching json_name"))
          else .ok acc
        | none => .ok (acc ++ [(f.name, f.jsonName)])
      else .ok acc)
    [] fields

/-- Rename variables in every pattern of a method (the closure
`snakeNameToJsonNameForUriTemplates`). -/
def renamePatterns (snakeToJson : List (String × String)) (m : MethodInfo) :
    MethodInfo :=
  { m with httpRule := m.httpRule.map fun p =>
      { p with uriTemplate := p.uriTemplate.replaceVariableField snakeToJson } }

/-- One method of `processTypes`: look the request type up (skipping
malformed or unknown types with a warning), build the snake→json map,
and apply it to the method and its generated CORS companion. -/
def processTypesStep (types : List ProtoType) (s : ServiceInfo) (operation : String) :
    Except BuildErr ServiceInfo :=
  match lookupM operation s.methods with
  | none => .ok s
  | some mi =>
    if mi.requestTypeName = "" then .ok s
    else
      match types.find? (fun t => t.name = mi.requestTypeName) with
      | none => .ok s
      | some requestType =>
        match buildSnakeToJson requestType.fields with
        | .error e => .error e
        | .ok snakeToJson =>
          if snakeToJson.length > 0 then
            let s := { s with
              methods := updateM operation (renamePatterns snakeToJson) s.methods }
            match mi.generatedCorsMethod with
            | none => .ok s
            | some g => .ok { s with
                methods := updateM g (renamePatterns snakeToJson) s.methods }
          else .ok s

/-- `processTypes` (phase 9).  The source iterates the `Methods` map;
each step touches only its own method (and its companion), so the map
order is immaterial and the model iterates `operations`. -/
def processTypes (s : ServiceInfo) : Except BuildErr ServiceInfo :=
  foldE (processTypesStep s.serviceConfig.types) s s.operations

/-- One (api, method) of `addGrpcHttpRules`: the synthetic POST pattern
on `/<api>/<method>`.  The `getOrCreateMethod` error is discarded in
the source (the later append would then panic); the selector always
contains a dot, so the branch is unreachable and modelled as
`nilDeref`. -/
def addGrpcMethodRule (api : Api) (s : ServiceInfo) (method : ApiMethod) :
    Except BuildErr ServiceInfo :=
  match getOrCreateMethod s (api.name ++ "." ++ method.name) with
  | .error _ => .error .nilDeref
  | .ok (mi, s) =>
    match parseUriTemplate ⟨[.lit api.name, .lit method.name]⟩ with
    | .error _ => .error (.msg ("adding httpRules for grpc method "
        ++ api.name ++ "." ++ method.name))
    | .ok t =>
      let mi := { mi with httpRule := mi.httpRule ++ [⟨"POST", t⟩] }
      .ok { s with methods := updateM (api.name ++ "." ++ method.name) (fun _ => mi) s.methods }

/-- `addGrpcHttpRules` (phase 10): only when gRPC support is required. -/
def addGrpcHttpRules (s : ServiceInfo) : Except BuildErr ServiceInfo :=
  if !s.grpcSupportRequired then .ok s
  else
    foldE (fun s api => foldE (addGrpcMethodRule api) s api.methods)
      s s.serviceConfig.apis

/-- `extractApiKeyLocations`: url-query locations first (each also
marked transcoding-ignored), then header locations, blank names
skipped. -/
def extractApiKeyLocations (s : ServiceInfo) (selector : String)
    (parameters : List SystemParameter) : ServiceInfo :=
  let urlQueryNames := parameters.filterMap fun p =>
    if p.urlQueryParameter ≠ "" then some (ApiKeyLocation.query p.urlQueryParameter)
    else none
  let headerNames := parameters.filterMap fun p =>
    if p.httpHeader ≠ "" then some (ApiKeyLocation.header p.httpHeader) else none
  let ignored := parameters.foldl (fun acc p =>
    if p.urlQueryParameter ≠ "" then insertStr p.urlQueryParameter acc else acc)
    s.allTranscodingIgnoredQueryParams
  { s with
    allTranscodingIgnoredQueryParams := ignored
    methods := updateM selector
      (fun m => { m with apiKeyLocations :=
          m.apiKeyLocations ++ urlQueryNames ++ headerNames }) s.methods }

/-- `processApiKeyLocations` (phase 12): the system-parameter rules,
then the default ignored query names for methods with no custom
location.  The defaults loop iterates the `Methods` map in the source;
it only inserts two fixed names into a set, so the order is immaterial
and the model iterates the entry list. -/
def processApiKeyLocations (s : ServiceInfo) : Except BuildErr ServiceInfo :=
  let afterRules := foldE (fun s (rule : SystemParameterRule) =>
      let apiKeyLocationParameters := rule.parameters.filter
        (fun p => p.name = apiKeyParameterName)
      match getOrCreateMethod s rule.selector with
      | .error e => .error e
      | .ok (_, s) => .ok (extractApiKeyLocations s rule.selector apiKeyLocationParameters))
    s s.serviceConfig.systemParameters
  match afterRules with
  | .error e => .error e
  | .ok s =>
    let ignored := s.methods.foldl (fun acc km =>
      if km.2.apiKeyLocations.length = 0 then
        insertStr defaultApiKeyQueryParamApiKey (insertStr defaultApiKeyQueryParamKey acc)
      else acc) s.allTranscodingIgnoredQueryParams
    .ok { s with allTranscodingIgnoredQueryParams := ignored }

/-- Apply a value transformation to every entry of the method map. -/
def mapVals (h : MethodInfo → MethodInfo) (l : List (String × MethodInfo)) :
    List (String × MethodInfo) :=
  l.map fun km => (km.1, h km.2)

/-- The default binding to the local cluster installed for methods no
backend rule named. -/
def defaultLocalBinding (s : ServiceInfo) : BackendInfo :=
  { clusterName := s.localBackendCluster.clusterName
    path := ""
    hostname := ""
    translationType := .unspecified
    deadlineMs := defaultResponseDeadlineMs
    retryOns := s.options.backendRetryOns
    retryNum := s.options.backendRetryNum
    jwtAudience := "" }

/-- Keep an existing binding, install `bi` otherwise. -/
def installDefault (bi : BackendInfo) (m : MethodInfo) : MethodInfo :=
  match m.backendInfo with
  | some _ => m
  | none => { m with backendInfo := some bi }

/-- `processLocalBackendOperations` (phase 14): every method without a
binding gets the local cluster with the default deadline and the
configured retries.  The source iterates the `Methods` map; each step
touches only its own entry, so the model iterates the entry list. -/
def processLocalBackendOperations (s : ServiceInfo) : Except BuildErr ServiceInfo :=
  .ok { s with methods := mapVals (installDefault (defaultLocalBinding s)) s.methods }

/-- `processAuthRequirement` (phase 15): a rule with requirements whose
selector has no method is fatal; otherwise `RequireAuth` is set. -/
def processAuthRequirement (s : ServiceInfo) : Except BuildErr ServiceInfo :=
  foldE (fun s (rule : AuthRule) =>
      if rule.requirements.length > 0 then
        match lookupM rule.selector s.methods with
        | none => .error (.msg ("Authentication selector " ++ rule.selector
            ++ " is not defined in Api.method or Http.rule"))
        | some _ => .ok { s with
            methods := updateM rule.selector
              (fun m => { m with requireAuth := true }) s.methods }
      else .ok s)
    s s.serviceConfig.authRules

/-- The `ServiceInfo` the builder starts the phases from. -/
def initState (cfg : ServiceConfig) (id : String) (opts : ConfigGeneratorOptions)
    (localCluster : BackendRoutingCluster) (grpcRequired : Bool) : ServiceInfo :=
  { name := cfg.name
    configID := id
    apiNames := []
    operations := []
    methods := []
    allTranscodingIgnoredQueryParams := []
    allowCors := false
    serviceConfig := cfg
    options := opts
    grpcSupportRequired := grpcRequired
    localBackendCluster := localCluster
    remoteBackendClusters := [] }

/-- `NewServiceInfoFromServiceConfig`: nil config and empty api list are
fatal; then the phases run in order.  The access-token,
transcoding-ignored-query-params and OpenID-discovery phases involve
only collaborators or fields outside the modelled output and are
omitted; every modelled phase is present in source order. -/
def NewServiceInfoFromServiceConfig (serviceConfig : Option ServiceConfig)
    (id : String) (opts : ConfigGeneratorOptions) : Except BuildErr ServiceInfo :=
  match serviceConfig with
  | none => .error (.msg "unexpected empty service config")
  | some cfg =>
    if cfg.apis.length = 0 then
      .error (.msg "service config must have one api at least")
    else
      match buildLocalBackend cfg.name opts with
      | .error e => .error e
      | .ok (localCluster, grpcRequired) =>
        let s := processEndpoints (initState cfg id opts localCluster grpcRequired)
        match processApis s with
        | .error e => .error e
        | .ok s =>
        match processQuota s with
        | .error e => .error e
        | .ok s =>
        match processBackendRule s with
        | .error e => .error e
        | .ok s =>
        match processHttpRule s with
        | .error e => .error e
        | .ok s =>
        match processUsageRule s with
        | .error e => .error e
        | .ok s =>
        match processTypes s with
        | .error e => .error e
        | .ok s =>
        match addGrpcHttpRules s with
        | .error e => .error e
        | .ok s =>
        match processApiKeyLocations s with
        | .error e => .error e
        | .ok s =>
        match processLocalBackendOperations s with
        | .error e => .error e
        | .ok s => processAuthRequirement s

/-! ## The route-table generator (`configgenerator`) -/

inductive PathSpec where
  | exactPath (p : String)
  | safeRegex (r : String)
  | prefixPat (p : String)
deriving DecidableEq, Repr

structure HeaderMatcher where
  name : String
  exactMatch : String
deriving DecidableEq, Repr

structure RouteMatch where
  pathSpec : PathSpec
  headers : List HeaderMatcher
deriving DecidableEq, Repr

/-- The path-rewrite per-route configuration
(`prpb.PerRouteFilterConfig`). -/
inductive PathRewriteConf where
  | prefixPath (p : String)
  | constantPath (path : String) (urlTemplate : Option String)
deriving DecidableEq, Repr

/-- The per-route filter map of `makePerRouteFilterConfig`, as a record:
service-control is always present, the other three are optional. -/
structure PerRouteConfigs where
  serviceControlOperationName : String
  backendAuthJwtAudience : Option String
  pathRewrite : Option PathRewriteConf
  jwtAuthnRequirementName : Option String
deriving DecidableEq, Repr

structure RetryPolicy where
  retryOn : String
  numRetries : Nat
deriving DecidableEq, Repr

/-- A route action; `timeoutMs`/`retryPolicy` are `none` on the CORS
catch-all route, which sets neither. -/
structure RouteAction where
  cluster : String
  timeoutMs : Option Int
  retryPolicy : Option RetryPolicy
  hostRewriteLiteral : Option String
deriving DecidableEq, Repr

structure Route where
  routeMatch : RouteMatch
  action : RouteAction
  decorator : String
  perFilterConfigs : Option PerRouteConfigs
  responseHeadersToAdd : List (String × String)
deriving DecidableEq, Repr

structure CorsPolicy where
  allowOriginExact : Option String
  allowOriginRegex : Option String
  allowMethods : String
  allowHeaders : String
  exposeHeaders : String
  allowCredentials : Option Bool
deriving DecidableEq, Repr

structure VirtualHost where
  name : String
  domains : List String
  routes : List Route
  cors : Option CorsPolicy
deriving DecidableEq, Repr

structure RouteConfiguration where
  name : String
  virtualHosts : List VirtualHost
deriving DecidableEq, Repr

/-- `MakePathRewriteConfig`: `APPEND_PATH_TO_ADDRESS` with non-empty
path yields a prefix rewrite; `CONSTANT_ADDRESS` yields a constant path,
with the exact-match string as url template when the pattern has
captured variables. -/
def MakePathRewriteConfig (method : MethodInfo) (httpRule : Pattern) :
    Option PathRewriteConf :=
  match method.backendInfo with
  | none => none
  | some bi =>
    if bi.translationType = .appendPathToAddress then
      if bi.path ≠ "" then some (.prefixPath bi.path) else none
    else if bi.translationType = .constantAddress then
      some (.constantPath bi.path
        (if httpRule.uriTemplate.variableNames.length > 0 then
          some (httpRule.uriTemplate.exactMatchString false)
        else none))
    else none

/-- `makePerRouteFilterConfig`: service-control always; backend-auth iff
the binding has a non-empty audience; path-rewrite as computed;
jwt-authn iff the method requires auth. -/
def makePerRouteFilterConfig (operation : String) (method : MethodInfo)
    (httpRule : Pattern) : PerRouteConfigs :=
  { serviceControlOperationName := operation
    backendAuthJwtAudience :=
      match method.backendInfo with
      | some bi => if bi.jwtAudience ≠ "" then some bi.jwtAudience else none
      | none => none
    pathRewrite := MakePathRewriteConfig method httpRule
    jwtAuthnRequirementName :=
      if method.requireAuth then some operation else none }

/-- `makeHttpExactPathRouteMatcher`. -/
def makeHttpExactPathRouteMatcher (path : String) : RouteMatch :=
  { pathSpec := .exactPath path, headers := [] }

/-- `makeHttpRouteMatchers`: exact templates yield the no-trailing-slash
path matcher plus the trailing-slash one when different; other templates
yield one safe-regex matcher; a non-wildcard verb attaches a `:method`
exact header matcher to each. -/
def makeHttpRouteMatchers (httpRule : Pattern) : List RouteMatch :=
  let routeMatchers :=
    if httpRule.uriTemplate.isExactMatch then
      let pathNoTrailingSlash := httpRule.uriTemplate.exactMatchString false
      let pathWithTrailingSlash := httpRule.uriTemplate.exactMatchString true
      if pathWithTrailingSlash ≠ pathNoTrailingSlash then
        [makeHttpExactPathRouteMatcher pathNoTrailingSlash,
         makeHttpExactPathRouteMatcher pathWithTrailingSlash]
      else [makeHttpExactPathRouteMatcher pathNoTrailingSlash]
    else
      [{ pathSpec := .safeRegex httpRule.uriTemplate.regex, headers := [] }]
  if httpRule.httpMethod ≠ httpMethodWildCard then
    routeMatchers.map fun rm =>
      { rm with headers := [{ name := ":method", exactMatch := httpRule.httpMethod }] }
  else routeMatchers

/-- Modelled from the spec (§4.2 Method Ordering): the structural rank
of a segment — literal < single wildcard < named capture < double
wildcard. -/
def segRank : Seg → Nat
  | .lit _ => 0
  | .star => 1
  | .capture _ _ => 2
  | .doubleStar => 3

/-- Lexicographic comparison of rank lists. -/
def lexLeNat : List Nat → List Nat → Bool
  | [], [] => true
  | [], _ :: _ => true
  | _ :: _, [] => false
  | a :: as, b :: bs => if a < b then true else if b < a then false else lexLeNat as bs

/-- Modelled from the spec (§4.2): the comparator fed to the stable
sort — exact before regex, fewer wildcards first, then
segment-by-segment ranks, a concrete verb before the wildcard verb,
OPTIONS before other verbs; ties fall to input (`Operations`) order via
sort stability. -/
def patternLe (a b : String × Pattern) : Bool :=
  let key : String × Pattern → Nat × Nat × List Nat × Nat × Nat := fun sp =>
    let t := sp.2.uriTemplate
    (if t.isExactMatch then 0 else 1,
     t.segments.countP (fun s => segRank s ≠ 0),
     t.segments.map segRank,
     if sp.2.httpMethod = httpMethodWildCard then 1 else 0,
     if sp.2.httpMethod = "OPTIONS" then 0 else 1)
  let (e₁, w₁, l₁, m₁, o₁) := key a
  let (e₂, w₂, l₂, m₂, o₂) := key b
  if e₁ ≠ e₂ then e₁ < e₂
  else if w₁ ≠ w₂ then w₁ < w₂
  else if l₁ ≠ l₂ then lexLeNat l₁ l₂
  else if m₁ ≠ m₂ then m₁ < m₂
  else o₁ ≤ o₂

/-- Insert placing `x` before the first element it compares ≤ to, so that
elements inserted earlier (input order) precede tie-equal later ones
(stable insertion). -/
def insertLe (le : α → α → Bool) (x : α) : List α → List α
  | [] => [x]
  | y :: ys => if le x y then x :: y :: ys else y :: insertLe le x ys

/-- Modelled from the spec (§4.2): `httppattern.Sort` — a stable sort by
the comparator. -/
def sortLe (le : α → α → Bool) : List α → List α
  | [] => []
  | x :: xs => insertLe le x (sortLe le xs)

/-- The (operation, pattern) pairs in `Operations` order
(`getSortMethodsByHttpPattern` before sorting).  A selector without a
method entry would panic in the source on the `HttpRule` access. -/
def collectPatterns (s : ServiceInfo) : Except BuildErr (List (String × Pattern)) :=
  foldE (fun acc op =>
      match lookupM op s.methods with
      | none => .error .nilDeref
      | some m => .ok (acc ++ m.httpRule.map fun p => (op, p)))
    [] s.operations

/-- `getSortMethodsByHttpPattern`. -/
def getSortMethodsByHttpPattern (s : ServiceInfo) :
    Except BuildErr (List (String × Pattern)) :=
  match collectPatterns s with
  | .error e => .error e
  | .ok l => .ok (sortLe patternLe l)

/-- One route of `makeRouteTable` for a given matcher. -/
def mkRoute (s : ServiceInfo) (operation : String) (method : MethodInfo)
    (bi : BackendInfo) (httpRule : Pattern) (timeoutMs : Int)
    (rm : RouteMatch) : Route :=
  { routeMatch := rm
    action :=
      { cluster := bi.clusterName
        timeoutMs := some timeoutMs
        retryPolicy := some { retryOn := bi.retryOns, numRetries := bi.retryNum }
        hostRewriteLiteral := if bi.hostname ≠ "" then some bi.hostname else none }
    decorator := spanNameBase ++ " " ++ method.shortName
    perFilterConfigs := some (makePerRouteFilterConfig operation method httpRule)
    responseHeadersToAdd :=
      if s.options.enableHSTS then
        [("Strict-Transport-Security", "max-age=31536000; includeSubdomains")]
      else [] }

/-- The routes of one sorted (operation, pattern) pair.  The source
dereferences `method.BackendInfo` unconditionally for the cluster, so a
method without a binding panics (`nilDeref`); streaming methods get a
zero timeout. -/
def routesForPattern (s : ServiceInfo) (op : String) (p : Pattern) :
    Except BuildErr (List Route) :=
  match lookupM op s.methods with
  | none => .error .nilDeref
  | some method =>
    match method.backendInfo with
    | none => .error .nilDeref
    | some bi =>
      let respTimeout : Int := if method.isStreaming then 0 else bi.deadlineMs
      .ok ((makeHttpRouteMatchers p).map (mkRoute s op method bi p respTimeout))

/-- `makeRouteTable`. -/
def makeRouteTable (s : ServiceInfo) : Except BuildErr (List Route) :=
  match getSortMethodsByHttpPattern s with
  | .error e => .error e
  | .ok sorted =>
    foldE (fun acc (opp : String × Pattern) =>
        match routesForPattern s opp.1 opp.2 with
        | .error e => .error e
        | .ok rs => .ok (acc ++ rs))
      [] sorted

/-- The catch-all OPTIONS preflight route appended when a CORS policy is
configured. -/
def corsCatchAllRoute (s : ServiceInfo) : Route :=
  { routeMatch :=
      { pathSpec := .prefixPat "/"
        headers := [{ name := ":method", exactMatch := "OPTIONS" }] }
    action :=
      { cluster := s.localBackendClusterName
        timeoutMs := none
        retryPolicy := none
        hostRewriteLiteral := none }
    decorator := spanNameBase
    perFilterConfigs := none
    responseHeadersToAdd := [] }

/-- `MakeRouteConfig`: the per-selector route table, then the CORS
preset switch (empty preset with any of allow-methods / allow-headers /
expose-headers / allow-credentials set is fatal; an unknown preset is
fatal; `basic` requires an origin; `cors_with_regex` requires a regex
within the program-size bound), then the catch-all OPTIONS route when a
policy was configured, in a single virtual host `backend` with domains
`*` under configuration name `local_route`. -/
def MakeRouteConfig (s : ServiceInfo) : Except BuildErr RouteConfiguration :=
  match makeRouteTable s with
  | .error e => .error e
  | .ok brRoutes =>
    let corsPolicy : Except BuildErr (Option CorsPolicy) :=
      if s.options.corsPreset = "basic" then
        if s.options.corsAllowOrigin = "" then
          .error (.msg "cors_allow_origin cannot be empty when cors_preset=basic")
        else .ok (some
          { allowOriginExact := some s.options.corsAllowOrigin
            allowOriginRegex := none
            allowMethods := ""
            allowHeaders := ""
            exposeHeaders := ""
            allowCredentials := none })
      else if s.options.corsPreset = "cors_with_regex" then
        if s.options.corsAllowOriginRegex = "" then
          .error (.msg "cors_allow_origin_regex cannot be empty when cors_preset=cors_with_regex")
        else if !validateRegexProgramSize s.options.corsAllowOriginRegex
            googleRE2MaxProgramSize then
          .error (.msg "invalid cors origin regex")
        else .ok (some
          { allowOriginExact := none
            allowOriginRegex := some s.options.corsAllowOriginRegex
            allowMethods := ""
            allowHeaders := ""
            exposeHeaders := ""
            allowCredentials := none })
      else if s.options.corsPreset = "" then
        if s.options.corsAllowMethods ≠ "" ∨ s.options.corsAllowHeaders ≠ ""
            ∨ s.options.corsExposeHeaders ≠ "" ∨ s.options.corsAllowCredentials then
          .error (.msg "cors_preset must be set in order to enable CORS support")
        else .ok none
      else .error (.msg "cors_preset must be either basic or cors_with_regex")
    match corsPolicy with
    | .error e => .error e
    | .ok none =>
      let host : VirtualHost :=
        { name := "backend", domains := ["*"], routes := brRoutes, cors := none }
      .ok { name := "local_route", virtualHosts := [host] }
    | .ok (some policy) =>
      let policy := { policy with
        allowMethods := s.options.corsAllowMethods
        allowHeaders := s.options.corsAllowHeaders
        exposeHeaders := s.options.corsExposeHeaders
        allowCredentials := some s.options.corsAllowCredentials }
      let host : VirtualHost :=
        { name := "backend", domains := ["*"]
          routes := brRoutes ++ [corsCatchAllRoute s], cors := some policy }
      .ok { name := "local_route", virtualHosts := [host] }

/-- Modelled from the spec (§4.6 Cluster Assembly): the cluster list the
claims speak about — the single local cluster followed by the
deduplicated remote clusters (auxiliary clusters are out of scope). -/
def makeClusters (s : ServiceInfo) : List BackendRoutingCluster :=
  s.localBackendCluster :: s.remoteBackendClusters

/-! ## Fold and map lemmas -/

theorem foldE_nil (f : σ → α → Except BuildErr σ) (s : σ) : foldE f s [] = .ok s := rfl

theorem foldE_cons (f : σ → α → Except BuildErr σ) (s : σ) (a : α) (l : List α) :
    foldE f s (a :: l) =
      match f s a with
      | .error e => .error e
      | .ok s' => foldE f s' l := rfl

/-- Invariant propagation through a fold. -/
theorem foldE_inv {f : σ → α → Except BuildErr σ} {P : σ → Prop}
    (hstep : ∀ s a s', P s → f s a = .ok s' → P s') :
    ∀ (l : List α) (s s' : σ), P s → foldE f s l = .ok s' → P s' := by
  intro l
  induction l with
  | nil =>
    intro s s' hP h
    rw [foldE_nil] at h
    cases h
    exact hP
  | cons a l ih =>
    intro s s' hP h
    rw [foldE_cons] at h
    cases hfa : f s a with
    | error e => rw [hfa] at h; cases h
    | ok s₁ => rw [hfa] at h; exact ih s₁ s' (hstep s a s₁ hP hfa) h

/-- Invariant propagation indexed by the processed prefix. -/
theorem foldE_inv_pre {f : σ → α → Except BuildErr σ} {P : List α → σ → Prop}
    (hstep : ∀ pre s a s', P pre s → f s a = .ok s' → P (pre ++ [a]) s') :
    ∀ (l pre : List α) (s s' : σ), P pre s → foldE f s l = .ok s' →
      P (pre ++ l) s' := by
  intro l
  induction l with
  | nil =>
    intro pre s s' hP h
    rw [foldE_nil] at h
    cases h
    simpa using hP
  | cons a l ih =>
    intro pre s s' hP h
    rw [foldE_cons] at h
    cases hfa : f s a with
    | error e => rw [hfa] at h; cases h
    | ok s₁ =>
      rw [hfa] at h
      have := ih (pre ++ [a]) s₁ s' (hstep pre s a s₁ hP hfa) h
      simpa using this

/-- A reflexive-transitive step relation survives a fold. -/
theorem foldE_rel {f : σ → α → Except BuildErr σ} {R : σ → σ → Prop}
    (hrefl : ∀ s, R s s) (htrans : ∀ a b c, R a b → R b c → R a c)
    (hstep : ∀ s a s', f s a = .ok s' → R s s') :
    ∀ (l : List α) (s s' : σ), foldE f s l = .ok s' → R s s' := by
  intro l
  induction l with
  | nil =>
    intro s s' h
    rw [foldE_nil] at h
    cases h
    exact hrefl s
  | cons a l ih =>
    intro s s' h
    rw [foldE_cons] at h
    cases hfa : f s a with
    | error e => rw [hfa] at h; cases h
    | ok s₁ => rw [hfa] at h; exact htrans s s₁ s' (hstep s a s₁ hfa) (ih s₁ s' h)

theorem lookupM_updateM_self (k : String) (f : MethodInfo → MethodInfo) :
    ∀ l, lookupM k (updateM k f l) = (lookupM k l).map f := by
  intro l
  induction l with
  | nil => rfl
  | cons kv rest ih =>
    by_cases h : kv.1 = k
    · simp [lookupM, updateM, h]
    · simp [lookupM, updateM, h, ih]

theorem lookupM_updateM_ne {k k' : String} (h : k' ≠ k) (f : MethodInfo → MethodInfo) :
    ∀ l, lookupM k (updateM k' f l) = lookupM k l := by
  intro l
  induction l with
  | nil => rfl
  | cons kv rest ih =>
    obtain ⟨k₀, v₀⟩ := kv
    by_cases hk : k₀ = k'
    · subst hk
      simp [updateM, lookupM, h, ih]
    · simp [updateM, lookupM, hk, ih]

theorem keysM_updateM (k : String) (f : MethodInfo → MethodInfo) :
    ∀ l, keysM (updateM k f l) = keysM l := by
  intro l
  induction l with
  | nil => rfl
  | cons kv rest ih =>
    by_cases h : kv.1 = k
    · simp [keysM, updateM, h]
    · simp [keysM, updateM, h]
      simpa [keysM] using ih

theorem lookupM_append_none {k : String} {l₁ : List (String × MethodInfo)}
    (h : lookupM k l₁ = none) (l₂ : List (String × MethodInfo)) :
    lookupM k (l₁ ++ l₂) = lookupM k l₂ := by
  induction l₁ with
  | nil => rfl
  | cons kv rest ih =>
    by_cases hk : kv.1 = k
    · simp [lookupM, hk] at h
    · simp [lookupM, hk] at h ⊢
      exact ih h

theorem lookupM_append_some {k : String} {l₁ : List (String × MethodInfo)}
    {v : MethodInfo} (h : lookupM k l₁ = some v) (l₂ : List (String × MethodInfo)) :
    lookupM k (l₁ ++ l₂) = some v := by
  induction l₁ with
  | nil => simp [lookupM] at h
  | cons kv rest ih =>
    by_cases hk : kv.1 = k
    · simp [lookupM, hk] at h ⊢
      exact h
    · simp [lookupM, hk] at h ⊢
      exact ih h

theorem lookupM_singleton_self (k : String) (v : MethodInfo) :
    lookupM k [(k, v)] = some v := by simp [lookupM]

theorem keysM_append (l₁ l₂ : List (String × MethodInfo)) :
    keysM (l₁ ++ l₂) = keysM l₁ ++ keysM l₂ := by
  simp [keysM]

theorem lookupM_updateM_isSome (k k' : String) (f : MethodInfo → MethodInfo)
    (l : List (String × MethodInfo)) :
    (lookupM k (updateM k' f l)).isSome = (lookupM k l).isSome := by
  by_cases h : k' = k
  · subst h
    rw [lookupM_updateM_self]
    cases lookupM k' l <;> rfl
  · rw [lookupM_updateM_ne h]

theorem lookupM_mapVals (k : String) (h : MethodInfo → MethodInfo) :
    ∀ l, lookupM k (mapVals h l) = (lookupM k l).map h := by
  intro l
  induction l with
  | nil => rfl
  | cons kv rest ih =>
    obtain ⟨k₀, v₀⟩ := kv
    by_cases hk : k₀ = k
    · simp [mapVals, lookupM, hk]
    · simp [mapVals, lookupM, hk]
      simpa [mapVals] using ih

theorem keysM_mapVals (h : MethodInfo → MethodInfo) (l : List (String × MethodInfo)) :
    keysM (mapVals h l) = keysM l := by
  simp [keysM, mapVals]

/-! ## Phase frame and growth -/

/-- The fields no builder phase changes once the initial state is set. -/
def Frame (s s' : ServiceInfo) : Prop :=
  s'.name = s.name ∧ s'.serviceConfig = s.serviceConfig ∧ s'.options = s.options ∧
  s'.localBackendCluster = s.localBackendCluster

theorem frame_refl (s : ServiceInfo) : Frame s s := ⟨rfl, rfl, rfl, rfl⟩

theorem frame_trans {a b c : ServiceInfo} (h₁ : Frame a b) (h₂ : Frame b c) :
    Frame a c :=
  ⟨h₂.1.trans h₁.1, h₂.2.1.trans h₁.2.1, h₂.2.2.1.trans h₁.2.2.1,
    h₂.2.2.2.trans h₁.2.2.2⟩

/-- Method-map growth: every present selector stays present. -/
def MGrow (s s' : ServiceInfo) : Prop :=
  ∀ k, (lookupM k s.methods).isSome → (lookupM k s'.methods).isSome

theorem mgrow_refl (s : ServiceInfo) : MGrow s s := fun _ h => h

theorem mgrow_trans {a b c : ServiceInfo} (h₁ : MGrow a b) (h₂ : MGrow b c) :
    MGrow a c := fun k h => h₂ k (h₁ k h)

/-- What every phase preserves: the frame fields and method presence. -/
def Pres (s s' : ServiceInfo) : Prop := Frame s s' ∧ MGrow s s'

theorem pres_refl (s : ServiceInfo) : Pres s s := ⟨frame_refl s, mgrow_refl s⟩

theorem pres_trans {a b c : ServiceInfo} (h₁ : Pres a b) (h₂ : Pres b c) :
    Pres a c := ⟨frame_trans h₁.1 h₂.1, mgrow_trans h₁.2 h₂.2⟩

/-- The two outcomes of a successful `getOrCreateMethod`. -/
theorem getOrCreateMethod_cases {s s' : ServiceInfo} {n : String} {mi : MethodInfo}
    (h : getOrCreateMethod s n = .ok (mi, s')) :
    (lookupM n s.methods = some mi ∧ s' = s) ∨
    (lookupM n s.methods = none ∧ mi = freshMethod n ∧
      s' = { s with methods := s.methods ++ [(n, freshMethod n)],
                    operations := s.operations ++ [n] }) := by
  unfold getOrCreateMethod at h
  cases hl : lookupM n s.methods with
  | some v =>
    rw [hl] at h
    simp at h
    exact .inl ⟨congrArg some h.1, h.2.symm⟩
  | none =>
    rw [hl] at h
    by_cases hlen : (splitDot n).length ≤ 1
    · simp [hlen] at h
    · simp [hlen] at h
      exact .inr ⟨rfl, h.1.symm, h.2.symm⟩

theorem getOrCreateMethod_pres {s s' : ServiceInfo} {n : String} {mi : MethodInfo}
    (h : getOrCreateMethod s n = .ok (mi, s')) : Pres s s' := by
  rcases getOrCreateMethod_cases h with ⟨_, h2⟩ | ⟨hnone, _, h2⟩
  · rw [h2]; exact pres_refl s
  · subst h2
    refine ⟨⟨rfl, rfl, rfl, rfl⟩, fun k hk => ?_⟩
    simp only
    cases hl : lookupM k s.methods with
    | some v => rw [lookupM_append_some hl]; rfl
    | none => rw [hl] at hk; simp at hk

/-- After a successful `getOrCreateMethod`, the selector is present. -/
theorem getOrCreateMethod_present {s s' : ServiceInfo} {n : String} {mi : MethodInfo}
    (h : getOrCreateMethod s n = .ok (mi, s')) : lookupM n s'.methods = some mi := by
  rcases getOrCreateMethod_cases h with ⟨hs, h2⟩ | ⟨hnone, hmi, h2⟩
  · rw [h2]; exact hs
  · subst h2
    simp only
    rw [lookupM_append_none hnone, lookupM_singleton_self, hmi]

theorem pres_updateM (s : ServiceInfo) (k : String) (f : MethodInfo → MethodInfo) :
    Pres s { s with methods := updateM k f s.methods } := by
  refine ⟨⟨rfl, rfl, rfl, rfl⟩, fun k' hk' => ?_⟩
  simpa [lookupM_updateM_isSome] using hk'

theorem exceptMap_ok {e : Except BuildErr α} {f : α → β} {y : β}
    (h : e.map f = .ok y) : ∃ x, e = .ok x ∧ y = f x := by
  cases e with
  | error err => simp [Except.map] at h
  | ok x =>
    refine ⟨x, rfl, ?_⟩
    simp [Except.map] at h
    exact h.symm

/-! ## Per-phase preservation -/

theorem processEndpoints_pres (s : ServiceInfo) : Pres s (processEndpoints s) :=
  ⟨⟨rfl, rfl, rfl, rfl⟩, fun _ h => h⟩

theorem processApiMethod_pres {api : Api} {s : ServiceInfo} {m : ApiMethod}
    {s' : ServiceInfo} (h : processApiMethod api s m = .ok s') : Pres s s' := by
  unfold processApiMethod at h
  cases hg : getOrCreateMethod s (api.name ++ "." ++ m.name) with
  | error e => rw [hg] at h; cases h
  | ok p =>
    obtain ⟨mi, s₁⟩ := p
    rw [hg] at h
    simp at h
    exact pres_trans (getOrCreateMethod_pres hg) (h ▸ pres_updateM s₁ _ _)

theorem processApis_pres {s s' : ServiceInfo} (h : processApis s = .ok s') :
    Pres s s' := by
  unfold processApis at h
  refine foldE_rel pres_refl (fun _ _ _ => pres_trans) ?_ _ _ _ h
  intro sa api sa' hstep
  have inner : Pres { sa with apiNames := sa.apiNames ++ [api.name] } sa' :=
    foldE_rel pres_refl (fun _ _ _ => pres_trans)
      (fun _ m sb' hm => processApiMethod_pres hm) _ _ _ hstep
  exact pres_trans ⟨⟨rfl, rfl, rfl, rfl⟩, fun _ hk => hk⟩ inner

theorem processQuota_pres {s s' : ServiceInfo} (h : processQuota s = .ok s') :
    Pres s s' := by
  unfold processQuota at h
  refine foldE_rel pres_refl (fun _ _ _ => pres_trans) ?_ _ _ _ h
  intro sa rule sa' hstep
  cases hl : lookupM rule.selector sa.methods with
  | none => rw [hl] at hstep; cases hstep
  | some mi =>
    rw [hl] at hstep
    cases hstep
    exact pres_updateM sa _ _

theorem addBackendInfoToMethod_pres {s : ServiceInfo} {r : BackendRule}
    {scheme hostname path clusterName : String} {s' : ServiceInfo}
    (h : addBackendInfoToMethod s r scheme hostname path clusterName = .ok s') :
    Pres s s' := by
  unfold addBackendInfoToMethod at h
  cases hg : getOrCreateMethod s r.selector with
  | error e => rw [hg] at h; cases h
  | ok p =>
    obtain ⟨mi, s₁⟩ := p
    rw [hg] at h
    simp at h
    exact pres_trans (getOrCreateMethod_pres hg) (h ▸ pres_updateM s₁ _ _)

theorem addRemoteCluster_pres (s : ServiceInfo) (addr : UriAddr)
    (protocol : BackendProtocol) (tls : Bool) :
    Pres s (addRemoteCluster s addr protocol tls) :=
  ⟨⟨rfl, rfl, rfl, rfl⟩, fun _ h => h⟩

theorem processOneBackendRule_pres {st st' : ServiceInfo × List (String × String)}
    {r : BackendRule} (h : processOneBackendRule st r = .ok st') :
    Pres st.1 st'.1 := by
  obtain ⟨s, c⟩ := st
  obtain ⟨s', c'⟩ := st'
  unfold processOneBackendRule at h
  dsimp only at h
  cases hr : r.address with
  | none =>
    rw [hr] at h
    dsimp only at h
    obtain ⟨sx, hb, hy⟩ := exceptMap_ok h
    cases hy
    exact addBackendInfoToMethod_pres hb
  | some addr =>
    rw [hr] at h
    dsimp only at h
    cases hl : lookupStr addr.hostPort c with
    | some cn =>
      rw [hl] at h
      obtain ⟨sx, hb, hy⟩ := exceptMap_ok h
      cases hy
      exact addBackendInfoToMethod_pres hb
    | none =>
      rw [hl] at h
      cases hp : parseBackendProtocol addr.scheme r.protocol with
      | error e => rw [hp] at h; cases h
      | ok pt =>
        obtain ⟨protocol, tls⟩ := pt
        rw [hp] at h
        simp only at h
        obtain ⟨sx, hb, hy⟩ := exceptMap_ok h
        cases hy
        exact pres_trans (addRemoteCluster_pres s addr protocol tls)
          (addBackendInfoToMethod_pres hb)

theorem processBackendRule_pres {s s' : ServiceInfo}
    (h : processBackendRule s = .ok s') : Pres s s' := by
  unfold processBackendRule at h
  cases hf : foldE processOneBackendRule (s, []) s.serviceConfig.backend with
  | error e => rw [hf] at h; cases h
  | ok p =>
    obtain ⟨sx, c⟩ := p
    rw [hf] at h
    cases h
    have := foldE_rel (R := fun (a b : ServiceInfo × List (String × String)) => Pres a.1 b.1)
      (fun a => pres_refl a.1) (fun _ _ _ hab hbc => pres_trans hab hbc)
      (fun _ _ _ hstep => processOneBackendRule_pres hstep) _ _ _ hf
    exact this

theorem processOneHttpRule_pres {st st' : ServiceInfo × List String} {r : HttpRule}
    (h : processOneHttpRule st r = .ok st') : Pres st.1 st'.1 := by
  obtain ⟨s, os⟩ := st
  obtain ⟨s', os'⟩ := st'
  unfold processOneHttpRule at h
  dsimp only at h
  cases hg : getOrCreateMethod s r.selector with
  | error e => rw [hg] at h; cases h
  | ok p =>
    obtain ⟨mi, s₁⟩ := p
    rw [hg] at h
    dsimp only at h
    cases ha : addHttpRule mi r.pattern os with
    | error e => rw [ha] at h; cases h
    | ok q =>
      obtain ⟨mi₁, os₁⟩ := q
      rw [ha] at h
      dsimp only at h
      cases hf : foldE (fun (st : MethodInfo × List String) b => addHttpRule st.1 b st.2)
          (mi₁, os₁) r.additionalBindings with
      | error e => rw [hf] at h; cases h
      | ok q₂ =>
        obtain ⟨mi₂, os₂⟩ := q₂
        rw [hf] at h
        simp at h
        obtain ⟨h1, h2⟩ := h
        exact pres_trans (getOrCreateMethod_pres hg) (h1 ▸ pres_updateM s₁ _ _)

theorem addOptionMethod_pres {s s' : ServiceInfo} {sel : String} {orig : MethodInfo}
    {pat : Pattern} (h : addOptionMethod s sel orig pat = .ok s') : Pres s s' := by
  unfold addOptionMethod at h
  by_cases hm : pat.httpMethod ≠ "OPTIONS"
  · rw [if_pos hm] at h; cases h
  · rw [if_neg hm] at h
    cases hg : getOrCreateMethod s (corsSelectorOf orig) with
    | error e => rw [hg] at h; cases h
    | ok p =>
      obtain ⟨mi, s₁⟩ := p
      rw [hg] at h
      simp at h
      subst h
      exact pres_trans (getOrCreateMethod_pres hg)
        (pres_trans (pres_updateM s₁ (corsSelectorOf orig) _) (pres_updateM _ sel _))

theorem corsPatternStep_pres {sel : String} {orig : MethodInfo}
    {st st' : ServiceInfo × List String} {p : Pattern}
    (h : corsPatternStep sel orig st p = .ok st') : Pres st.1 st'.1 := by
  obtain ⟨s, os⟩ := st
  obtain ⟨s', os'⟩ := st'
  unfold corsPatternStep at h
  dsimp only at h
  by_cases hm : p.httpMethod ≠ "OPTIONS"
  · rw [if_pos hm] at h
    by_cases hc : containsStr p.uriTemplate.regex os = true
    · rw [if_pos hc] at h
      cases h
      exact pres_refl s
    · rw [if_neg hc] at h
      cases ha : addOptionMethod s sel orig ⟨"OPTIONS", p.uriTemplate⟩ with
      | error e => rw [ha] at h; cases h
      | ok sx =>
        rw [ha] at h
        cases h
        exact addOptionMethod_pres ha
  · rw [if_neg hm] at h
    cases h
    exact pres_refl s

theorem corsRuleStep_pres {st st' : ServiceInfo × List String} {r : HttpRule}
    (h : corsRuleStep st r = .ok st') : Pres st.1 st'.1 := by
  unfold corsRuleStep at h
  cases hl : lookupM r.selector st.1.methods with
  | none => rw [hl] at h; cases h
  | some m =>
    rw [hl] at h
    exact foldE_rel (R := fun (a b : ServiceInfo × List String) => Pres a.1 b.1)
      (fun a => pres_refl a.1) (fun _ _ _ hab hbc => pres_trans hab hbc)
      (fun _ _ _ hstep => corsPatternStep_pres hstep) _ _ _ h

theorem addHealthzMethod_pres {s s' : ServiceInfo}
    (h : addHealthzMethod s = .ok s') : Pres s s' := by
  unfold addHealthzMethod at h
  cases hz : s.options.healthz with
  | none => rw [hz] at h; cases h; exact pres_refl s
  | some t =>
    rw [hz] at h
    cases hg : getOrCreateMethod s (espOperation ++ "." ++ autogenBase ++ "_HealthCheck") with
    | error e => rw [hg] at h; cases h
    | ok p =>
      obtain ⟨mi, s₁⟩ := p
      rw [hg] at h
      simp at h
      exact pres_trans (getOrCreateMethod_pres hg) (h ▸ pres_updateM s₁ _ _)

theorem processHttpRule_pres {s s' : ServiceInfo}
    (h : processHttpRule s = .ok s') : Pres s s' := by
  unfold processHttpRule at h
  cases hf : foldE processOneHttpRule (s, []) s.serviceConfig.http with
  | error e => rw [hf] at h; cases h
  | ok p =>
    obtain ⟨s₁, os₁⟩ := p
    rw [hf] at h
    simp only at h
    have pres₁ : Pres s s₁ :=
      foldE_rel (R := fun (a b : ServiceInfo × List String) => Pres a.1 b.1)
        (fun a => pres_refl a.1) (fun _ _ _ hab hbc => pres_trans hab hbc)
        (fun _ _ _ hstep => processOneHttpRule_pres hstep) _ _ _ hf
    by_cases hc : s₁.allowCors = true
    · rw [if_pos hc] at h
      cases hf₂ : foldE corsRuleStep (s₁, os₁) s₁.serviceConfig.http with
      | error e => rw [hf₂] at h; cases h
      | ok p₂ =>
        obtain ⟨s₂, os₂⟩ := p₂
        rw [hf₂] at h
        simp only at h
        have pres₂ : Pres s₁ s₂ :=
          foldE_rel (R := fun (a b : ServiceInfo × List String) => Pres a.1 b.1)
            (fun a => pres_refl a.1) (fun _ _ _ hab hbc => pres_trans hab hbc)
            (fun _ _ _ hstep => corsRuleStep_pres hstep) _ _ _ hf₂
        exact pres_trans pres₁ (pres_trans pres₂ (addHealthzMethod_pres h))
    · rw [if_neg hc] at h
      simp only at h
      exact pres_trans pres₁ (addHealthzMethod_pres h)

theorem processUsageRule_pres {s s' : ServiceInfo}
    (h : processUsageRule s = .ok s') : Pres s s' := by
  unfold processUsageRule at h
  refine foldE_rel pres_refl (fun _ _ _ => pres_trans) ?_ _ _ _ h
  intro sa r sa' hstep
  cases hg : getOrCreateMethod sa r.selector with
  | error e => rw [hg] at hstep; cases hstep
  | ok p =>
    obtain ⟨mi, s₁⟩ := p
    rw [hg] at hstep
    cases hstep
    exact pres_trans (getOrCreateMethod_pres hg) (pres_updateM s₁ _ _)

theorem processTypesStep_pres {types : List ProtoType} {s s' : ServiceInfo}
    {op : String} (h : processTypesStep types s op = .ok s') : Pres s s' := by
  unfold processTypesStep at h
  cases hl : lookupM op s.methods with
  | none => rw [hl] at h; cases h; exact pres_refl s
  | some mi =>
    rw [hl] at h
    dsimp only at h
    by_cases he : mi.requestTypeName = ""
    · rw [if_pos he] at h; cases h; exact pres_refl s
    · rw [if_neg he] at h
      cases hft : types.find? (fun t => t.name = mi.requestTypeName) with
      | none => rw [hft] at h; cases h; exact pres_refl s
      | some rt =>
        rw [hft] at h
        dsimp only at h
        cases hb : buildSnakeToJson rt.fields with
        | error e => rw [hb] at h; cases h
        | ok sj =>
          rw [hb] at h
          dsimp only at h
          by_cases hn : sj.length > 0
          · rw [if_pos hn] at h
            cases hg : mi.generatedCorsMethod with
            | none =>
              rw [hg] at h
              cases h
              exact pres_updateM s _ _
            | some g =>
              rw [hg] at h
              cases h
              exact pres_trans (pres_updateM s op _) (pres_updateM _ g _)
          · rw [if_neg hn] at h; cases h; exact pres_refl s

theorem processTypes_pres {s s' : ServiceInfo}
    (h : processTypes s = .ok s') : Pres s s' := by
  unfold processTypes at h
  exact foldE_rel pres_refl (fun _ _ _ => pres_trans)
    (fun _ _ _ hstep => processTypesStep_pres hstep) _ _ _ h

theorem addGrpcMethodRule_pres {api : Api} {s s' : ServiceInfo} {m : ApiMethod}
    (h : addGrpcMethodRule api s m = .ok s') : Pres s s' := by
  unfold addGrpcMethodRule at h
  cases hg : getOrCreateMethod s (api.name ++ "." ++ m.name) with
  | error e => rw [hg] at h; cases h
  | ok p =>
    obtain ⟨mi, s₁⟩ := p
    rw [hg] at h
    cases hp : parseUriTemplate ⟨[.lit api.name, .lit m.name]⟩ with
    | error e => rw [hp] at h; cases h
    | ok t =>
      rw [hp] at h
      simp at h
      exact pres_trans (getOrCreateMethod_pres hg) (h ▸ pres_updateM s₁ _ _)

theorem addGrpcHttpRules_pres {s s' : ServiceInfo}
    (h : addGrpcHttpRules s = .ok s') : Pres s s' := by
  unfold addGrpcHttpRules at h
  cases hgr : s.grpcSupportRequired with
  | false =>
    rw [hgr] at h
    simp at h
    rw [← h]
    exact pres_refl s
  | true =>
    rw [hgr] at h
    simp at h
    refine foldE_rel pres_refl (fun _ _ _ => pres_trans) ?_ _ _ _ h
    intro sa api sa' hstep
    exact foldE_rel pres_refl (fun _ _ _ => pres_trans)
      (fun _ m sb' hm => addGrpcMethodRule_pres hm) _ _ _ hstep

theorem extractApiKeyLocations_pres (s : ServiceInfo) (sel : String)
    (ps : List SystemParameter) : Pres s (extractApiKeyLocations s sel ps) := by
  refine ⟨⟨rfl, rfl, rfl, rfl⟩, fun k hk => ?_⟩
  unfold extractApiKeyLocations
  simpa [lookupM_updateM_isSome] using hk

theorem processApiKeyLocations_pres {s s' : ServiceInfo}
    (h : processApiKeyLocations s = .ok s') : Pres s s' := by
  unfold processApiKeyLocations at h
  cases hf : foldE (fun s (rule : SystemParameterRule) =>
      match getOrCreateMethod s rule.selector with
      | .error e => .error e
      | .ok (_, s) => .ok (extractApiKeyLocations s rule.selector
          (rule.parameters.filter (fun p => p.name = apiKeyParameterName))))
      s s.serviceConfig.systemParameters with
  | error e => rw [hf] at h; cases h
  | ok sx =>
    rw [hf] at h
    cases h
    have pres₁ : Pres s sx := by
      refine foldE_rel pres_refl (fun _ _ _ => pres_trans) ?_ _ _ _ hf
      intro sa rule sa' hstep
      cases hg : getOrCreateMethod sa rule.selector with
      | error e => rw [hg] at hstep; cases hstep
      | ok p =>
        obtain ⟨mi, s₁⟩ := p
        rw [hg] at hstep
        cases hstep
        exact pres_trans (getOrCreateMethod_pres hg) (extractApiKeyLocations_pres s₁ _ _)
    exact pres_trans pres₁ ⟨⟨rfl, rfl, rfl, rfl⟩, fun _ hk => hk⟩

theorem processLocalBackendOperations_pres {s s' : ServiceInfo}
    (h : processLocalBackendOperations s = .ok s') : Pres s s' := by
  unfold processLocalBackendOperations at h
  cases h
  refine ⟨⟨rfl, rfl, rfl, rfl⟩, fun k hk => ?_⟩
  simp only
  rw [lookupM_mapVals]
  cases hl : lookupM k s.methods with
  | none => rw [hl] at hk; simp at hk
  | some v => rfl

theorem processAuthRequirement_pres {s s' : ServiceInfo}
    (h : processAuthRequirement s = .ok s') : Pres s s' := by
  unfold processAuthRequirement at h
  refine foldE_rel pres_refl (fun _ _ _ => pres_trans) ?_ _ _ _ h
  intro sa rule sa' hstep
  by_cases hn : rule.requirements.length > 0
  · rw [if_pos hn] at hstep
    cases hl : lookupM rule.selector sa.methods with
    | none => rw [hl] at hstep; cases hstep
    | some mi =>
      rw [hl] at hstep
      cases hstep
      exact pres_updateM sa _ _
  · rw [if_neg hn] at hstep
    cases hstep
    exact pres_refl sa

end ESPv2

namespace ESPv2

/-- A successful build decomposes into its phases in order. -/
theorem build_decomp {cfg : ServiceConfig} {id : String}
    {opts : ConfigGeneratorOptions} {sF : ServiceInfo}
    (h : NewServiceInfoFromServiceConfig (some cfg) id opts = .ok sF) :
    cfg.apis.length ≠ 0 ∧
    ∃ lc grpc s₂ s₃ s₄ s₅ s₆ s₇ s₈ s₉ s₁₀,
      buildLocalBackend cfg.name opts = .ok (lc, grpc) ∧
      processApis (processEndpoints (initState cfg id opts lc grpc)) = .ok s₂ ∧
      processQuota s₂ = .ok s₃ ∧
      processBackendRule s₃ = .ok s₄ ∧
      processHttpRule s₄ = .ok s₅ ∧
      processUsageRule s₅ = .ok s₆ ∧
      processTypes s₆ = .ok s₇ ∧
      addGrpcHttpRules s₇ = .ok s₈ ∧
      processApiKeyLocations s₈ = .ok s₉ ∧
      processLocalBackendOperations s₉ = .ok s₁₀ ∧
      processAuthRequirement s₁₀ = .ok sF := by
  unfold NewServiceInfoFromServiceConfig at h
  dsimp only at h
  by_cases hempty : cfg.apis.length = 0
  · rw [if_pos hempty] at h; cases h
  · rw [if_neg hempty] at h
    refine ⟨hempty, ?_⟩
    cases hlb : buildLocalBackend cfg.name opts with
    | error e => rw [hlb] at h; cases h
    | ok p =>
      obtain ⟨lc, grpc⟩ := p
      rw [hlb] at h
      dsimp only at h
      cases h2 : processApis (processEndpoints (initState cfg id opts lc grpc)) with
      | error e => rw [h2] at h; cases h
      | ok s₂ =>
        rw [h2] at h
        dsimp only at h
        cases h3 : processQuota s₂ with
        | error e => rw [h3] at h; cases h
        | ok s₃ =>
          rw [h3] at h
          dsimp only at h
          cases h4 : processBackendRule s₃ with
          | error e => rw [h4] at h; cases h
          | ok s₄ =>
            rw [h4] at h
            dsimp only at h
            cases h5 : processHttpRule s₄ with
            | error e => rw [h5] at h; cases h
            | ok s₅ =>
              rw [h5] at h
              dsimp only at h
              cases h6 : processUsageRule s₅ with
              | error e => rw [h6] at h; cases h
              | ok s₆ =>
                rw [h6] at h
                dsimp only at h
                cases h7 : processTypes s₆ with
                | error e => rw [h7] at h; cases h
                | ok s₇ =>
                  rw [h7] at h
                  dsimp only at h
                  cases h8 : addGrpcHttpRules s₇ with
                  | error e => rw [h8] at h; cases h
                  | ok s₈ =>
                    rw [h8] at h
                    dsimp only at h
                    cases h9 : processApiKeyLocations s₈ with
                    | error e => rw [h9] at h; cases h
                    | ok s₉ =>
                      rw [h9] at h
                      dsimp only at h
                      cases h10 : processLocalBackendOperations s₉ with
                      | error e => rw [h10] at h; cases h
                      | ok s₁₀ =>
                        rw [h10] at h
                        dsimp only at h
                        refine ⟨lc, grpc, s₂, s₃, s₄, s₅, s₆, s₇, s₈, s₉, s₁₀,
                          ?_, ?_, ?_, ?_, ?_, ?_, ?_, ?_, ?_, ?_, ?_⟩ <;>
                          first
                          | rfl
                          | assumption

/-- A successful build preserves the frame from the post-endpoints
initial state and only grows the method map. -/
theorem build_pres {cfg : ServiceConfig} {id : String}
    {opts : ConfigGeneratorOptions} {sF : ServiceInfo}
    (h : NewServiceInfoFromServiceConfig (some cfg) id opts = .ok sF) :
    sF.serviceConfig = cfg ∧ sF.options = opts ∧ sF.name = cfg.name := by
  obtain ⟨-, lc, grpc, s₂, s₃, s₄, s₅, s₆, s₇, s₈, s₉, s₁₀,
    hlb, h2, h3, h4, h5, h6, h7, h8, h9, h10, h11⟩ := build_decomp h
  have p : Pres (processEndpoints (initState cfg id opts lc grpc)) sF :=
    pres_trans (processApis_pres h2) <| pres_trans (processQuota_pres h3) <|
    pres_trans (processBackendRule_pres h4) <| pres_trans (processHttpRule_pres h5) <|
    pres_trans (processUsageRule_pres h6) <| pres_trans (processTypes_pres h7) <|
    pres_trans (addGrpcHttpRules_pres h8) <| pres_trans (processApiKeyLocations_pres h9) <|
    pres_trans (processLocalBackendOperations_pres h10) (processAuthRequirement_pres h11)
  exact ⟨p.1.2.1, p.1.2.2.1, p.1.1⟩

end ESPv2

namespace ESPv2

/-! ## Concrete fixtures for witnesses and counterexamples -/

/-- A minimal options value: local gRPC backend, no CORS, no health
check. -/
def optsW : ConfigGeneratorOptions :=
  { backendAddress := { scheme := "grpc", host := "127.0.0.1", port := some 8082, path := "" }
    corsPreset := ""
    corsAllowOrigin := ""
    corsAllowOriginRegex := ""
    corsAllowMethods := ""
    corsAllowHeaders := ""
    corsExposeHeaders := ""
    corsAllowCredentials := false
    healthz := none
    backendRetryOns := "reset,connect-failure"
    backendRetryNum := 1
    nonGCP := false
    enableHSTS := false }

/-- One api `a` with one unary method `m`. -/
def apiW : Api :=
  { name := "a", version := "v1"
    methods := [{ name := "m", requestStreaming := false, responseStreaming := false
                  requestTypeUrl := "type.googleapis.com/a.MReq" }] }

/-- The empty service description around `apiW`. -/
def cfgW : ServiceConfig :=
  { name := "svc"
    apis := [apiW]
    types := []
    http := []
    backend := []
    usage := []
    quota := []
    authRules := []
    systemParameters := []
    endpoints := [] }

def cfgNoApis : ServiceConfig := { cfgW with apis := [] }

/-! ## C10 -/

/-- C10: `NewServiceInfoFromServiceConfig` returns an error (producing
no model) on a nil service description and on a description with no
APIs; a successful build therefore implies at least one API. -/
theorem C10_builder_precondition :
    (∀ id opts, NewServiceInfoFromServiceConfig none id opts =
        .error (.msg "unexpected empty service config")) ∧
    (∀ cfg id opts, cfg.apis = [] →
        NewServiceInfoFromServiceConfig (some cfg) id opts =
          .error (.msg "service config must have one api at least")) ∧
    (∀ cfg id opts s, NewServiceInfoFromServiceConfig (some cfg) id opts = .ok s →
        cfg.apis ≠ []) := by
  refine ⟨fun id opts => rfl, fun cfg id opts h => ?_, fun cfg id opts s h hnil => ?_⟩
  · unfold NewServiceInfoFromServiceConfig
    dsimp only
    rw [if_pos (by simp [h])]
  · obtain ⟨hne, -⟩ := build_decomp h
    exact hne (by simp [hnil])

/-- C10 witness: the empty-API description is rejected, and the build of
the one-API description succeeds only because its API list is
non-empty. -/
theorem C10_builder_precondition_witness :
    cfgNoApis.apis = [] ∧
    NewServiceInfoFromServiceConfig (some cfgNoApis) "id" optsW =
      .error (.msg "service config must have one api at least") :=
  ⟨rfl, C10_builder_precondition.2.1 cfgNoApis "id" optsW rfl⟩

/-! ## C6 -/

/-- C6 (amended): the CORS gate of `MakeRouteConfig` — with an empty
preset, any of allow-methods / allow-headers / expose-headers /
allow-credentials being set is fatal (allow-origin and
allow-origin-regex are not checked there); an unknown preset is fatal;
`basic` with an empty origin is fatal; `cors_with_regex` with an empty
or oversize regex is fatal. -/
theorem C6_cors_preset_gating (s : ServiceInfo) :
    (s.options.corsPreset = "" →
      (s.options.corsAllowMethods ≠ "" ∨ s.options.corsAllowHeaders ≠ "" ∨
        s.options.corsExposeHeaders ≠ "" ∨ s.options.corsAllowCredentials = true) →
      isOkE (MakeRouteConfig s) = false) ∧
    (s.options.corsPreset ≠ "" → s.options.corsPreset ≠ "basic" →
      s.options.corsPreset ≠ "cors_with_regex" → isOkE (MakeRouteConfig s) = false) ∧
    (s.options.corsPreset = "basic" → s.options.corsAllowOrigin = "" →
      isOkE (MakeRouteConfig s) = false) ∧
    (s.options.corsPreset = "cors_with_regex" →
      (s.options.corsAllowOriginRegex = "" ∨
        validateRegexProgramSize s.options.corsAllowOriginRegex
          googleRE2MaxProgramSize = false) →
      isOkE (MakeRouteConfig s) = false) := by
  unfold MakeRouteConfig
  cases hrt : makeRouteTable s with
  | error e => exact ⟨fun _ _ => rfl, fun _ _ _ => rfl, fun _ _ => rfl, fun _ _ => rfl⟩
  | ok routes =>
    dsimp only
    refine ⟨fun hp hset => ?_, fun hp hb hc => ?_, fun hp ho => ?_, fun hp hr => ?_⟩
    · have hb : s.options.corsPreset ≠ "basic" := by rw [hp]; decide
      have hc : s.options.corsPreset ≠ "cors_with_regex" := by rw [hp]; decide
      rw [if_neg hb, if_neg hc, if_pos hp]
      have : (s.options.corsAllowMethods ≠ "" ∨ s.options.corsAllowHeaders ≠ "" ∨
          s.options.corsExposeHeaders ≠ "" ∨ s.options.corsAllowCredentials = true) := hset
      rw [if_pos this]
      rfl
    · rw [if_neg hb, if_neg hc, if_neg hp]
      rfl
    · rw [if_pos hp, if_pos ho]
      rfl
    · have hb : s.options.corsPreset ≠ "basic" := by rw [hp]; decide
      rw [if_neg hb, if_pos hp]
      cases hr with
      | inl hempty =>
        rw [if_pos hempty]
        rfl
      | inr hsize =>
        by_cases hempty : s.options.corsAllowOriginRegex = ""
        · rw [if_pos hempty]; rfl
        · rw [if_neg hempty]
          rw [if_pos (by simp [hsize])]
          rfl

/-- A throwaway state used as the default of `buildOr`. -/
def dummyState : ServiceInfo :=
  initState cfgW "id" optsW
    { clusterName := "", hostname := "", port := 0, useTLS := false, protocol := .http1 }
    false

/-- The built state of a successful concrete build, for closed
statements. -/
def buildOr (r : Except BuildErr ServiceInfo) : ServiceInfo :=
  match r with
  | .ok s => s
  | .error _ => dummyState

/-- The options of the C6 counterexample: `CorsAllowOrigin` set while
`CorsPreset` is empty. -/
def optsC6 : ConfigGeneratorOptions := { optsW with corsAllowOrigin := "example.com" }

def sC6 : ServiceInfo := buildOr (NewServiceInfoFromServiceConfig (some cfgW) "id" optsC6)

/-- C6 counterexample: with `CorsAllowOrigin` set and `CorsPreset`
empty, route-config generation succeeds, while the claim says it must
fail. -/
theorem C6_cors_preset_gating_counterexample :
    optsC6.corsAllowOrigin ≠ "" ∧ optsC6.corsPreset = "" ∧
    NewServiceInfoFromServiceConfig (some cfgW) "id" optsC6 = .ok sC6 ∧
    isOkE (MakeRouteConfig sC6) = true :=
  ⟨by decide, rfl, by decide, by decide⟩

def optsC6b : ConfigGeneratorOptions := { optsW with corsPreset := "bogus" }

def sC6b : ServiceInfo := buildOr (NewServiceInfoFromServiceConfig (some cfgW) "id" optsC6b)

/-- C6 witness: an unknown preset is fatal at a concrete built state. -/
theorem C6_cors_preset_gating_witness :
    NewServiceInfoFromServiceConfig (some cfgW) "id" optsC6b = .ok sC6b ∧
    isOkE (MakeRouteConfig sC6b) = false := by
  have hb : NewServiceInfoFromServiceConfig (some cfgW) "id" optsC6b = .ok sC6b := by decide
  have hopts : sC6b.options = optsC6b := (build_pres hb).2.1
  exact ⟨hb, (C6_cors_preset_gating sC6b).2.1 (by rw [hopts]; decide)
    (by rw [hopts]; decide) (by rw [hopts]; decide)⟩

end ESPv2

namespace ESPv2

/-! ## Route-table membership -/

/-- A successful `routesForPattern` comes from the looked-up method and
its binding, one route per matcher. -/
theorem routesForPattern_ok {s : ServiceInfo} {op : String} {p : Pattern}
    {rs : List Route} (h : routesForPattern s op p = .ok rs) :
    ∃ method bi, lookupM op s.methods = some method ∧
      method.backendInfo = some bi ∧
      rs = (makeHttpRouteMatchers p).map
        (mkRoute s op method bi p (if method.isStreaming then 0 else bi.deadlineMs)) := by
  unfold routesForPattern at h
  cases hl : lookupM op s.methods with
  | none => rw [hl] at h; cases h
  | some method =>
    rw [hl] at h
    dsimp only at h
    cases hb : method.backendInfo with
    | none => rw [hb] at h; cases h
    | some bi =>
      rw [hb] at h
      dsimp only at h
      cases h
      exact ⟨method, bi, rfl, hb, rfl⟩

/-- Membership through the accumulating route fold. -/
theorem routesFold_mem {s : ServiceInfo} :
    ∀ (l : List (String × Pattern)) (acc routes : List Route),
      foldE (fun acc (opp : String × Pattern) =>
          match routesForPattern s opp.1 opp.2 with
          | .error e => .error e
          | .ok rs => .ok (acc ++ rs)) acc l = .ok routes →
      ∀ rt ∈ routes, rt ∈ acc ∨
        ∃ opp, opp ∈ l ∧ ∃ rs, routesForPattern s opp.1 opp.2 = .ok rs ∧ rt ∈ rs := by
  intro l
  induction l with
  | nil =>
    intro acc routes h rt hrt
    rw [foldE_nil] at h
    cases h
    exact .inl hrt
  | cons opp l ih =>
    intro acc routes h rt hrt
    rw [foldE_cons] at h
    cases hr : routesForPattern s opp.1 opp.2 with
    | error e => rw [hr] at h; cases h
    | ok rs =>
      rw [hr] at h
      rcases ih (acc ++ rs) routes h rt hrt with hacc | ⟨opp', hopp', rs', hrs', hmem⟩
      · rcases List.mem_append.1 hacc with h1 | h2
        · exact .inl h1
        · exact .inr ⟨opp, .head l, rs, hr, h2⟩
      · exact .inr ⟨opp', .tail _ hopp', rs', hrs', hmem⟩

/-- Every route of a successful `makeRouteTable` is one of the matcher
routes of some sorted (operation, pattern) pair. -/
theorem makeRouteTable_mem {s : ServiceInfo} {routes : List Route}
    (h : makeRouteTable s = .ok routes) :
    ∀ rt ∈ routes, ∃ op p method bi,
      lookupM op s.methods = some method ∧ method.backendInfo = some bi ∧
      rt ∈ (makeHttpRouteMatchers p).map
        (mkRoute s op method bi p (if method.isStreaming then 0 else bi.deadlineMs)) := by
  unfold makeRouteTable at h
  cases hs : getSortMethodsByHttpPattern s with
  | error e => rw [hs] at h; cases h
  | ok sorted =>
    rw [hs] at h
    intro rt hrt
    rcases routesFold_mem sorted [] routes h rt hrt with hacc | ⟨opp, hopp, rs, hrs, hmem⟩
    · cases hacc
    · obtain ⟨method, bi, hl, hb, hrs'⟩ := routesForPattern_ok hrs
      exact ⟨opp.1, opp.2, method, bi, hl, hb, hrs' ▸ hmem⟩

/-- The per-filter and action fields of a matcher route. -/
theorem mkRoute_fields (s : ServiceInfo) (op : String) (method : MethodInfo)
    (bi : BackendInfo) (p : Pattern) (t : Int) (rm : RouteMatch) :
    (mkRoute s op method bi p t rm).perFilterConfigs =
      some (makePerRouteFilterConfig op method p) ∧
    (mkRoute s op method bi p t rm).action.timeoutMs = some t ∧
    (mkRoute s op method bi p t rm).action.cluster = bi.clusterName ∧
    (mkRoute s op method bi p t rm).action.retryPolicy =
      some { retryOn := bi.retryOns, numRetries := bi.retryNum } :=
  ⟨rfl, rfl, rfl, rfl⟩

end ESPv2

namespace ESPv2

/-! ## C9 -/

/-- C9: every emitted route carries a service-control per-route
configuration whose operation name is the route's operation selector; a
jwt-authn per-route configuration with that selector as requirement
name exactly when the method requires auth; and a backend-auth
per-route configuration with the binding's audience exactly when that
audience is non-empty. -/
theorem C9_per_route_filter_binding {s : ServiceInfo} {routes : List Route}
    (h : makeRouteTable s = .ok routes) :
    ∀ rt ∈ routes, ∃ op m bi pfc,
      lookupM op s.methods = some m ∧ m.backendInfo = some bi ∧
      rt.perFilterConfigs = some pfc ∧
      pfc.serviceControlOperationName = op ∧
      pfc.jwtAuthnRequirementName = (if m.requireAuth then some op else none) ∧
      pfc.backendAuthJwtAudience =
        (if bi.jwtAudience = "" then none else some bi.jwtAudience) := by
  intro rt hrt
  obtain ⟨op, p, m, bi, hl, hb, hmem⟩ := makeRouteTable_mem h rt hrt
  obtain ⟨rm, hrm, hrt'⟩ := List.mem_map.1 hmem
  subst hrt'
  refine ⟨op, m, bi, makePerRouteFilterConfig op m p, hl, hb, rfl, rfl, rfl, ?_⟩
  unfold makePerRouteFilterConfig
  dsimp only
  rw [hb]
  by_cases ha : bi.jwtAudience = ""
  · simp [ha]
  · simp [ha]

/-- The C9 witness fixture: one authenticated method with a remote
backend carrying a JWT audience. -/
def cfgC9 : ServiceConfig :=
  { cfgW with
    http := [{ selector := "a.m", pattern := some (.get ⟨[.lit "x"]⟩)
               additionalBindings := [] }]
    backend := [{ selector := "a.m"
                  address := some { scheme := "https", host := "h", port := none, path := "/v1" }
                  deadline := 0, protocol := ""
                  authentication := some (.jwtAudience "https://aud")
                  pathTranslation := .constantAddress }]
    authRules := [{ selector := "a.m", requirements := ["p1"] }] }

def sC9 : ServiceInfo := buildOr (NewServiceInfoFromServiceConfig (some cfgC9) "id" optsW)

/-- The route list of a successful concrete route build, for closed
statements. -/
def routesOr (r : Except BuildErr (List Route)) : List Route :=
  match r with
  | .ok rs => rs
  | .error _ => []

def routesC9 : List Route := routesOr (makeRouteTable sC9)

/-- C9 witness: the per-route filter property at a concrete built
state. -/
theorem C9_per_route_filter_binding_witness :
    makeRouteTable sC9 = .ok routesC9 ∧ routesC9 ≠ [] ∧
    (∀ rt ∈ routesC9, ∃ op m bi pfc,
      lookupM op sC9.methods = some m ∧ m.backendInfo = some bi ∧
      rt.perFilterConfigs = some pfc ∧
      pfc.serviceControlOperationName = op ∧
      pfc.jwtAuthnRequirementName = (if m.requireAuth then some op else none) ∧
      pfc.backendAuthJwtAudience =
        (if bi.jwtAudience = "" then none else some bi.jwtAudience)) :=
  ⟨by decide, by decide, C9_per_route_filter_binding (by decide)⟩

end ESPv2

namespace ESPv2

/-! ## C7 -/

theorem foldE_congr {f g : σ → α → Except BuildErr σ} (h : ∀ s a, f s a = g s a) :
    ∀ (l : List α) (s : σ), foldE f s l = foldE g s l := by
  intro l
  induction l with
  | nil => intro s; rfl
  | cons a l ih =>
    intro s
    rw [foldE_cons, foldE_cons, h s a]
    cases g s a with
    | error e => rfl
    | ok s' => exact ih s'

/-- Lookups agree on permuted association lists with distinct keys. -/
theorem lookupM_perm : ∀ {l₁ l₂ : List (String × MethodInfo)}, l₁.Perm l₂ →
    (keysM l₁).Nodup → ∀ k, lookupM k l₁ = lookupM k l₂ := by
  intro l₁ l₂ p
  induction p with
  | nil => intro _ _; rfl
  | @cons x la lb p ih =>
    intro nd k
    obtain ⟨k₀, v₀⟩ := x
    have hnd' : (keysM la).Nodup := by
      have h2 : (k₀ :: keysM la).Nodup := by simpa [keysM] using nd
      exact h2.of_cons
    by_cases hk : k₀ = k
    · simp [lookupM, hk]
    · simp [lookupM, hk]
      exact ih hnd' k
  | swap x y l =>
    intro nd k
    obtain ⟨a, va⟩ := y
    obtain ⟨b, vb⟩ := x
    have hnd : (a :: b :: (keysM l)).Nodup := by simpa [keysM] using nd
    have hab : a ≠ b := by
      intro he
      exact (List.nodup_cons.1 hnd).1 (by simp [he])
    by_cases ha : a = k
    · have hb : ¬b = k := fun hbk => hab (ha.trans hbk.symm)
      simp [lookupM, ha, hb]
    · by_cases hb : b = k
      · simp [lookupM, ha, hb]
      · simp [lookupM, ha, hb]
  | trans p₁ p₂ ih₁ ih₂ =>
    intro nd k
    have nd₂ : (keysM _).Nodup := ((p₁.map Prod.fst).nodup_iff).1 nd
    exact (ih₁ nd k).trans (ih₂ nd₂ k)

theorem mkRoute_congr {s₁ s₂ : ServiceInfo} (hopts : s₁.options = s₂.options)
    (op : String) (m : MethodInfo) (bi : BackendInfo) (p : Pattern) (t : Int) :
    mkRoute s₁ op m bi p t = mkRoute s₂ op m bi p t := by
  funext rm
  unfold mkRoute
  rw [hopts]

theorem routesForPattern_congr {s₁ s₂ : ServiceInfo}
    (hlook : ∀ k, lookupM k s₁.methods = lookupM k s₂.methods)
    (hopts : s₁.options = s₂.options) (op : String) (p : Pattern) :
    routesForPattern s₁ op p = routesForPattern s₂ op p := by
  unfold routesForPattern
  rw [hlook op]
  cases lookupM op s₂.methods with
  | none => rfl
  | some m =>
    dsimp only
    cases m.backendInfo with
    | none => rfl
    | some bi =>
      dsimp only
      rw [mkRoute_congr hopts]

theorem collectPatterns_congr {s₁ s₂ : ServiceInfo}
    (hops : s₁.operations = s₂.operations)
    (hlook : ∀ k, lookupM k s₁.methods = lookupM k s₂.methods) :
    collectPatterns s₁ = collectPatterns s₂ := by
  unfold collectPatterns
  rw [hops]
  exact foldE_congr (fun acc op => by rw [hlook op]) _ _

theorem makeRouteTable_congr {s₁ s₂ : ServiceInfo}
    (hops : s₁.operations = s₂.operations)
    (hlook : ∀ k, lookupM k s₁.methods = lookupM k s₂.methods)
    (hopts : s₁.options = s₂.options) :
    makeRouteTable s₁ = makeRouteTable s₂ := by
  unfold makeRouteTable getSortMethodsByHttpPattern
  rw [collectPatterns_congr hops hlook]
  cases collectPatterns s₂ with
  | error e => rfl
  | ok l =>
    dsimp only
    exact foldE_congr (fun acc opp => by rw [routesForPattern_congr hlook hopts]) _ _

/-- C7: route and cluster output is a function of the canonical data —
`Operations` order, the method map as a lookup function, the options,
the service name and the cluster fields — and never of the association
order of the method map: two states whose method maps are permutations
of each other (with distinct selectors) produce identical route
configurations and identical cluster lists.  Build determinism itself
is definitional in the embedding; this is the content behind
"iterate keys in Operations order, not hash order". -/
theorem C7_route_output_map_order_invariance (s₁ s₂ : ServiceInfo)
    (hname : s₁.name = s₂.name)
    (hops : s₁.operations = s₂.operations)
    (hperm : s₁.methods.Perm s₂.methods)
    (hnd : (keysM s₁.methods).Nodup)
    (hopts : s₁.options = s₂.options)
    (hlc : s₁.localBackendCluster = s₂.localBackendCluster)
    (hrc : s₁.remoteBackendClusters = s₂.remoteBackendClusters) :
    MakeRouteConfig s₁ = MakeRouteConfig s₂ ∧ makeClusters s₁ = makeClusters s₂ := by
  have hlook := lookupM_perm hperm hnd
  constructor
  · have hcatch : corsCatchAllRoute s₁ = corsCatchAllRoute s₂ := by
      unfold corsCatchAllRoute ServiceInfo.localBackendClusterName
      rw [hname]
    unfold MakeRouteConfig
    rw [makeRouteTable_congr hops hlook hopts]
    cases makeRouteTable s₂ with
    | error e => rfl
    | ok routes =>
      dsimp only
      rw [hopts, hcatch]
  · unfold makeClusters
    rw [hlc, hrc]

/-- C7 witness: two states differing only in the association order of
the method map give the same routes and clusters. -/
def mA : MethodInfo := { freshMethod "a.m" with
  httpRule := [⟨"GET", ⟨[.lit "x"]⟩⟩]
  backendInfo := some
    { clusterName := "backend-cluster-svc_local", path := "", hostname := ""
      translationType := .unspecified, deadlineMs := 15000
      retryOns := "reset", retryNum := 1, jwtAudience := "" } }

def mB : MethodInfo := { freshMethod "a.n" with
  httpRule := [⟨"POST", ⟨[.lit "y", .star]⟩⟩]
  backendInfo := some
    { clusterName := "backend-cluster-h:443", path := "/v1", hostname := "h"
      translationType := .constantAddress, deadlineMs := 2000
      retryOns := "reset", retryNum := 1, jwtAudience := "https://h" } }

def sC7a : ServiceInfo :=
  { dummyState with
    operations := ["a.m", "a.n"]
    methods := [("a.m", mA), ("a.n", mB)] }

def sC7b : ServiceInfo :=
  { dummyState with
    operations := ["a.m", "a.n"]
    methods := [("a.n", mB), ("a.m", mA)] }

theorem C7_route_output_map_order_invariance_witness :
    sC7a.methods ≠ sC7b.methods ∧
    MakeRouteConfig sC7a = MakeRouteConfig sC7b ∧
    makeClusters sC7a = makeClusters sC7b :=
  ⟨by decide,
    C7_route_output_map_order_invariance sC7a sC7b rfl rfl
      (by decide) (by decide) rfl rfl rfl⟩

end ESPv2

namespace ESPv2

/-! ## The binding characterization (shared by C2, C3, C5) -/

/-- The last backend rule naming a selector (later rules overwrite the
binding of earlier ones). -/
def lastBackendRuleFor (rules : List BackendRule) (k : String) : Option BackendRule :=
  (rules.filter (fun r => r.selector = k)).getLast?

/-- The binding a backend rule installs: local-cluster fields for an
empty address, the parsed remote address otherwise. -/
def bindingOfRule (serviceName : String) (opts : ConfigGeneratorOptions)
    (r : BackendRule) : BackendInfo :=
  match r.address with
  | none => mkBackendInfo r "" "" "" (backendClusterName (serviceName ++ "_local")) opts
  | some addr =>
    mkBackendInfo r addr.scheme addr.host addr.path
      (backendClusterName addr.hostPort) opts

/-- The default local binding, expressed over the configuration data. -/
def defaultBindingFor (serviceName : String) (opts : ConfigGeneratorOptions) :
    BackendInfo :=
  { clusterName := backendClusterName (serviceName ++ "_local")
    path := ""
    hostname := ""
    translationType := .unspecified
    deadlineMs := defaultResponseDeadlineMs
    retryOns := opts.backendRetryOns
    retryNum := opts.backendRetryNum
    jwtAudience := "" }

/-- The binding every non-generated method ends up with. -/
def expectedBinding (cfg : ServiceConfig) (opts : ConfigGeneratorOptions)
    (k : String) : BackendInfo :=
  match lastBackendRuleFor cfg.backend k with
  | some r => bindingOfRule cfg.name opts r
  | none => defaultBindingFor cfg.name opts

theorem lastBackendRuleFor_append_one (rules : List BackendRule) (r : BackendRule)
    (k : String) :
    lastBackendRuleFor (rules ++ [r]) k =
      if r.selector = k then some r else lastBackendRuleFor rules k := by
  unfold lastBackendRuleFor
  rw [List.filter_append]
  by_cases h : r.selector = k
  · simp [h, List.getLast?_append]
  · simp [h]

/-- The invariant carried through `processBackendRule`: every selector a
processed rule named is present and bound per its last rule; all other
methods are unbound; the cluster map holds exactly the canonical name
for each key; name and options are pinned. -/
def BackendPhaseInv (nm : String) (opts : ConfigGeneratorOptions)
    (pre : List BackendRule) (st : ServiceInfo × List (String × String)) : Prop :=
  st.1.name = nm ∧ st.1.options = opts ∧
  (∀ k v, lookupStr k st.2 = some v → v = backendClusterName k) ∧
  (∀ k, match lastBackendRuleFor pre k with
    | some r => ∃ m, lookupM k st.1.methods = some m ∧
        m.backendInfo = some (bindingOfRule nm opts r)
    | none => ∀ m, lookupM k st.1.methods = some m → m.backendInfo = none)

/-- `addBackendInfoToMethod` sets exactly the canonical binding at the
rule's selector and touches no other method. -/
theorem addBackendInfoToMethod_char {s s' : ServiceInfo} {r : BackendRule}
    {scheme hostname path clusterName : String}
    (h : addBackendInfoToMethod s r scheme hostname path clusterName = .ok s') :
    (∃ m, lookupM r.selector s'.methods = some m ∧
      m.backendInfo = some (mkBackendInfo r scheme hostname path clusterName s.options)) ∧
    (∀ k, k ≠ r.selector → lookupM k s'.methods = lookupM k s.methods) ∧
    s'.name = s.name ∧ s'.options = s.options ∧
    s'.remoteBackendClusters = s.remoteBackendClusters ∧
    s'.grpcSupportRequired = s.grpcSupportRequired := by
  unfold addBackendInfoToMethod at h
  cases hg : getOrCreateMethod s r.selector with
  | error e => rw [hg] at h; cases h
  | ok p =>
    obtain ⟨mi, s₁⟩ := p
    rw [hg] at h
    simp at h
    subst h
    rcases getOrCreateMethod_cases hg with ⟨hs, h2⟩ | ⟨hnone, hmi, h2⟩
    · subst h2
      refine ⟨?_, fun k hk => ?_, rfl, rfl, rfl, rfl⟩
      · rw [lookupM_updateM_self, hs]
        exact ⟨_, rfl, rfl⟩
      · simp only
        exact lookupM_updateM_ne (fun he => hk he.symm) _ _
    · subst h2
      refine ⟨?_, fun k hk => ?_, rfl, rfl, rfl, rfl⟩
      · rw [lookupM_updateM_self, lookupM_append_none hnone, lookupM_singleton_self]
        exact ⟨_, rfl, rfl⟩
      · simp only
        rw [lookupM_updateM_ne (fun he => hk he.symm) _ _]
        cases hl : lookupM k s.methods with
        | some v => rw [lookupM_append_some hl]
        | none =>
          rw [lookupM_append_none hl]
          have hne : r.selector ≠ k := fun he => hk he.symm
          simp [lookupM, hne]

end ESPv2

namespace ESPv2

theorem lookupStr_append_some {k : String} {l₁ : List (String × String)} {v : String}
    (h : lookupStr k l₁ = some v) (l₂ : List (String × String)) :
    lookupStr k (l₁ ++ l₂) = some v := by
  induction l₁ with
  | nil => simp [lookupStr] at h
  | cons kv rest ih =>
    by_cases hk : kv.1 = k
    · simp [lookupStr, hk] at h ⊢
      exact h
    · simp [lookupStr, hk] at h ⊢
      exact ih h

theorem lookupStr_append_none {k : String} {l₁ : List (String × String)}
    (h : lookupStr k l₁ = none) (l₂ : List (String × String)) :
    lookupStr k (l₁ ++ l₂) = lookupStr k l₂ := by
  induction l₁ with
  | nil => rfl
  | cons kv rest ih =>
    by_cases hk : kv.1 = k
    · simp [lookupStr, hk] at h
    · simp [lookupStr, hk] at h ⊢
      exact ih h

/-- The binding part of `BackendPhaseInv` is advanced by one processed
rule when the new binding at the rule's selector is the rule's
canonical binding and all other lookups are unchanged. -/
theorem bindingInv_step {nm : String} {opts : ConfigGeneratorOptions}
    {pre : List BackendRule} {r : BackendRule}
    {mOld mNew : List (String × MethodInfo)}
    (hold : ∀ k, match lastBackendRuleFor pre k with
      | some r' => ∃ m, lookupM k mOld = some m ∧
          m.backendInfo = some (bindingOfRule nm opts r')
      | none => ∀ m, lookupM k mOld = some m → m.backendInfo = none)
    (hsel : ∃ m, lookupM r.selector mNew = some m ∧
        m.backendInfo = some (bindingOfRule nm opts r))
    (hother : ∀ k, k ≠ r.selector → lookupM k mNew = lookupM k mOld) :
    ∀ k, match lastBackendRuleFor (pre ++ [r]) k with
      | some r' => ∃ m, lookupM k mNew = some m ∧
          m.backendInfo = some (bindingOfRule nm opts r')
      | none => ∀ m, lookupM k mNew = some m → m.backendInfo = none := by
  intro k
  rw [lastBackendRuleFor_append_one]
  by_cases hk : r.selector = k
  · rw [if_pos hk]
    exact hk ▸ hsel
  · rw [if_neg hk]
    have hne : k ≠ r.selector := fun he => hk he.symm
    have := hold k
    cases hl : lastBackendRuleFor pre k with
    | some r' =>
      rw [hl] at this
      obtain ⟨m, hm, hb⟩ := this
      exact ⟨m, (hother k hne).trans hm, hb⟩
    | none =>
      rw [hl] at this
      intro m hm
      exact this m ((hother k hne).symm.trans hm)

theorem processOneBackendRule_inv {nm : String} {opts : ConfigGeneratorOptions}
    {pre : List BackendRule} {st st' : ServiceInfo × List (String × String)}
    {r : BackendRule} (hinv : BackendPhaseInv nm opts pre st)
    (h : processOneBackendRule st r = .ok st') :
    BackendPhaseInv nm opts (pre ++ [r]) st' := by
  obtain ⟨s, c⟩ := st
  obtain ⟨s', c'⟩ := st'
  obtain ⟨hnm, hopts, hmap, hbind⟩ := hinv
  unfold processOneBackendRule at h
  dsimp only at h
  cases hr : r.address with
  | none =>
    rw [hr] at h
    dsimp only at h
    obtain ⟨sx, hb, hy⟩ := exceptMap_ok h
    injection hy with hy1 hy2
    subst hy1
    subst hy2
    obtain ⟨hsel, hother, hname, hopt, _, _⟩ := addBackendInfoToMethod_char hb
    refine ⟨hname.trans hnm, hopt.trans hopts, hmap, ?_⟩
    refine bindingInv_step hbind ?_ hother
    have hbr : bindingOfRule nm opts r =
        mkBackendInfo r "" "" "" (backendClusterName (nm ++ "_local")) opts := by
      unfold bindingOfRule
      rw [hr]
    rw [hbr]
    have : s.localBackendClusterName = backendClusterName (nm ++ "_local") := by
      unfold ServiceInfo.localBackendClusterName
      rw [hnm]
    rw [this, hopts] at hsel
    exact hsel
  | some addr =>
    rw [hr] at h
    dsimp only at h
    cases hl : lookupStr addr.hostPort c with
    | some cn =>
      rw [hl] at h
      dsimp only at h
      obtain ⟨sx, hb, hy⟩ := exceptMap_ok h
      injection hy with hy1 hy2
      subst hy1
      subst hy2
      obtain ⟨hsel, hother, hname, hopt, _, _⟩ := addBackendInfoToMethod_char hb
      refine ⟨hname.trans hnm, hopt.trans hopts, hmap, ?_⟩
      refine bindingInv_step hbind ?_ hother
      have hbr : bindingOfRule nm opts r = mkBackendInfo r addr.scheme addr.host
          addr.path (backendClusterName addr.hostPort) opts := by
        unfold bindingOfRule
        rw [hr]
      rw [hbr]
      rw [hmap addr.hostPort cn hl, hopts] at hsel
      exact hsel
    | none =>
      rw [hl] at h
      dsimp only at h
      cases hp : parseBackendProtocol addr.scheme r.protocol with
      | error e => rw [hp] at h; cases h
      | ok pt =>
        obtain ⟨protocol, tls⟩ := pt
        rw [hp] at h
        dsimp only at h
        obtain ⟨sx, hb, hy⟩ := exceptMap_ok h
        injection hy with hy1 hy2
        subst hy1
        subst hy2
        obtain ⟨hsel, hother, hname, hopt, _, _⟩ := addBackendInfoToMethod_char hb
        have hname' : (addRemoteCluster s addr protocol tls).name = nm := hnm
        have hopts' : (addRemoteCluster s addr protocol tls).options = opts := hopts
        refine ⟨hname.trans hname', hopt.trans hopts', ?_, ?_⟩
        · intro k v hkv
          cases hsplit : lookupStr k c with
          | some v₀ =>
            rw [lookupStr_append_some hsplit] at hkv
            injection hkv with hv
            exact hv ▸ hmap k v₀ hsplit
          | none =>
            rw [lookupStr_append_none hsplit] at hkv
            by_cases hkk : addr.hostPort = k
            · simp [lookupStr, hkk] at hkv
              rw [← hkv, ← hkk]
            · simp [lookupStr, hkk] at hkv
        · refine bindingInv_step hbind ?_ hother
          have hbr : bindingOfRule nm opts r = mkBackendInfo r addr.scheme addr.host
              addr.path (backendClusterName addr.hostPort) opts := by
            unfold bindingOfRule
            rw [hr]
          rw [hbr]
          rw [hopts'] at hsel
          exact hsel

end ESPv2

namespace ESPv2

/-! ## Per-entry invariants through the later phases -/

/-- A per-entry property of the method map. -/
def EntryInv (Q : String → MethodInfo → Prop) (l : List (String × MethodInfo)) : Prop :=
  ∀ k m, lookupM k l = some m → Q k m

theorem entryInv_updateM {Q : String → MethodInfo → Prop}
    {l : List (String × MethodInfo)} (h : EntryInv Q l) {sel : String}
    {f : MethodInfo → MethodInfo} (hf : ∀ m, Q sel m → Q sel (f m)) :
    EntryInv Q (updateM sel f l) := by
  intro k m hm
  by_cases hk : sel = k
  · subst hk
    rw [lookupM_updateM_self] at hm
    cases hl : lookupM sel l with
    | none => rw [hl] at hm; cases hm
    | some v =>
      rw [hl] at hm
      injection hm with hv
      exact hv ▸ hf v (h sel v hl)
  · rw [lookupM_updateM_ne hk] at hm
    exact h k m hm

theorem entryInv_updateM_const {Q : String → MethodInfo → Prop}
    {l : List (String × MethodInfo)} (h : EntryInv Q l) {sel : String}
    {v : MethodInfo} (hv : Q sel v) :
    EntryInv Q (updateM sel (fun _ => v) l) :=
  entryInv_updateM h (fun _ _ => hv)

/-- Carry a per-entry property through `getOrCreateMethod`; a fresh
method only needs the property when the selector was really absent. -/
theorem entryInv_getOrCreate {Q : String → MethodInfo → Prop} {s s₁ : ServiceInfo}
    {n : String} {mi : MethodInfo} (hg : getOrCreateMethod s n = .ok (mi, s₁))
    (h : EntryInv Q s.methods)
    (hfresh : lookupM n s.methods = none → Q n (freshMethod n)) :
    EntryInv Q s₁.methods ∧ Q n mi := by
  rcases getOrCreateMethod_cases hg with ⟨hs, h2⟩ | ⟨hnone, hmi, h2⟩
  · subst h2
    exact ⟨h, h n mi hs⟩
  · subst h2
    have hQ := hfresh hnone
    refine ⟨?_, hmi ▸ hQ⟩
    intro k m hm
    simp only at hm
    cases hl : lookupM k s.methods with
    | some v =>
      rw [lookupM_append_some hl] at hm
      injection hm with hv
      exact hv ▸ h k v hl
    | none =>
      rw [lookupM_append_none hl] at hm
      by_cases hk : n = k
      · subst hk
        rw [lookupM_singleton_self] at hm
        injection hm with hv
        exact hv ▸ hQ
      · simp [lookupM, hk] at hm

/-- `addHttpRule` only appends a pattern: the other method fields are
untouched. -/
theorem addHttpRule_fields {m m' : MethodInfo} {rp : Option HttpRulePattern}
    {os os' : List String} (h : addHttpRule m rp os = .ok (m', os')) :
    m'.isGenerated = m.isGenerated ∧ m'.backendInfo = m.backendInfo ∧
    m'.generatedCorsMethod = m.generatedCorsMethod ∧
    ∃ pat, m'.httpRule = m.httpRule ++ [pat] := by
  unfold addHttpRule at h
  cases rp with
  | none => cases h
  | some hp =>
    dsimp only at h
    cases hP : parseHttpPattern hp with
    | error e => rw [hP] at h; cases h
    | ok pat =>
      rw [hP] at h
      dsimp only at h
      injection h with h1
      injection h1 with h2 h3
      subst h2
      exact ⟨rfl, rfl, rfl, pat, rfl⟩

/-- The additional-bindings fold only appends patterns. -/
theorem addHttpRuleFold_fields {bs : List (Option HttpRulePattern)} :
    ∀ {m m' : MethodInfo} {os os' : List String},
      foldE (fun (st : MethodInfo × List String) b => addHttpRule st.1 b st.2)
        (m, os) bs = .ok (m', os') →
      m'.isGenerated = m.isGenerated ∧ m'.backendInfo = m.backendInfo ∧
      m'.generatedCorsMethod = m.generatedCorsMethod ∧
      ∃ pats, m'.httpRule = m.httpRule ++ pats := by
  induction bs with
  | nil =>
    intro m m' os os' h
    rw [foldE_nil] at h
    injection h with h1
    injection h1 with h2 h3
    subst h2
    exact ⟨rfl, rfl, rfl, [], by simp⟩
  | cons b bs ih =>
    intro m m' os os' h
    rw [foldE_cons] at h
    cases ha : addHttpRule m b os with
    | error e => rw [ha] at h; cases h
    | ok q =>
      obtain ⟨m₁, os₁⟩ := q
      rw [ha] at h
      obtain ⟨h1, h2, h3, pat, h4⟩ := addHttpRule_fields ha
      obtain ⟨g1, g2, g3, pats, g4⟩ := ih h
      exact ⟨g1.trans h1, g2.trans h2, g3.trans h3, pat :: pats,
        by rw [g4, h4]; simp⟩

end ESPv2

namespace ESPv2

/-- The binding property of non-generated methods between the backend
phase and the default-binding phase: bound per the last naming rule,
unbound otherwise. -/
def NonGenQ (bs : List BackendRule) (nm : String) (opts : ConfigGeneratorOptions)
    (k : String) (m : MethodInfo) : Prop :=
  m.isGenerated = false →
  m.backendInfo = (lastBackendRuleFor bs k).map (bindingOfRule nm opts)

/-- Every selector a backend rule named has a method. -/
def RulePresent (bs : List BackendRule) (l : List (String × MethodInfo)) : Prop :=
  ∀ k, (lastBackendRuleFor bs k).isSome → (lookupM k l).isSome

/-- A selector created after the backend phase is named by no backend
rule, so its fresh method satisfies the binding property. -/
theorem nonGenQ_fresh {bs : List BackendRule} {nm : String}
    {opts : ConfigGeneratorOptions} {l : List (String × MethodInfo)}
    (hpres : RulePresent bs l) {n : String} (hn : lookupM n l = none) :
    NonGenQ bs nm opts n (freshMethod n) := by
  intro _
  cases hr : lastBackendRuleFor bs n with
  | some r =>
    have := hpres n (by rw [hr]; rfl)
    rw [hn] at this
    cases this
  | none => rfl

/-- The combined invariant pushed from the backend phase to the
default-binding phase. -/
def MidInv (bs : List BackendRule) (nm : String) (opts : ConfigGeneratorOptions)
    (s : ServiceInfo) : Prop :=
  EntryInv (NonGenQ bs nm opts) s.methods ∧ RulePresent bs s.methods

theorem rulePresent_of_mgrow {bs : List BackendRule} {s s' : ServiceInfo}
    (hg : MGrow s s') (h : RulePresent bs s.methods) : RulePresent bs s'.methods :=
  fun k hk => hg k (h k hk)

theorem nonGenQ_of_fields {bs : List BackendRule} {nm : String}
    {opts : ConfigGeneratorOptions} {k : String} {m m' : MethodInfo}
    (hgen : m'.isGenerated = m.isGenerated) (hbi : m'.backendInfo = m.backendInfo)
    (h : NonGenQ bs nm opts k m) : NonGenQ bs nm opts k m' := by
  intro hg
  rw [hbi]
  exact h (hgen.symm.trans hg)

theorem processOneHttpRule_midInv {bs : List BackendRule} {nm : String}
    {opts : ConfigGeneratorOptions} {st st' : ServiceInfo × List String}
    {r : HttpRule} (hinv : MidInv bs nm opts st.1)
    (h : processOneHttpRule st r = .ok st') : MidInv bs nm opts st'.1 := by
  obtain ⟨s, os⟩ := st
  obtain ⟨s', os'⟩ := st'
  obtain ⟨hentry, hpres⟩ := hinv
  refine ⟨?_, rulePresent_of_mgrow (processOneHttpRule_pres h).2 hpres⟩
  unfold processOneHttpRule at h
  dsimp only at h
  cases hg : getOrCreateMethod s r.selector with
  | error e => rw [hg] at h; cases h
  | ok p =>
    obtain ⟨mi, s₁⟩ := p
    rw [hg] at h
    dsimp only at h
    obtain ⟨hentry₁, hQmi⟩ := entryInv_getOrCreate hg hentry
      (fun hn => nonGenQ_fresh hpres hn)
    cases ha : addHttpRule mi r.pattern os with
    | error e => rw [ha] at h; cases h
    | ok q =>
      obtain ⟨mi₁, os₁⟩ := q
      rw [ha] at h
      dsimp only at h
      cases hf : foldE (fun (st : MethodInfo × List String) b => addHttpRule st.1 b st.2)
          (mi₁, os₁) r.additionalBindings with
      | error e => rw [hf] at h; cases h
      | ok q₂ =>
        obtain ⟨mi₂, os₂⟩ := q₂
        rw [hf] at h
        simp at h
        obtain ⟨h1, h2⟩ := h
        rw [← h1]
        obtain ⟨a1, a2, a3, -⟩ := addHttpRule_fields ha
        obtain ⟨b1, b2, b3, -⟩ := addHttpRuleFold_fields hf
        exact entryInv_updateM_const hentry₁
          (nonGenQ_of_fields (b1.trans a1) (b2.trans a2) hQmi)

theorem addOptionMethod_midInv {bs : List BackendRule} {nm : String}
    {opts : ConfigGeneratorOptions} {s s' : ServiceInfo} {sel : String}
    {orig : MethodInfo} {pat : Pattern} (hinv : MidInv bs nm opts s)
    (h : addOptionMethod s sel orig pat = .ok s') : MidInv bs nm opts s' := by
  obtain ⟨hentry, hpres⟩ := hinv
  refine ⟨?_, rulePresent_of_mgrow (addOptionMethod_pres h).2 hpres⟩
  unfold addOptionMethod at h
  by_cases hm : pat.httpMethod ≠ "OPTIONS"
  · rw [if_pos hm] at h; cases h
  · rw [if_neg hm] at h
    cases hg : getOrCreateMethod s (corsSelectorOf orig) with
    | error e => rw [hg] at h; cases h
    | ok p =>
      obtain ⟨mi, s₁⟩ := p
      rw [hg] at h
      simp at h
      subst h
      obtain ⟨hentry₁, -⟩ := entryInv_getOrCreate hg hentry
        (fun hn => nonGenQ_fresh hpres hn)
      refine entryInv_updateM ?_ (fun m hQ => nonGenQ_of_fields rfl rfl hQ)
      refine entryInv_updateM_const hentry₁ ?_
      intro hg'
      cases hg'

theorem corsPatternStep_midInv {bs : List BackendRule} {nm : String}
    {opts : ConfigGeneratorOptions} {sel : String} {orig : MethodInfo}
    {st st' : ServiceInfo × List String} {p : Pattern}
    (hinv : MidInv bs nm opts st.1)
    (h : corsPatternStep sel orig st p = .ok st') : MidInv bs nm opts st'.1 := by
  obtain ⟨s, os⟩ := st
  obtain ⟨s', os'⟩ := st'
  unfold corsPatternStep at h
  dsimp only at h
  by_cases hm : p.httpMethod ≠ "OPTIONS"
  · rw [if_pos hm] at h
    by_cases hc : containsStr p.uriTemplate.regex os = true
    · rw [if_pos hc] at h
      cases h
      exact hinv
    · rw [if_neg hc] at h
      cases ha : addOptionMethod s sel orig ⟨"OPTIONS", p.uriTemplate⟩ with
      | error e => rw [ha] at h; cases h
      | ok sx =>
        rw [ha] at h
        cases h
        exact addOptionMethod_midInv hinv ha
  · rw [if_neg hm] at h
    cases h
    exact hinv

theorem corsRuleStep_midInv {bs : List BackendRule} {nm : String}
    {opts : ConfigGeneratorOptions} {st st' : ServiceInfo × List String}
    {r : HttpRule} (hinv : MidInv bs nm opts st.1)
    (h : corsRuleStep st r = .ok st') : MidInv bs nm opts st'.1 := by
  unfold corsRuleStep at h
  cases hl : lookupM r.selector st.1.methods with
  | none => rw [hl] at h; cases h
  | some m =>
    rw [hl] at h
    exact foldE_inv (P := fun (st : ServiceInfo × List String) => MidInv bs nm opts st.1)
      (fun _ _ _ hP hstep => corsPatternStep_midInv hP hstep) _ _ _ hinv h

theorem addHealthzMethod_midInv {bs : List BackendRule} {nm : String}
    {opts : ConfigGeneratorOptions} {s s' : ServiceInfo} (hinv : MidInv bs nm opts s)
    (h : addHealthzMethod s = .ok s') : MidInv bs nm opts s' := by
  obtain ⟨hentry, hpres⟩ := hinv
  refine ⟨?_, rulePresent_of_mgrow (addHealthzMethod_pres h).2 hpres⟩
  unfold addHealthzMethod at h
  cases hz : s.options.healthz with
  | none => rw [hz] at h; cases h; exact hentry
  | some t =>
    rw [hz] at h
    cases hg : getOrCreateMethod s (espOperation ++ "." ++ autogenBase ++ "_HealthCheck") with
    | error e => rw [hg] at h; cases h
    | ok p =>
      obtain ⟨mi, s₁⟩ := p
      rw [hg] at h
      simp at h
      obtain ⟨hentry₁, -⟩ := entryInv_getOrCreate hg hentry
        (fun hn => nonGenQ_fresh hpres hn)
      rw [← h]
      refine entryInv_updateM_const hentry₁ ?_
      intro hg'
      cases hg'

theorem processHttpRule_midInv {bs : List BackendRule} {nm : String}
    {opts : ConfigGeneratorOptions} {s s' : ServiceInfo} (hinv : MidInv bs nm opts s)
    (h : processHttpRule s = .ok s') : MidInv bs nm opts s' := by
  unfold processHttpRule at h
  cases hf : foldE processOneHttpRule (s, []) s.serviceConfig.http with
  | error e => rw [hf] at h; cases h
  | ok p =>
    obtain ⟨s₁, os₁⟩ := p
    rw [hf] at h
    dsimp only at h
    have hinv₁ : MidInv bs nm opts s₁ :=
      foldE_inv (P := fun (st : ServiceInfo × List String) => MidInv bs nm opts st.1)
        (fun _ _ _ hP hstep => processOneHttpRule_midInv hP hstep) _ _ _ hinv hf
    by_cases hc : s₁.allowCors = true
    · rw [if_pos hc] at h
      cases hf₂ : foldE corsRuleStep (s₁, os₁) s₁.serviceConfig.http with
      | error e => rw [hf₂] at h; cases h
      | ok p₂ =>
        obtain ⟨s₂, os₂⟩ := p₂
        rw [hf₂] at h
        dsimp only at h
        have hinv₂ : MidInv bs nm opts s₂ :=
          foldE_inv (P := fun (st : ServiceInfo × List String) => MidInv bs nm opts st.1)
            (fun _ _ _ hP hstep => corsRuleStep_midInv hP hstep) _ _ _ hinv₁ hf₂
        exact addHealthzMethod_midInv hinv₂ h
    · rw [if_neg hc] at h
      dsimp only at h
      exact addHealthzMethod_midInv hinv₁ h

end ESPv2

namespace ESPv2

theorem processUsageRule_midInv {bs : List BackendRule} {nm : String}
    {opts : ConfigGeneratorOptions} {s s' : ServiceInfo} (hinv : MidInv bs nm opts s)
    (h : processUsageRule s = .ok s') : MidInv bs nm opts s' := by
  unfold processUsageRule at h
  refine foldE_inv (P := MidInv bs nm opts) ?_ _ _ _ hinv h
  intro sa r sa' hP hstep
  obtain ⟨hentry, hpres⟩ := hP
  cases hg : getOrCreateMethod sa r.selector with
  | error e => rw [hg] at hstep; cases hstep
  | ok p =>
    obtain ⟨mi, s₁⟩ := p
    rw [hg] at hstep
    cases hstep
    obtain ⟨hentry₁, -⟩ := entryInv_getOrCreate hg hentry
      (fun hn => nonGenQ_fresh hpres hn)
    refine ⟨entryInv_updateM hentry₁ (fun m hQ => nonGenQ_of_fields rfl rfl hQ), ?_⟩
    refine rulePresent_of_mgrow ?_ hpres
    exact mgrow_trans (getOrCreateMethod_pres hg).2 (pres_updateM s₁ _ _).2

theorem processTypesStep_midInv {types : List ProtoType} {bs : List BackendRule}
    {nm : String} {opts : ConfigGeneratorOptions} {s s' : ServiceInfo} {op : String}
    (hinv : MidInv bs nm opts s) (h : processTypesStep types s op = .ok s') :
    MidInv bs nm opts s' := by
  obtain ⟨hentry, hpres⟩ := hinv
  refine ⟨?_, rulePresent_of_mgrow (processTypesStep_pres h).2 hpres⟩
  unfold processTypesStep at h
  cases hl : lookupM op s.methods with
  | none => rw [hl] at h; cases h; exact hentry
  | some mi =>
    rw [hl] at h
    dsimp only at h
    by_cases he : mi.requestTypeName = ""
    · rw [if_pos he] at h; cases h; exact hentry
    · rw [if_neg he] at h
      cases hft : types.find? (fun t => t.name = mi.requestTypeName) with
      | none => rw [hft] at h; cases h; exact hentry
      | some rt =>
        rw [hft] at h
        dsimp only at h
        cases hb : buildSnakeToJson rt.fields with
        | error e => rw [hb] at h; cases h
        | ok sj =>
          rw [hb] at h
          dsimp only at h
          by_cases hn : sj.length > 0
          · rw [if_pos hn] at h
            have hren : ∀ k m, NonGenQ bs nm opts k m →
                NonGenQ bs nm opts k (renamePatterns sj m) :=
              fun k m hQ => nonGenQ_of_fields rfl rfl hQ
            cases hgm : mi.generatedCorsMethod with
            | none =>
              rw [hgm] at h
              cases h
              exact entryInv_updateM hentry (hren op)
            | some g =>
              rw [hgm] at h
              cases h
              exact entryInv_updateM (entryInv_updateM hentry (hren op)) (hren g)
          · rw [if_neg hn] at h; cases h; exact hentry

theorem processTypes_midInv {bs : List BackendRule} {nm : String}
    {opts : ConfigGeneratorOptions} {s s' : ServiceInfo} (hinv : MidInv bs nm opts s)
    (h : processTypes s = .ok s') : MidInv bs nm opts s' := by
  unfold processTypes at h
  exact foldE_inv (P := MidInv bs nm opts)
    (fun _ _ _ hP hstep => processTypesStep_midInv hP hstep) _ _ _ hinv h

theorem addGrpcMethodRule_midInv {api : Api} {bs : List BackendRule} {nm : String}
    {opts : ConfigGeneratorOptions} {s s' : ServiceInfo} {m : ApiMethod}
    (hinv : MidInv bs nm opts s) (h : addGrpcMethodRule api s m = .ok s') :
    MidInv bs nm opts s' := by
  obtain ⟨hentry, hpres⟩ := hinv
  refine ⟨?_, rulePresent_of_mgrow (addGrpcMethodRule_pres h).2 hpres⟩
  unfold addGrpcMethodRule at h
  cases hg : getOrCreateMethod s (api.name ++ "." ++ m.name) with
  | error e => rw [hg] at h; cases h
  | ok p =>
    obtain ⟨mi, s₁⟩ := p
    rw [hg] at h
    dsimp only at h
    cases hp : parseUriTemplate ⟨[.lit api.name, .lit m.name]⟩ with
    | error e => rw [hp] at h; cases h
    | ok t =>
      rw [hp] at h
      simp at h
      obtain ⟨hentry₁, hQmi⟩ := entryInv_getOrCreate hg hentry
        (fun hn => nonGenQ_fresh hpres hn)
      rw [← h]
      exact entryInv_updateM_const hentry₁ (nonGenQ_of_fields rfl rfl hQmi)

theorem addGrpcHttpRules_midInv {bs : List BackendRule} {nm : String}
    {opts : ConfigGeneratorOptions} {s s' : ServiceInfo} (hinv : MidInv bs nm opts s)
    (h : addGrpcHttpRules s = .ok s') : MidInv bs nm opts s' := by
  unfold addGrpcHttpRules at h
  cases hgr : s.grpcSupportRequired with
  | false =>
    rw [hgr] at h
    simp at h
    rw [← h]
    exact hinv
  | true =>
    rw [hgr] at h
    simp at h
    refine foldE_inv (P := MidInv bs nm opts) ?_ _ _ _ hinv h
    intro sa api sa' hP hstep
    exact foldE_inv (P := MidInv bs nm opts)
      (fun _ _ _ hQ hm => addGrpcMethodRule_midInv hQ hm) _ _ _ hP hstep

theorem processApiKeyLocations_midInv {bs : List BackendRule} {nm : String}
    {opts : ConfigGeneratorOptions} {s s' : ServiceInfo} (hinv : MidInv bs nm opts s)
    (h : processApiKeyLocations s = .ok s') : MidInv bs nm opts s' := by
  unfold processApiKeyLocations at h
  cases hf : foldE (fun s (rule : SystemParameterRule) =>
      match getOrCreateMethod s rule.selector with
      | .error e => .error e
      | .ok (_, s) => .ok (extractApiKeyLocations s rule.selector
          (rule.parameters.filter (fun p => p.name = apiKeyParameterName))))
      s s.serviceConfig.systemParameters with
  | error e => rw [hf] at h; cases h
  | ok sx =>
    rw [hf] at h
    cases h
    have hinvx : MidInv bs nm opts sx := by
      refine foldE_inv (P := MidInv bs nm opts) ?_ _ _ _ hinv hf
      intro sa rule sa' hP hstep
      obtain ⟨hentry, hpres⟩ := hP
      cases hg : getOrCreateMethod sa rule.selector with
      | error e => rw [hg] at hstep; cases hstep
      | ok p =>
        obtain ⟨mi, s₁⟩ := p
        rw [hg] at hstep
        cases hstep
        obtain ⟨hentry₁, -⟩ := entryInv_getOrCreate hg hentry
          (fun hn => nonGenQ_fresh hpres hn)
        refine ⟨entryInv_updateM hentry₁ (fun m hQ => nonGenQ_of_fields rfl rfl hQ), ?_⟩
        refine rulePresent_of_mgrow ?_ hpres
        exact mgrow_trans (getOrCreateMethod_pres hg).2
          (extractApiKeyLocations_pres s₁ _ _).2
    exact ⟨hinvx.1, hinvx.2⟩

end ESPv2

namespace ESPv2

theorem lastBackendRuleFor_nil (k : String) : lastBackendRuleFor [] k = none := rfl

theorem processBackendRule_inv {nm : String} {opts : ConfigGeneratorOptions}
    {s s' : ServiceInfo} (hnm : s.name = nm) (hopts : s.options = opts)
    (hnone : ∀ k m, lookupM k s.methods = some m → m.backendInfo = none)
    (h : processBackendRule s = .ok s') :
    ∀ k, match lastBackendRuleFor s.serviceConfig.backend k with
      | some r => ∃ m, lookupM k s'.methods = some m ∧
          m.backendInfo = some (bindingOfRule nm opts r)
      | none => ∀ m, lookupM k s'.methods = some m → m.backendInfo = none := by
  unfold processBackendRule at h
  cases hf : foldE processOneBackendRule (s, []) s.serviceConfig.backend with
  | error e => rw [hf] at h; cases h
  | ok p =>
    obtain ⟨sx, c⟩ := p
    rw [hf] at h
    cases h
    have hinit : BackendPhaseInv nm opts [] (s, []) := by
      refine ⟨hnm, hopts, fun k v hkv => by simp [lookupStr] at hkv, fun k => ?_⟩
      rw [lastBackendRuleFor_nil]
      exact hnone k
    have := foldE_inv_pre (P := BackendPhaseInv nm opts)
      (fun pre st a st' hP hstep => processOneBackendRule_inv hP hstep)
      _ [] _ _ hinit hf
    simpa using this.2.2.2

/-- The shape of the local backend cluster. -/
theorem buildLocalBackend_char {nm : String} {opts : ConfigGeneratorOptions}
    {lc : BackendRoutingCluster} {g : Bool}
    (h : buildLocalBackend nm opts = .ok (lc, g)) :
    ∃ protocol tls,
      parseBackendProtocol opts.backendAddress.scheme "" = .ok (protocol, tls) ∧
      lc = { clusterName := backendClusterName (nm ++ "_local")
             hostname := opts.backendAddress.host
             port := opts.backendAddress.effectivePort
             useTLS := tls
             protocol := protocol } ∧
      (g = true ↔ protocol = .grpc) := by
  unfold buildLocalBackend at h
  dsimp only at h
  cases hp : parseBackendProtocol opts.backendAddress.scheme "" with
  | error e => rw [hp] at h; cases h
  | ok pt =>
    obtain ⟨protocol, tls⟩ := pt
    rw [hp] at h
    dsimp only at h
    injection h with h1
    injection h1 with h2 h3
    refine ⟨protocol, tls, rfl, h2.symm, ?_⟩
    rw [← h3]
    simp

/-- Before the backend phase no method is bound. -/
theorem allNone_after_quota {cfg : ServiceConfig} {id : String}
    {opts : ConfigGeneratorOptions} {lc : BackendRoutingCluster} {g : Bool}
    {s₂ s₃ : ServiceInfo}
    (h2 : processApis (processEndpoints (initState cfg id opts lc g)) = .ok s₂)
    (h3 : processQuota s₂ = .ok s₃) :
    ∀ k m, lookupM k s₃.methods = some m → m.backendInfo = none := by
  have hinit : EntryInv (fun _ m => m.backendInfo = none)
      (processEndpoints (initState cfg id opts lc g)).methods := by
    intro k m hm
    cases hm
  have h₂inv : EntryInv (fun _ m => m.backendInfo = none) s₂.methods := by
    unfold processApis at h2
    refine foldE_inv (P := fun s => EntryInv (fun _ m => m.backendInfo = none) s.methods)
      ?_ _ _ _ hinit h2
    intro sa api sa' hP hstep
    refine foldE_inv (P := fun s => EntryInv (fun _ m => m.backendInfo = none) s.methods)
      ?_ _ _ _ hP hstep
    intro sb m sb' hQ hm
    unfold processApiMethod at hm
    cases hg : getOrCreateMethod sb (api.name ++ "." ++ m.name) with
    | error e => rw [hg] at hm; cases hm
    | ok p =>
      obtain ⟨mi, s₁⟩ := p
      rw [hg] at hm
      simp at hm
      obtain ⟨hq₁, hQmi⟩ := entryInv_getOrCreate hg hQ (fun _ => rfl)
      rw [← hm]
      refine entryInv_updateM_const hq₁ ?_
      show (_ : MethodInfo).backendInfo = none
      by_cases hst : m.requestStreaming = true ∨ m.responseStreaming = true <;>
        by_cases hty : strHasBase m.requestTypeUrl typeUrlBase = true <;>
        simp [hst, hty, hQmi]
  unfold processQuota at h3
  refine foldE_inv (P := fun s => EntryInv (fun _ m => m.backendInfo = none) s.methods)
    ?_ _ _ _ h₂inv h3
  intro sa rule sa' hP hstep
  cases hl : lookupM rule.selector sa.methods with
  | none => rw [hl] at hstep; cases hstep
  | some mi =>
    rw [hl] at hstep
    cases hstep
    exact entryInv_updateM hP (fun m hQ => hQ)

end ESPv2

namespace ESPv2

/-- The final per-method binding property after the default-binding
phase. -/
def FinalQ (bs : List BackendRule) (nm : String) (opts : ConfigGeneratorOptions)
    (k : String) (m : MethodInfo) : Prop :=
  m.backendInfo.isSome ∧
  (m.isGenerated = false →
    m.backendInfo = some (match lastBackendRuleFor bs k with
      | some r => bindingOfRule nm opts r
      | none => defaultBindingFor nm opts))

theorem processLocalBackendOperations_final {bs : List BackendRule} {nm : String}
    {opts : ConfigGeneratorOptions} {s s' : ServiceInfo}
    (hentry : EntryInv (NonGenQ bs nm opts) s.methods)
    (hlc : s.localBackendCluster.clusterName = backendClusterName (nm ++ "_local"))
    (hopts : s.options = opts)
    (h : processLocalBackendOperations s = .ok s') :
    EntryInv (FinalQ bs nm opts) s'.methods := by
  unfold processLocalBackendOperations at h
  cases h
  have hdef : defaultLocalBinding s = defaultBindingFor nm opts := by
    unfold defaultLocalBinding defaultBindingFor
    rw [hlc, hopts]
  intro k m' hm'
  simp only at hm'
  rw [lookupM_mapVals] at hm'
  cases hl : lookupM k s.methods with
  | none => rw [hl] at hm'; cases hm'
  | some m =>
    rw [hl] at hm'
    injection hm' with hv
    have hQ := hentry k m hl
    subst hv
    unfold installDefault
    cases hbi : m.backendInfo with
    | some b =>
      refine ⟨by simp [hbi], fun hgen => ?_⟩
      have hq := hQ hgen
      rw [hbi] at hq
      cases hr : lastBackendRuleFor bs k with
      | some r =>
        rw [hr] at hq
        simp at hq
        simp [hbi, hr, hq]
      | none =>
        rw [hr] at hq
        simp at hq
    | none =>
      refine ⟨by simp, fun hgen => ?_⟩
      have hq := hQ hgen
      rw [hbi] at hq
      cases hr : lastBackendRuleFor bs k with
      | some r =>
        rw [hr] at hq
        simp at hq
      | none =>
        simp [hr, hdef]

theorem processAuthRequirement_final {bs : List BackendRule} {nm : String}
    {opts : ConfigGeneratorOptions} {s s' : ServiceInfo}
    (hentry : EntryInv (FinalQ bs nm opts) s.methods)
    (h : processAuthRequirement s = .ok s') :
    EntryInv (FinalQ bs nm opts) s'.methods := by
  unfold processAuthRequirement at h
  refine foldE_inv (P := fun s => EntryInv (FinalQ bs nm opts) s.methods)
    ?_ _ _ _ hentry h
  intro sa rule sa' hP hstep
  by_cases hn : rule.requirements.length > 0
  · rw [if_pos hn] at hstep
    cases hl : lookupM rule.selector sa.methods with
    | none => rw [hl] at hstep; cases hstep
    | some mi =>
      rw [hl] at hstep
      cases hstep
      exact entryInv_updateM hP (fun m hQ => ⟨hQ.1, hQ.2⟩)
  · rw [if_neg hn] at hstep
    cases hstep
    exact hP

/-- The binding characterization of a successful build: every method is
bound, and every non-generated method is bound exactly per its last
backend rule (or to the local default). -/
theorem build_binding {cfg : ServiceConfig} {id : String}
    {opts : ConfigGeneratorOptions} {sF : ServiceInfo}
    (h : NewServiceInfoFromServiceConfig (some cfg) id opts = .ok sF) :
    (∀ k m, lookupM k sF.methods = some m → m.backendInfo.isSome) ∧
    (∀ k m, lookupM k sF.methods = some m → m.isGenerated = false →
      m.backendInfo = some (expectedBinding cfg opts k)) := by
  obtain ⟨-, lc, grpc, s₂, s₃, s₄, s₅, s₆, s₇, s₈, s₉, s₁₀,
    hlb, h2, h3, h4, h5, h6, h7, h8, h9, h10, h11⟩ := build_decomp h
  set s₁ := processEndpoints (initState cfg id opts lc grpc) with hs₁
  have pres₃ : Pres s₁ s₃ := pres_trans (processApis_pres h2) (processQuota_pres h3)
  have h₃nm : s₃.name = cfg.name := pres₃.1.1
  have h₃opts : s₃.options = opts := pres₃.1.2.2.1
  have h₃cfg : s₃.serviceConfig = cfg := pres₃.1.2.1
  have hnone := allNone_after_quota h2 h3
  have hbind := processBackendRule_inv h₃nm h₃opts hnone h4
  rw [h₃cfg] at hbind
  have hmid₄ : MidInv cfg.backend cfg.name opts s₄ := by
    constructor
    · intro k m hm
      have := hbind k
      cases hr : lastBackendRuleFor cfg.backend k with
      | some r =>
        rw [hr] at this
        obtain ⟨m', hm', hb'⟩ := this
        rw [hm] at hm'
        injection hm' with hv
        intro _
        rw [hv, hr]
        exact hb'
      | none =>
        rw [hr] at this
        intro _
        rw [hr]
        exact this m hm
    · intro k hk
      have := hbind k
      cases hr : lastBackendRuleFor cfg.backend k with
      | some r =>
        rw [hr] at this
        obtain ⟨m', hm', -⟩ := this
        rw [hm']
        rfl
      | none => rw [hr] at hk; cases hk
  have hmid₉ : MidInv cfg.backend cfg.name opts s₉ :=
    processApiKeyLocations_midInv
      (addGrpcHttpRules_midInv
        (processTypes_midInv
          (processUsageRule_midInv (processHttpRule_midInv hmid₄ h5) h6) h7) h8) h9
  have pres₉ : Pres s₁ s₉ :=
    pres_trans pres₃ <| pres_trans (processBackendRule_pres h4) <|
    pres_trans (processHttpRule_pres h5) <| pres_trans (processUsageRule_pres h6) <|
    pres_trans (processTypes_pres h7) <| pres_trans (addGrpcHttpRules_pres h8)
      (processApiKeyLocations_pres h9)
  have h₉lc : s₉.localBackendCluster = lc := pres₉.1.2.2.2
  have h₉opts : s₉.options = opts := pres₉.1.2.2.1
  obtain ⟨protocol, tls, -, hlcval, -⟩ := buildLocalBackend_char hlb
  have hlcn : s₉.localBackendCluster.clusterName =
      backendClusterName (cfg.name ++ "_local") := by
    rw [h₉lc, hlcval]
  have hfin := processAuthRequirement_final
    (processLocalBackendOperations_final hmid₉.1 hlcn h₉opts h10) h11
  constructor
  · intro k m hm
    exact (hfin k m hm).1
  · intro k m hm hgen
    have := (hfin k m hm).2 hgen
    rw [this]
    rfl

end ESPv2

namespace ESPv2

/-! ## C5 -/

/-- The C5 counterexample fixture: an empty-address backend rule for
`a.m1`, a remote backend rule for `a.m2`, a GET binding for `a.m2`, and
CORS enabled (so a synthetic OPTIONS companion of `a.m2` is created,
copying its remote binding). -/
def cfgC5 : ServiceConfig :=
  { cfgW with
    apis := [{ name := "a", version := "v1"
               methods := [
                 { name := "m1", requestStreaming := false, responseStreaming := false
                   requestTypeUrl := "" },
                 { name := "m2", requestStreaming := false, responseStreaming := false
                   requestTypeUrl := "" } ] }]
    http := [{ selector := "a.m2", pattern := some (.get ⟨[.lit "x"]⟩)
               additionalBindings := [] }]
    backend := [
      { selector := "a.m1", address := none, deadline := 0, protocol := ""
        authentication := none, pathTranslation := .unspecified },
      { selector := "a.m2"
        address := some { scheme := "https", host := "h", port := none, path := "" }
        deadline := 0, protocol := "", authentication := none
        pathTranslation := .unspecified } ]
    endpoints := [{ name := "svc", allowCors := true }] }

def sC5 : ServiceInfo := buildOr (NewServiceInfoFromServiceConfig (some cfgC5) "id" optsW)

/-- C5 counterexample: the claimed iff — cluster is local exactly when no
backend rule names the selector — fails in both directions.  The build
succeeds; a backend rule names `a.m1` yet its binding carries the local
cluster (empty-address rules bind the local cluster); no backend rule
names the synthetic `a.ESPv2_Autogenerated_CORS_m2` yet its binding
carries the remote cluster of `a.m2` (the companion copies the original
method's binding). -/
theorem C5_default_binding_counterexample :
    isOkE (NewServiceInfoFromServiceConfig (some cfgC5) "id" optsW) = true ∧
    cfgC5.backend.any (fun r => r.selector = "a.m1") = true ∧
    ((lookupM "a.m1" sC5.methods).bind (fun m => m.backendInfo)).map
      (fun bi => bi.clusterName) = some sC5.localBackendCluster.clusterName ∧
    cfgC5.backend.any (fun r => r.selector = "a." ++ autogenBase ++ "_CORS_m2") = false ∧
    ((lookupM ("a." ++ autogenBase ++ "_CORS_m2") sC5.methods).bind
        (fun m => m.backendInfo)).map (fun bi => bi.clusterName) =
      some "backend-cluster-h:443" ∧
    sC5.localBackendCluster.clusterName ≠ "backend-cluster-h:443" := by
  decide

/-- C5 (amended): after a successful build every method is bound.  Every
non-generated method is bound per the last backend rule naming its
selector — with the local cluster's fields when that rule's address is
empty — and, when no backend rule names its selector, it receives the
default local binding: local cluster, default deadline and the
configured retry settings.  (Generated CORS companions instead copy the
original method's binding.) -/
theorem C5_default_binding {cfg : ServiceConfig} {id : String}
    {opts : ConfigGeneratorOptions} {sF : ServiceInfo}
    (h : NewServiceInfoFromServiceConfig (some cfg) id opts = .ok sF) :
    (∀ k m, lookupM k sF.methods = some m → m.backendInfo.isSome) ∧
    (∀ k m, lookupM k sF.methods = some m → m.isGenerated = false →
      m.backendInfo = some (expectedBinding cfg opts k)) ∧
    (∀ k m, lookupM k sF.methods = some m → m.isGenerated = false →
      lastBackendRuleFor cfg.backend k = none →
      m.backendInfo = some (defaultBindingFor cfg.name opts)) := by
  obtain ⟨h1, h2⟩ := build_binding h
  refine ⟨h1, h2, fun k m hm hg hr => ?_⟩
  have hb := h2 k m hm hg
  rw [hb]
  unfold expectedBinding
  rw [hr]

/-- C5 witness: the amended binding characterization at the concrete
built state of the fixture. -/
theorem C5_default_binding_witness :
    NewServiceInfoFromServiceConfig (some cfgC5) "id" optsW = .ok sC5 ∧
    ((∀ k m, lookupM k sC5.methods = some m → m.backendInfo.isSome) ∧
     (∀ k m, lookupM k sC5.methods = some m → m.isGenerated = false →
       m.backendInfo = some (expectedBinding cfgC5 optsW k)) ∧
     (∀ k m, lookupM k sC5.methods = some m → m.isGenerated = false →
       lastBackendRuleFor cfgC5.backend k = none →
       m.backendInfo = some (defaultBindingFor cfgC5.name optsW))) :=
  ⟨by decide, @C5_default_binding cfgC5 "id" optsW sC5 (by decide)⟩

end ESPv2

namespace ESPv2

/-! ## C2 -/

/-- The deadline of the binding a backend rule installs is the resolved
deadline, whichever side of the address oneof the rule is on. -/
theorem bindingOfRule_deadlineMs (nm : String) (opts : ConfigGeneratorOptions)
    (r : BackendRule) :
    (bindingOfRule nm opts r).deadlineMs = resolveDeadlineMs r.deadline := by
  cases ha : r.address <;> simp [bindingOfRule, mkBackendInfo, ha]

/-- C2: for every method bound by a backend rule, the stored deadline is
the default when the rule's deadline is 0 (unset), the default when it
is negative (warned), and otherwise the deadline rounded to the nearest
millisecond; and every emitted route's timeout is 0 when the method is
streaming and the stored deadline otherwise. -/
theorem C2_deadline_timeout_policy {cfg : ServiceConfig} {id : String}
    {opts : ConfigGeneratorOptions} {sF : ServiceInfo}
    (h : NewServiceInfoFromServiceConfig (some cfg) id opts = .ok sF) :
    (∀ k m r, lookupM k sF.methods = some m → m.isGenerated = false →
      lastBackendRuleFor cfg.backend k = some r →
      ∃ bi, m.backendInfo = some bi ∧
        bi.deadlineMs =
          (if r.deadline = 0 then defaultResponseDeadlineMs
           else if r.deadline < 0 then defaultResponseDeadlineMs
           else roundDeadlineMs r.deadline)) ∧
    (∀ routes, makeRouteTable sF = .ok routes → ∀ rt ∈ routes,
      ∃ op m bi, lookupM op sF.methods = some m ∧ m.backendInfo = some bi ∧
        rt.action.timeoutMs = some (if m.isStreaming then 0 else bi.deadlineMs)) := by
  obtain ⟨-, h2⟩ := build_binding h
  constructor
  · intro k m r hm hg hr
    refine ⟨expectedBinding cfg opts k, h2 k m hm hg, ?_⟩
    unfold expectedBinding
    rw [hr, bindingOfRule_deadlineMs]
    rfl
  · intro routes hroutes rt hrt
    obtain ⟨op, p, m, bi, hl, hb, hmem⟩ := makeRouteTable_mem hroutes rt hrt
    obtain ⟨rm, -, hrt'⟩ := List.mem_map.1 hmem
    subst hrt'
    exact ⟨op, m, bi, hl, hb, rfl⟩

/-- The C2 witness fixture: a remote rule with deadline 1.35 s for the
unary `a.m`, and a streaming `a.ms` left to the default binding. -/
def cfgC2 : ServiceConfig :=
  { cfgW with
    apis := [{ name := "a", version := "v1"
               methods := [
                 { name := "m", requestStreaming := false, responseStreaming := false
                   requestTypeUrl := "" },
                 { name := "ms", requestStreaming := true, responseStreaming := false
                   requestTypeUrl := "" } ] }]
    http := [
      { selector := "a.m", pattern := some (.get ⟨[.lit "x"]⟩), additionalBindings := [] },
      { selector := "a.ms", pattern := some (.get ⟨[.lit "y"]⟩), additionalBindings := [] } ]
    backend := [
      { selector := "a.m"
        address := some { scheme := "https", host := "h", port := none, path := "" }
        deadline := mkRat 27 20, protocol := "", authentication := none
        pathTranslation := .unspecified } ] }

def sC2 : ServiceInfo := buildOr (NewServiceInfoFromServiceConfig (some cfgC2) "id" optsW)

def routesC2 : List Route := routesOr (makeRouteTable sC2)

unseal Rat.mul Rat.add in
/-- C2 witness: the 1.35 s deadline is stored as 1350 ms, the streaming
method's routes get timeout 0 and the unary method's routes get the
stored deadline, and the deadline/timeout policy holds at the concrete
built state. -/
theorem C2_deadline_timeout_policy_witness :
    NewServiceInfoFromServiceConfig (some cfgC2) "id" optsW = .ok sC2 ∧
    ((lookupM "a.m" sC2.methods).bind (fun m => m.backendInfo)).map
      (fun bi => bi.deadlineMs) = some 1350 ∧
    makeRouteTable sC2 = .ok routesC2 ∧
    routesC2.map (fun rt => rt.action.timeoutMs) =
      [some 1350, some 1350, some 0, some 0,
       some 1350, some 1350, some 0, some 0] ∧
    ((∀ k m r, lookupM k sC2.methods = some m → m.isGenerated = false →
      lastBackendRuleFor cfgC2.backend k = some r →
      ∃ bi, m.backendInfo = some bi ∧
        bi.deadlineMs =
          (if r.deadline = 0 then defaultResponseDeadlineMs
           else if r.deadline < 0 then defaultResponseDeadlineMs
           else roundDeadlineMs r.deadline)) ∧
    (∀ routes, makeRouteTable sC2 = .ok routes → ∀ rt ∈ routes,
      ∃ op m bi, lookupM op sC2.methods = some m ∧ m.backendInfo = some bi ∧
        rt.action.timeoutMs = some (if m.isStreaming then 0 else bi.deadlineMs))) :=
  ⟨by decide, by decide, by decide, by decide,
    @C2_deadline_timeout_policy cfgC2 "id" optsW sC2 (by decide)⟩

end ESPv2

namespace ESPv2

/-! ## C3 -/

/-- The amended audience computation, stated from the rule and options
alone: an explicit `JwtAudience` is used as-is; an explicit
`DisableAuth = true` yields no audience; an explicit
`DisableAuth = false` derives `http(s)://host` from the rule's scheme
and host — which are empty for an empty address, so it derives
`"http://"`; with no oneof, an empty address yields no audience and a
remote address derives from scheme and host; finally any non-empty
result is reset to empty on non-GCP. -/
def specDerivedAudience (r : BackendRule) : String :=
  let scheme := match r.address with | none => "" | some a => a.scheme
  let host := match r.address with | none => "" | some a => a.host
  let derive := if scheme = "https" ∨ scheme = "grpcs"
    then "https://" ++ host else "http://" ++ host
  match r.authentication with
  | some (.jwtAudience a) => a
  | some (.disableAuth b) => if b then "" else derive
  | none => match r.address with | none => "" | some _ => derive

/-- The amended audience: the oneof-decided (or address-derived) value,
reset to empty on non-GCP when non-empty. -/
def specJwtAudience (opts : ConfigGeneratorOptions) (r : BackendRule) : String :=
  if specDerivedAudience r ≠ "" ∧ opts.nonGCP then "" else specDerivedAudience r

/-- The audience a backend rule's binding carries is exactly the amended
computation. -/
theorem bindingOfRule_jwtAudience (nm : String) (opts : ConfigGeneratorOptions)
    (r : BackendRule) :
    (bindingOfRule nm opts r).jwtAudience = specJwtAudience opts r := by
  cases ha : r.address with
  | none =>
    cases hauth : r.authentication with
    | none =>
      simp [bindingOfRule, mkBackendInfo, determineBackendAuthJwtAud,
        specJwtAudience, specDerivedAudience, getJwtAudienceFromBackendAddr,
        schemeUsesTLS, ha, hauth]
    | some auth =>
      cases auth with
      | jwtAudience a =>
        simp [bindingOfRule, mkBackendInfo, determineBackendAuthJwtAud,
          specJwtAudience, specDerivedAudience, getJwtAudienceFromBackendAddr,
          schemeUsesTLS, ha, hauth]
      | disableAuth b =>
        cases b <;>
        simp [bindingOfRule, mkBackendInfo, determineBackendAuthJwtAud,
          specJwtAudience, specDerivedAudience, getJwtAudienceFromBackendAddr,
          schemeUsesTLS, ha, hauth]
  | some a =>
    cases hauth : r.authentication with
    | none =>
      simp [bindingOfRule, mkBackendInfo, determineBackendAuthJwtAud,
        specJwtAudience, specDerivedAudience, getJwtAudienceFromBackendAddr,
        schemeUsesTLS, ha, hauth]
    | some auth =>
      cases auth with
      | jwtAudience aud =>
        simp [bindingOfRule, mkBackendInfo, determineBackendAuthJwtAud,
          specJwtAudience, specDerivedAudience, getJwtAudienceFromBackendAddr,
          schemeUsesTLS, ha, hauth]
      | disableAuth b =>
        cases b <;>
        simp [bindingOfRule, mkBackendInfo, determineBackendAuthJwtAud,
          specJwtAudience, specDerivedAudience, getJwtAudienceFromBackendAddr,
          schemeUsesTLS, ha, hauth]

/-- On non-GCP the amended audience is always empty (a non-empty result
is reset, an empty one stays empty). -/
theorem specJwtAudience_nonGCP (opts : ConfigGeneratorOptions) (r : BackendRule)
    (hg : opts.nonGCP = true) : specJwtAudience opts r = "" := by
  unfold specJwtAudience
  rw [hg]
  by_cases hd : specDerivedAudience r = "" <;> simp [hd]

/-- An explicit `DisableAuth = true` yields no audience. -/
theorem specJwtAudience_disable (opts : ConfigGeneratorOptions) (r : BackendRule)
    (h : r.authentication = some (.disableAuth true)) :
    specJwtAudience opts r = "" := by
  have hd : specDerivedAudience r = "" := by
    unfold specDerivedAudience
    rw [h]
    rfl
  unfold specJwtAudience
  rw [hd]
  simp

/-- Off non-GCP an explicit `JwtAudience` is used as-is. -/
theorem specJwtAudience_explicit (opts : ConfigGeneratorOptions) (r : BackendRule)
    (aud : String) (hg : opts.nonGCP = false)
    (h : r.authentication = some (.jwtAudience aud)) :
    specJwtAudience opts r = aud := by
  have hd : specDerivedAudience r = aud := by
    unfold specDerivedAudience
    rw [h]
  unfold specJwtAudience
  rw [hd, hg]
  simp

/-- The C3 counterexample fixture: a single backend rule with an empty
address that sets the `DisableAuth` oneof to `false`. -/
def cfgC3 : ServiceConfig :=
  { cfgW with
    backend := [
      { selector := "a.m", address := none, deadline := 0, protocol := ""
        authentication := some (.disableAuth false)
        pathTranslation := .unspecified } ] }

def sC3 : ServiceInfo := buildOr (NewServiceInfoFromServiceConfig (some cfgC3) "id" optsW)

/-- C3 counterexample: the rule has no remote address, does not set
`JwtAudience` and does not set `DisableAuth = true`, and non-GCP is off
— per the claim no audience is derived — yet the built binding carries
the non-empty audience `"http://"`: an explicit `DisableAuth = false`
derives from the empty scheme and host without checking the address. -/
theorem C3_backend_auth_audience_counterexample :
    isOkE (NewServiceInfoFromServiceConfig (some cfgC3) "id" optsW) = true ∧
    cfgC3.backend.map (fun r => r.address) = [none] ∧
    cfgC3.backend.map (fun r => r.authentication) = [some (.disableAuth false)] ∧
    optsW.nonGCP = false ∧
    ((lookupM "a.m" sC3.methods).bind (fun m => m.backendInfo)).map
      (fun bi => bi.jwtAudience) = some "http://" := by
  decide

/-- C3 (amended): for every method bound by a backend rule, the
binding's audience is the amended computation `specJwtAudience`: the
rule's `JwtAudience` when that oneof is set; empty when
`DisableAuth = true`; derived `http(s)://host` from scheme and host when
`DisableAuth = false` (even with an empty address, giving `"http://"`)
or when no oneof is set and a remote address is present; empty when no
oneof is set and the address is empty; and on non-GCP any non-empty
result — including an explicit `JwtAudience` — is reset, so the binding
carries no audience. -/
theorem C3_backend_auth_audience {cfg : ServiceConfig} {id : String}
    {opts : ConfigGeneratorOptions} {sF : ServiceInfo}
    (h : NewServiceInfoFromServiceConfig (some cfg) id opts = .ok sF) :
    ∀ k m r, lookupM k sF.methods = some m → m.isGenerated = false →
      lastBackendRuleFor cfg.backend k = some r →
      ∃ bi, m.backendInfo = some bi ∧
        bi.jwtAudience = specJwtAudience opts r ∧
        (opts.nonGCP = true → bi.jwtAudience = "") ∧
        (r.authentication = some (.disableAuth true) → bi.jwtAudience = "") ∧
        (∀ aud, opts.nonGCP = false → r.authentication = some (.jwtAudience aud) →
          bi.jwtAudience = aud) := by
  obtain ⟨-, h2⟩ := build_binding h
  intro k m r hm hgen hr
  have hb : (expectedBinding cfg opts k).jwtAudience = specJwtAudience opts r := by
    unfold expectedBinding
    rw [hr]
    exact bindingOfRule_jwtAudience _ _ _
  refine ⟨expectedBinding cfg opts k, h2 k m hm hgen, hb, ?_, ?_, ?_⟩
  · intro hg
    rw [hb]
    exact specJwtAudience_nonGCP _ _ hg
  · intro hd
    rw [hb]
    exact specJwtAudience_disable _ _ hd
  · intro aud hg hj
    rw [hb]
    exact specJwtAudience_explicit _ _ _ hg hj

/-- C3 witness: the amended audience characterization at the concrete
built state of the counterexample fixture. -/
theorem C3_backend_auth_audience_witness :
    NewServiceInfoFromServiceConfig (some cfgC3) "id" optsW = .ok sC3 ∧
    (∀ k m r, lookupM k sC3.methods = some m → m.isGenerated = false →
      lastBackendRuleFor cfgC3.backend k = some r →
      ∃ bi, m.backendInfo = some bi ∧
        bi.jwtAudience = specJwtAudience optsW r ∧
        (optsW.nonGCP = true → bi.jwtAudience = "") ∧
        (r.authentication = some (.disableAuth true) → bi.jwtAudience = "") ∧
        (∀ aud, optsW.nonGCP = false → r.authentication = some (.jwtAudience aud) →
          bi.jwtAudience = aud)) :=
  ⟨by decide, @C3_backend_auth_audience cfgC3 "id" optsW sC3 (by decide)⟩

end ESPv2

namespace ESPv2

/-- Key presence is preserved through a successful fold whose steps
preserve it. -/
theorem foldE_presence {σ α : Type} (meth : σ → List (String × MethodInfo))
    {f : σ → α → Except BuildErr σ}
    (hg : ∀ s a s', f s a = .ok s' →
      ∀ k, (lookupM k (meth s)).isSome → (lookupM k (meth s')).isSome) :
    ∀ (l : List α) (s s' : σ), foldE f s l = .ok s' →
      ∀ k, (lookupM k (meth s)).isSome → (lookupM k (meth s')).isSome := by
  intro l
  induction l with
  | nil =>
    intro s s' h
    rw [foldE_nil] at h
    cases h
    exact fun _ hk => hk
  | cons b l ih =>
    intro s s' h
    rw [foldE_cons] at h
    cases hb : f s b with
    | error e => rw [hb] at h; cases h
    | ok s₁ =>
      rw [hb] at h
      exact fun k hk => ih s₁ s' h k (hg s b s₁ hb k hk)

/-- Every processed element's selector is present after a successful
fold whose steps preserve presence and establish their own selector
(for elements satisfying `Q`). -/
theorem foldE_present {σ α : Type} (meth : σ → List (String × MethodInfo))
    (sel : α → String) (Q : α → Prop) {f : σ → α → Except BuildErr σ}
    (hg : ∀ s a s', f s a = .ok s' →
      ∀ k, (lookupM k (meth s)).isSome → (lookupM k (meth s')).isSome)
    (hsel : ∀ s a s', Q a → f s a = .ok s' → (lookupM (sel a) (meth s')).isSome) :
    ∀ (l : List α) (s s' : σ), foldE f s l = .ok s' →
      ∀ a ∈ l, Q a → (lookupM (sel a) (meth s')).isSome := by
  intro l
  induction l with
  | nil => intro s s' h a ha; cases ha
  | cons b l ih =>
    intro s s' h a ha hQ
    rw [foldE_cons] at h
    cases hb : f s b with
    | error e => rw [hb] at h; cases h
    | ok s₁ =>
      rw [hb] at h
      cases ha with
      | head => exact foldE_presence meth hg l s₁ s' h _ (hsel s b s₁ hQ hb)
      | tail _ ha2 => exact ih s₁ s' h a ha2 hQ

/-- `addBackendInfoToMethod` leaves its rule's selector present. -/
theorem addBackendInfoToMethod_present {s s' : ServiceInfo} {r : BackendRule}
    {scheme hostname path clusterName : String}
    (h : addBackendInfoToMethod s r scheme hostname path clusterName = .ok s') :
    (lookupM r.selector s'.methods).isSome := by
  unfold addBackendInfoToMethod at h
  cases hg : getOrCreateMethod s r.selector with
  | error e => rw [hg] at h; cases h
  | ok p =>
    obtain ⟨mi, s₁⟩ := p
    rw [hg] at h
    dsimp only at h
    cases h
    dsimp only
    rw [lookupM_updateM_isSome, getOrCreateMethod_present hg]
    rfl

/-- A processed backend rule's selector is present afterwards. -/
theorem processOneBackendRule_present {st st' : ServiceInfo × List (String × String)}
    {r : BackendRule} (h : processOneBackendRule st r = .ok st') :
    (lookupM r.selector st'.1.methods).isSome := by
  obtain ⟨s, c⟩ := st
  obtain ⟨s', c'⟩ := st'
  unfold processOneBackendRule at h
  dsimp only at h
  cases hr : r.address with
  | none =>
    rw [hr] at h
    dsimp only at h
    obtain ⟨sx, hb, hy⟩ := exceptMap_ok h
    cases hy
    exact addBackendInfoToMethod_present hb
  | some addr =>
    rw [hr] at h
    dsimp only at h
    cases hl : lookupStr addr.hostPort c with
    | some cn =>
      rw [hl] at h
      obtain ⟨sx, hb, hy⟩ := exceptMap_ok h
      cases hy
      exact addBackendInfoToMethod_present hb
    | none =>
      rw [hl] at h
      cases hp : parseBackendProtocol addr.scheme r.protocol with
      | error e => rw [hp] at h; cases h
      | ok pt =>
        obtain ⟨protocol, tls⟩ := pt
        rw [hp] at h
        simp only at h
        obtain ⟨sx, hb, hy⟩ := exceptMap_ok h
        cases hy
        exact addBackendInfoToMethod_present hb

/-- Every backend rule's selector is present after `processBackendRule`. -/
theorem processBackendRule_present {s s' : ServiceInfo}
    (h : processBackendRule s = .ok s') :
    ∀ r ∈ s.serviceConfig.backend, (lookupM r.selector s'.methods).isSome := by
  unfold processBackendRule at h
  cases hf : foldE processOneBackendRule (s, []) s.serviceConfig.backend with
  | error e => rw [hf] at h; cases h
  | ok p =>
    obtain ⟨sx, c⟩ := p
    rw [hf] at h
    cases h
    intro r hr
    exact foldE_present (fun st => st.1.methods) (fun r : BackendRule => r.selector)
      (fun _ => True)
      (fun st a st' hstep k hk => (processOneBackendRule_pres hstep).2 k hk)
      (fun st a st' _ hstep => processOneBackendRule_present hstep)
      _ _ _ hf r hr trivial

/-- A processed http rule's selector is present afterwards. -/
theorem processOneHttpRule_present {st st' : ServiceInfo × List String} {r : HttpRule}
    (h : processOneHttpRule st r = .ok st') :
    (lookupM r.selector st'.1.methods).isSome := by
  obtain ⟨s, os⟩ := st
  unfold processOneHttpRule at h
  dsimp only at h
  cases hg : getOrCreateMethod s r.selector with
  | error e => rw [hg] at h; cases h
  | ok p =>
    obtain ⟨mi, s₁⟩ := p
    rw [hg] at h
    dsimp only at h
    cases ha : addHttpRule mi r.pattern os with
    | error e => rw [ha] at h; cases h
    | ok q =>
      obtain ⟨mi₁, os₁⟩ := q
      rw [ha] at h
      dsimp only at h
      cases hf : foldE (fun (st : MethodInfo × List String) b => addHttpRule st.1 b st.2)
          (mi₁, os₁) r.additionalBindings with
      | error e => rw [hf] at h; cases h
      | ok q₂ =>
        obtain ⟨mi₂, os₂⟩ := q₂
        rw [hf] at h
        dsimp only at h
        cases h
        dsimp only
        rw [lookupM_updateM_isSome, getOrCreateMethod_present hg]
        rfl

/-- Every http rule's selector is present after `processHttpRule`. -/
theorem processHttpRule_present {s s' : ServiceInfo}
    (h : processHttpRule s = .ok s') :
    ∀ r ∈ s.serviceConfig.http, (lookupM r.selector s'.methods).isSome := by
  unfold processHttpRule at h
  cases hf : foldE processOneHttpRule (s, []) s.serviceConfig.http with
  | error e => rw [hf] at h; cases h
  | ok p =>
    obtain ⟨s₁, os₁⟩ := p
    rw [hf] at h
    simp only at h
    intro r hr
    have h₁ : (lookupM r.selector s₁.methods).isSome :=
      foldE_present (fun st => st.1.methods) (fun r : HttpRule => r.selector)
        (fun _ => True)
        (fun st a st' hstep k hk => (processOneHttpRule_pres hstep).2 k hk)
        (fun st a st' _ hstep => processOneHttpRule_present hstep)
        _ _ _ hf r hr trivial
    by_cases hc : s₁.allowCors = true
    · rw [if_pos hc] at h
      cases hf₂ : foldE corsRuleStep (s₁, os₁) s₁.serviceConfig.http with
      | error e => rw [hf₂] at h; cases h
      | ok p₂ =>
        obtain ⟨s₂, os₂⟩ := p₂
        rw [hf₂] at h
        simp only at h
        have pres₂ : Pres s₁ s₂ :=
          foldE_rel (R := fun (a b : ServiceInfo × List String) => Pres a.1 b.1)
            (fun a => pres_refl a.1) (fun _ _ _ hab hbc => pres_trans hab hbc)
            (fun _ _ _ hstep => corsRuleStep_pres hstep) _ _ _ hf₂
        exact (addHealthzMethod_pres h).2 _ (pres₂.2 _ h₁)
    · rw [if_neg hc] at h
      simp only at h
      exact (addHealthzMethod_pres h).2 _ h₁

/-- Every usage rule's selector is present after `processUsageRule`. -/
theorem processUsageRule_present {s s' : ServiceInfo}
    (h : processUsageRule s = .ok s') :
    ∀ r ∈ s.serviceConfig.usage, (lookupM r.selector s'.methods).isSome := by
  unfold processUsageRule at h
  intro r hr
  refine foldE_present (fun s : ServiceInfo => s.methods)
    (fun r : UsageRule => r.selector) (fun _ => True)
    (fun sa a sa' hstep k hk => ?_) (fun sa a sa' _ hstep => ?_)
    _ _ _ h r hr trivial
  · cases hg : getOrCreateMethod sa a.selector with
    | error e => rw [hg] at hstep; cases hstep
    | ok p =>
      obtain ⟨mi, s₁⟩ := p
      rw [hg] at hstep
      cases hstep
      dsimp only
      rw [lookupM_updateM_isSome]
      exact (getOrCreateMethod_pres hg).2 k hk
  · cases hg : getOrCreateMethod sa a.selector with
    | error e => rw [hg] at hstep; cases hstep
    | ok p =>
      obtain ⟨mi, s₁⟩ := p
      rw [hg] at hstep
      cases hstep
      dsimp only
      rw [lookupM_updateM_isSome, getOrCreateMethod_present hg]
      rfl

/-- Every quota metric rule's selector is present after a successful
`processQuota` (the phase fails on a missing one). -/
theorem processQuota_present {s s' : ServiceInfo}
    (h : processQuota s = .ok s') :
    ∀ r ∈ s.serviceConfig.quota, (lookupM r.selector s'.methods).isSome := by
  unfold processQuota at h
  intro r hr
  refine foldE_present (fun s : ServiceInfo => s.methods)
    (fun r : MetricRule => r.selector) (fun _ => True)
    (fun sa a sa' hstep k hk => ?_) (fun sa a sa' _ hstep => ?_)
    _ _ _ h r hr trivial
  · cases hl : lookupM a.selector sa.methods with
    | none => rw [hl] at hstep; cases hstep
    | some m =>
      rw [hl] at hstep
      cases hstep
      dsimp only
      rw [lookupM_updateM_isSome]
      exact hk
  · cases hl : lookupM a.selector sa.methods with
    | none => rw [hl] at hstep; cases hstep
    | some m =>
      rw [hl] at hstep
      cases hstep
      dsimp only
      rw [lookupM_updateM_isSome, hl]
      rfl

/-- Every system-parameter rule's selector is present after
`processApiKeyLocations`. -/
theorem processApiKeyLocations_present {s s' : ServiceInfo}
    (h : processApiKeyLocations s = .ok s') :
    ∀ r ∈ s.serviceConfig.systemParameters, (lookupM r.selector s'.methods).isSome := by
  unfold processApiKeyLocations at h
  cases hf : foldE (fun s (rule : SystemParameterRule) =>
      let apiKeyLocationParameters := rule.parameters.filter
        (fun p => p.name = apiKeyParameterName)
      match getOrCreateMethod s rule.selector with
      | .error e => .error e
      | .ok (_, s) => .ok (extractApiKeyLocations s rule.selector apiKeyLocationParameters))
      s s.serviceConfig.systemParameters with
  | error e => rw [hf] at h; cases h
  | ok s₁ =>
    rw [hf] at h
    dsimp only at h
    cases h
    intro r hr
    dsimp only
    refine foldE_present (fun s : ServiceInfo => s.methods)
      (fun r : SystemParameterRule => r.selector) (fun _ => True)
      (fun sa a sa' hstep k hk => ?_) (fun sa a sa' _ hstep => ?_)
      _ _ _ hf r hr trivial
    · dsimp only at hstep
      cases hg : getOrCreateMethod sa a.selector with
      | error e => rw [hg] at hstep; cases hstep
      | ok p =>
        obtain ⟨mi, s₂⟩ := p
        rw [hg] at hstep
        cases hstep
        exact (extractApiKeyLocations_pres s₂ a.selector _).2 k
          ((getOrCreateMethod_pres hg).2 k hk)
    · dsimp only at hstep
      cases hg : getOrCreateMethod sa a.selector with
      | error e => rw [hg] at hstep; cases hstep
      | ok p =>
        obtain ⟨mi, s₂⟩ := p
        rw [hg] at hstep
        cases hstep
        unfold extractApiKeyLocations
        dsimp only
        rw [lookupM_updateM_isSome, getOrCreateMethod_present hg]
        rfl

/-- Every auth rule with at least one requirement has its selector
present after a successful `processAuthRequirement` (the phase fails on
a missing one). -/
theorem processAuthRequirement_present {s s' : ServiceInfo}
    (h : processAuthRequirement s = .ok s') :
    ∀ r ∈ s.serviceConfig.authRules, r.requirements.length > 0 →
      (lookupM r.selector s'.methods).isSome := by
  unfold processAuthRequirement at h
  intro r hr hq
  refine foldE_present (fun s : ServiceInfo => s.methods)
    (fun r : AuthRule => r.selector) (fun r : AuthRule => r.requirements.length > 0)
    (fun sa a sa' hstep k hk => ?_) (fun sa a sa' hQ hstep => ?_)
    _ _ _ h r hr hq
  · by_cases hn : a.requirements.length > 0
    · rw [if_pos hn] at hstep
      cases hl : lookupM a.selector sa.methods with
      | none => rw [hl] at hstep; cases hstep
      | some m =>
        rw [hl] at hstep
        cases hstep
        dsimp only
        rw [lookupM_updateM_isSome]
        exact hk
    · rw [if_neg hn] at hstep
      cases hstep
      exact hk
  · rw [if_pos hQ] at hstep
    cases hl : lookupM a.selector sa.methods with
    | none => rw [hl] at hstep; cases hstep
    | some m =>
      rw [hl] at hstep
      cases hstep
      dsimp only
      rw [lookupM_updateM_isSome, hl]
      rfl

end ESPv2

namespace ESPv2

/-- The C1 counterexample fixture: a quota metric rule whose
valid-format selector names no method. -/
def cfgC1 : ServiceConfig :=
  { cfgW with quota := [{ selector := "a.x", metricCosts := [("m", 1)] }] }

def cfgC1u : ServiceConfig :=
  { cfgW with usage := [{ selector := "a.x", allowUnregisteredCalls := false
                          skipServiceControl := false }] }

/-- C1 counterexample: `processQuota` indexes the method map directly
and never auto-creates: the valid-format selector `a.x` in a quota
metric rule makes the build dereference a missing entry (modelled
`nilDeref`), while the same unknown selector in a usage rule is
auto-created and the build succeeds. -/
theorem C1_selector_closure_counterexample :
    (splitDot "a.x").length > 1 ∧
    NewServiceInfoFromServiceConfig (some cfgC1) "id" optsW = .error .nilDeref ∧
    isOkE (NewServiceInfoFromServiceConfig (some cfgC1u) "id" optsW) = true := by
  decide

/-- C1 (amended): after a successful build, every selector of every
backend, http, usage, quota and system-parameter rule is present in the
method map, and every auth rule with at least one requirement resolves
(an unresolved one is fatal).  Backend, http, usage and system-parameter
selectors of valid dotted form are auto-created; quota selectors are
not auto-created — the build instead fails when one is missing, so
after success they are present too. -/
theorem C1_selector_closure {cfg : ServiceConfig} {id : String}
    {opts : ConfigGeneratorOptions} {sF : ServiceInfo}
    (h : NewServiceInfoFromServiceConfig (some cfg) id opts = .ok sF) :
    (∀ r ∈ cfg.backend, (lookupM r.selector sF.methods).isSome) ∧
    (∀ r ∈ cfg.http, (lookupM r.selector sF.methods).isSome) ∧
    (∀ r ∈ cfg.usage, (lookupM r.selector sF.methods).isSome) ∧
    (∀ r ∈ cfg.quota, (lookupM r.selector sF.methods).isSome) ∧
    (∀ r ∈ cfg.systemParameters, (lookupM r.selector sF.methods).isSome) ∧
    (∀ r ∈ cfg.authRules, r.requirements.length > 0 →
      (lookupM r.selector sF.methods).isSome) := by
  obtain ⟨-, lc, grpc, s₂, s₃, s₄, s₅, s₆, s₇, s₈, s₉, s₁₀,
    hlb, h2, h3, h4, h5, h6, h7, h8, h9, h10, h11⟩ := build_decomp h
  set s₁ := processEndpoints (initState cfg id opts lc grpc) with hs₁
  have p2 : Pres s₁ s₂ := processApis_pres h2
  have p3 : Pres s₂ s₃ := processQuota_pres h3
  have p4 : Pres s₃ s₄ := processBackendRule_pres h4
  have p5 : Pres s₄ s₅ := processHttpRule_pres h5
  have p6 : Pres s₅ s₆ := processUsageRule_pres h6
  have p7 : Pres s₆ s₇ := processTypes_pres h7
  have p8 : Pres s₇ s₈ := addGrpcHttpRules_pres h8
  have p9 : Pres s₈ s₉ := processApiKeyLocations_pres h9
  have p10 : Pres s₉ s₁₀ := processLocalBackendOperations_pres h10
  have p11 : Pres s₁₀ sF := processAuthRequirement_pres h11
  have hcfg₂ : s₂.serviceConfig = cfg := p2.1.2.1
  have hcfg₃ : s₃.serviceConfig = cfg := p3.1.2.1.trans hcfg₂
  have hcfg₄ : s₄.serviceConfig = cfg := p4.1.2.1.trans hcfg₃
  have hcfg₅ : s₅.serviceConfig = cfg := p5.1.2.1.trans hcfg₄
  have hcfg₈ : s₈.serviceConfig = cfg :=
    (p8.1.2.1.trans (p7.1.2.1.trans (p6.1.2.1.trans hcfg₅)))
  have hcfg₁₀ : s₁₀.serviceConfig = cfg :=
    (p10.1.2.1.trans (p9.1.2.1.trans hcfg₈))
  have g11 : MGrow s₁₀ sF := p11.2
  have g10 : MGrow s₉ sF := mgrow_trans p10.2 g11
  have g9 : MGrow s₈ sF := mgrow_trans p9.2 g10
  have g8 : MGrow s₇ sF := mgrow_trans p8.2 g9
  have g7 : MGrow s₆ sF := mgrow_trans p7.2 g8
  have g6 : MGrow s₅ sF := mgrow_trans p6.2 g7
  have g5 : MGrow s₄ sF := mgrow_trans p5.2 g6
  have g4 : MGrow s₃ sF := mgrow_trans p4.2 g5
  refine ⟨fun r hr => ?_, fun r hr => ?_, fun r hr => ?_, fun r hr => ?_,
    fun r hr => ?_, fun r hr hq => ?_⟩
  · exact g5 _ (processBackendRule_present h4 r (by rw [hcfg₃]; exact hr))
  · exact g6 _ (processHttpRule_present h5 r (by rw [hcfg₄]; exact hr))
  · exact g7 _ (processUsageRule_present h6 r (by rw [hcfg₅]; exact hr))
  · exact g4 _ (processQuota_present h3 r (by rw [hcfg₂]; exact hr))
  · exact g10 _ (processApiKeyLocations_present h9 r (by rw [hcfg₈]; exact hr))
  · exact processAuthRequirement_present h11 r (by rw [hcfg₁₀]; exact hr) hq

/-- The C1 witness fixture: one rule of every rule set naming `a.m`. -/
def cfgC1w : ServiceConfig :=
  { cfgW with
    http := [{ selector := "a.m", pattern := some (.get ⟨[.lit "x"]⟩)
               additionalBindings := [] }]
    backend := [{ selector := "a.m", address := none, deadline := 0, protocol := ""
                  authentication := none, pathTranslation := .unspecified }]
    usage := [{ selector := "a.m", allowUnregisteredCalls := false
                skipServiceControl := false }]
    quota := [{ selector := "a.m", metricCosts := [("metric", 2)] }]
    systemParameters := [{ selector := "a.m"
                           parameters := [{ name := "api_key"
                                            urlQueryParameter := "k", httpHeader := "" }] }]
    authRules := [{ selector := "a.m", requirements := ["p1"] }] }

def sC1w : ServiceInfo := buildOr (NewServiceInfoFromServiceConfig (some cfgC1w) "id" optsW)

/-- C1 witness: a build with one rule of every set over `a.m` succeeds
and every selector resolves afterwards. -/
theorem C1_selector_closure_witness :
    NewServiceInfoFromServiceConfig (some cfgC1w) "id" optsW = .ok sC1w ∧
    ((∀ r ∈ cfgC1w.backend, (lookupM r.selector sC1w.methods).isSome) ∧
     (∀ r ∈ cfgC1w.http, (lookupM r.selector sC1w.methods).isSome) ∧
     (∀ r ∈ cfgC1w.usage, (lookupM r.selector sC1w.methods).isSome) ∧
     (∀ r ∈ cfgC1w.quota, (lookupM r.selector sC1w.methods).isSome) ∧
     (∀ r ∈ cfgC1w.systemParameters, (lookupM r.selector sC1w.methods).isSome) ∧
     (∀ r ∈ cfgC1w.authRules, r.requirements.length > 0 →
       (lookupM r.selector sC1w.methods).isSome)) :=
  ⟨by decide, @C1_selector_closure cfgC1w "id" optsW sC1w (by decide)⟩

end ESPv2

namespace ESPv2

/-- The cluster-side frame: remote clusters and the gRPC flag, unchanged
by every phase but `buildLocalBackend` and `processBackendRule`. -/
def CFrame (s s' : ServiceInfo) : Prop :=
  s'.remoteBackendClusters = s.remoteBackendClusters ∧
  s'.grpcSupportRequired = s.grpcSupportRequired

theorem cframe_refl (s : ServiceInfo) : CFrame s s := ⟨rfl, rfl⟩

theorem cframe_trans {a b c : ServiceInfo} (h₁ : CFrame a b) (h₂ : CFrame b c) :
    CFrame a c := ⟨h₂.1.trans h₁.1, h₂.2.trans h₁.2⟩

theorem getOrCreateMethod_cframe {s s' : ServiceInfo} {n : String} {mi : MethodInfo}
    (h : getOrCreateMethod s n = .ok (mi, s')) : CFrame s s' := by
  rcases getOrCreateMethod_cases h with ⟨-, h2⟩ | ⟨-, -, h2⟩ <;> subst h2 <;>
    exact ⟨rfl, rfl⟩

theorem processApiMethod_cframe {api : Api} {s : ServiceInfo} {m : ApiMethod}
    {s' : ServiceInfo} (h : processApiMethod api s m = .ok s') : CFrame s s' := by
  unfold processApiMethod at h
  cases hg : getOrCreateMethod s (api.name ++ "." ++ m.name) with
  | error e => rw [hg] at h; cases h
  | ok p =>
    obtain ⟨mi, s₁⟩ := p
    rw [hg] at h
    simp at h
    exact cframe_trans (getOrCreateMethod_cframe hg) (h ▸ ⟨rfl, rfl⟩)

theorem processApis_cframe {s s' : ServiceInfo} (h : processApis s = .ok s') :
    CFrame s s' := by
  unfold processApis at h
  refine foldE_rel cframe_refl (fun _ _ _ => cframe_trans) ?_ _ _ _ h
  intro sa api sa' hstep
  have inner : CFrame { sa with apiNames := sa.apiNames ++ [api.name] } sa' :=
    foldE_rel cframe_refl (fun _ _ _ => cframe_trans)
      (fun _ m sb' hm => processApiMethod_cframe hm) _ _ _ hstep
  exact cframe_trans ⟨rfl, rfl⟩ inner

theorem processQuota_cframe {s s' : ServiceInfo} (h : processQuota s = .ok s') :
    CFrame s s' := by
  unfold processQuota at h
  refine foldE_rel cframe_refl (fun _ _ _ => cframe_trans) ?_ _ _ _ h
  intro sa rule sa' hstep
  cases hl : lookupM rule.selector sa.methods with
  | none => rw [hl] at hstep; cases hstep
  | some m =>
    rw [hl] at hstep
    cases hstep
    exact ⟨rfl, rfl⟩

theorem processOneHttpRule_cframe {st st' : ServiceInfo × List String} {r : HttpRule}
    (h : processOneHttpRule st r = .ok st') : CFrame st.1 st'.1 := by
  obtain ⟨s, os⟩ := st
  obtain ⟨s', os'⟩ := st'
  unfold processOneHttpRule at h
  dsimp only at h
  cases hg : getOrCreateMethod s r.selector with
  | error e => rw [hg] at h; cases h
  | ok p =>
    obtain ⟨mi, s₁⟩ := p
    rw [hg] at h
    dsimp only at h
    cases ha : addHttpRule mi r.pattern os with
    | error e => rw [ha] at h; cases h
    | ok q =>
      obtain ⟨mi₁, os₁⟩ := q
      rw [ha] at h
      dsimp only at h
      cases hf : foldE (fun (st : MethodInfo × List String) b => addHttpRule st.1 b st.2)
          (mi₁, os₁) r.additionalBindings with
      | error e => rw [hf] at h; cases h
      | ok q₂ =>
        obtain ⟨mi₂, os₂⟩ := q₂
        rw [hf] at h
        simp at h
        obtain ⟨h1, h2⟩ := h
        exact cframe_trans (getOrCreateMethod_cframe hg) (h1 ▸ ⟨rfl, rfl⟩)

theorem addOptionMethod_cframe {s s' : ServiceInfo} {sel : String} {orig : MethodInfo}
    {pat : Pattern} (h : addOptionMethod s sel orig pat = .ok s') : CFrame s s' := by
  unfold addOptionMethod at h
  by_cases hm : pat.httpMethod ≠ "OPTIONS"
  · rw [if_pos hm] at h; cases h
  · rw [if_neg hm] at h
    cases hg : getOrCreateMethod s (corsSelectorOf orig) with
    | error e => rw [hg] at h; cases h
    | ok p =>
      obtain ⟨mi, s₁⟩ := p
      rw [hg] at h
      simp at h
      subst h
      exact cframe_trans (getOrCreateMethod_cframe hg) ⟨rfl, rfl⟩

theorem corsPatternStep_cframe {sel : String} {orig : MethodInfo}
    {st st' : ServiceInfo × List String} {p : Pattern}
    (h : corsPatternStep sel orig st p = .ok st') : CFrame st.1 st'.1 := by
  obtain ⟨s, os⟩ := st
  obtain ⟨s', os'⟩ := st'
  unfold corsPatternStep at h
  dsimp only at h
  by_cases hm : p.httpMethod ≠ "OPTIONS"
  · rw [if_pos hm] at h
    by_cases hc : containsStr p.uriTemplate.regex os = true
    · rw [if_pos hc] at h
      cases h
      exact cframe_refl s
    · rw [if_neg hc] at h
      cases ha : addOptionMethod s sel orig ⟨"OPTIONS", p.uriTemplate⟩ with
      | error e => rw [ha] at h; cases h
      | ok sx =>
        rw [ha] at h
        cases h
        exact addOptionMethod_cframe ha
  · rw [if_neg hm] at h
    cases h
    exact cframe_refl s

theorem corsRuleStep_cframe {st st' : ServiceInfo × List String} {r : HttpRule}
    (h : corsRuleStep st r = .ok st') : CFrame st.1 st'.1 := by
  unfold corsRuleStep at h
  cases hl : lookupM r.selector st.1.methods with
  | none => rw [hl] at h; cases h
  | some m =>
    rw [hl] at h
    exact foldE_rel (R := fun (a b : ServiceInfo × List String) => CFrame a.1 b.1)
      (fun a => cframe_refl a.1) (fun _ _ _ hab hbc => cframe_trans hab hbc)
      (fun _ _ _ hstep => corsPatternStep_cframe hstep) _ _ _ h

theorem addHealthzMethod_cframe {s s' : ServiceInfo}
    (h : addHealthzMethod s = .ok s') : CFrame s s' := by
  unfold addHealthzMethod at h
  cases hz : s.options.healthz with
  | none => rw [hz] at h; cases h; exact cframe_refl s
  | some t =>
    rw [hz] at h
    cases hg : getOrCreateMethod s (espOperation ++ "." ++ autogenBase ++ "_HealthCheck") with
    | error e => rw [hg] at h; cases h
    | ok p =>
      obtain ⟨mi, s₁⟩ := p
      rw [hg] at h
      simp at h
      exact cframe_trans (getOrCreateMethod_cframe hg) (h ▸ ⟨rfl, rfl⟩)

theorem processHttpRule_cframe {s s' : ServiceInfo}
    (h : processHttpRule s = .ok s') : CFrame s s' := by
  unfold processHttpRule at h
  cases hf : foldE processOneHttpRule (s, []) s.serviceConfig.http with
  | error e => rw [hf] at h; cases h
  | ok p =>
    obtain ⟨s₁, os₁⟩ := p
    rw [hf] at h
    simp only at h
    have c₁ : CFrame s s₁ :=
      foldE_rel (R := fun (a b : ServiceInfo × List String) => CFrame a.1 b.1)
        (fun a => cframe_refl a.1) (fun _ _ _ hab hbc => cframe_trans hab hbc)
        (fun _ _ _ hstep => processOneHttpRule_cframe hstep) _ _ _ hf
    by_cases hc : s₁.allowCors = true
    · rw [if_pos hc] at h
      cases hf₂ : foldE corsRuleStep (s₁, os₁) s₁.serviceConfig.http with
      | error e => rw [hf₂] at h; cases h
      | ok p₂ =>
        obtain ⟨s₂, os₂⟩ := p₂
        rw [hf₂] at h
        simp only at h
        have c₂ : CFrame s₁ s₂ :=
          foldE_rel (R := fun (a b : ServiceInfo × List String) => CFrame a.1 b.1)
            (fun a => cframe_refl a.1) (fun _ _ _ hab hbc => cframe_trans hab hbc)
            (fun _ _ _ hstep => corsRuleStep_cframe hstep) _ _ _ hf₂
        exact cframe_trans c₁ (cframe_trans c₂ (addHealthzMethod_cframe h))
    · rw [if_neg hc] at h
      simp only at h
      exact cframe_trans c₁ (addHealthzMethod_cframe h)

theorem processUsageRule_cframe {s s' : ServiceInfo}
    (h : processUsageRule s = .ok s') : CFrame s s' := by
  unfold processUsageRule at h
  refine foldE_rel cframe_refl (fun _ _ _ => cframe_trans) ?_ _ _ _ h
  intro sa r sa' hstep
  cases hg : getOrCreateMethod sa r.selector with
  | error e => rw [hg] at hstep; cases hstep
  | ok p =>
    obtain ⟨mi, s₁⟩ := p
    rw [hg] at hstep
    cases hstep
    exact cframe_trans (getOrCreateMethod_cframe hg) ⟨rfl, rfl⟩

theorem processTypesStep_cframe {types : List ProtoType} {s s' : ServiceInfo}
    {op : String} (h : processTypesStep types s op = .ok s') : CFrame s s' := by
  unfold processTypesStep at h
  cases hl : lookupM op s.methods with
  | none => rw [hl] at h; cases h; exact cframe_refl s
  | some mi =>
    rw [hl] at h
    dsimp only at h
    by_cases he : mi.requestTypeName = ""
    · rw [if_pos he] at h; cases h; exact cframe_refl s
    · rw [if_neg he] at h
      cases hft : types.find? (fun t => t.name = mi.requestTypeName) with
      | none => rw [hft] at h; cases h; exact cframe_refl s
      | some rt =>
        rw [hft] at h
        dsimp only at h
        cases hb : buildSnakeToJson rt.fields with
        | error e => rw [hb] at h; cases h
        | ok sj =>
          rw [hb] at h
          dsimp only at h
          by_cases hn : sj.length > 0
          · rw [if_pos hn] at h
            cases hg : mi.generatedCorsMethod with
            | none =>
              rw [hg] at h
              cases h
              exact ⟨rfl, rfl⟩
            | some g =>
              rw [hg] at h
              cases h
              exact ⟨rfl, rfl⟩
          · rw [if_neg hn] at h
            cases h
            exact cframe_refl s

theorem processTypes_cframe {s s' : ServiceInfo}
    (h : processTypes s = .ok s') : CFrame s s' := by
  unfold processTypes at h
  exact foldE_rel cframe_refl (fun _ _ _ => cframe_trans)
    (fun _ _ _ hstep => processTypesStep_cframe hstep) _ _ _ h

theorem addGrpcMethodRule_cframe {api : Api} {s s' : ServiceInfo} {m : ApiMethod}
    (h : addGrpcMethodRule api s m = .ok s') : CFrame s s' := by
  unfold addGrpcMethodRule at h
  cases hg : getOrCreateMethod s (api.name ++ "." ++ m.name) with
  | error e => rw [hg] at h; cases h
  | ok p =>
    obtain ⟨mi, s₁⟩ := p
    rw [hg] at h
    dsimp only at h
    cases hp : parseUriTemplate ⟨[.lit api.name, .lit m.name]⟩ with
    | error e => rw [hp] at h; cases h
    | ok t =>
      rw [hp] at h
      cases h
      exact cframe_trans (getOrCreateMethod_cframe hg) ⟨rfl, rfl⟩

theorem addGrpcHttpRules_cframe {s s' : ServiceInfo}
    (h : addGrpcHttpRules s = .ok s') : CFrame s s' := by
  unfold addGrpcHttpRules at h
  cases hgr : s.grpcSupportRequired with
  | false =>
    rw [hgr] at h
    simp at h
    rw [← h]
    exact cframe_refl s
  | true =>
    rw [hgr] at h
    simp at h
    refine foldE_rel cframe_refl (fun _ _ _ => cframe_trans) ?_ _ _ _ h
    intro sa api sa' hstep
    exact foldE_rel cframe_refl (fun _ _ _ => cframe_trans)
      (fun _ m sb' hm => addGrpcMethodRule_cframe hm) _ _ _ hstep

theorem processApiKeyLocations_cframe {s s' : ServiceInfo}
    (h : processApiKeyLocations s = .ok s') : CFrame s s' := by
  unfold processApiKeyLocations at h
  cases hf : foldE (fun s (rule : SystemParameterRule) =>
      let apiKeyLocationParameters := rule.parameters.filter
        (fun p => p.name = apiKeyParameterName)
      match getOrCreateMethod s rule.selector with
      | .error e => .error e
      | .ok (_, s) => .ok (extractApiKeyLocations s rule.selector apiKeyLocationParameters))
      s s.serviceConfig.systemParameters with
  | error e => rw [hf] at h; cases h
  | ok s₁ =>
    rw [hf] at h
    dsimp only at h
    cases h
    have c₁ : CFrame s s₁ := by
      refine foldE_rel cframe_refl (fun _ _ _ => cframe_trans) ?_ _ _ _ hf
      intro sa rule sa' hstep
      dsimp only at hstep
      cases hg : getOrCreateMethod sa rule.selector with
      | error e => rw [hg] at hstep; cases hstep
      | ok p =>
        obtain ⟨mi, s₂⟩ := p
        rw [hg] at hstep
        cases hstep
        exact cframe_trans (getOrCreateMethod_cframe hg) ⟨rfl, rfl⟩
    exact cframe_trans c₁ ⟨rfl, rfl⟩

theorem processLocalBackendOperations_cframe {s s' : ServiceInfo}
    (h : processLocalBackendOperations s = .ok s') : CFrame s s' := by
  unfold processLocalBackendOperations at h
  cases h
  exact ⟨rfl, rfl⟩

theorem processAuthRequirement_cframe {s s' : ServiceInfo}
    (h : processAuthRequirement s = .ok s') : CFrame s s' := by
  unfold processAuthRequirement at h
  refine foldE_rel cframe_refl (fun _ _ _ => cframe_trans) ?_ _ _ _ h
  intro sa rule sa' hstep
  by_cases hn : rule.requirements.length > 0
  · rw [if_pos hn] at hstep
    cases hl : lookupM rule.selector sa.methods with
    | none => rw [hl] at hstep; cases hstep
    | some mi =>
      rw [hl] at hstep
      cases hstep
      exact ⟨rfl, rfl⟩
  · rw [if_neg hn] at hstep
    cases hstep
    exact cframe_refl sa

end ESPv2

namespace ESPv2

/-- The `host:port` deduplication key of a routing cluster. -/
def clusterKey (c : BackendRoutingCluster) : String :=
  c.hostname ++ ":" ++ toString c.port

theorem lookupStr_some_mem {k v : String} : ∀ {l : List (String × String)},
    lookupStr k l = some v → k ∈ l.map Prod.fst := by
  intro l
  induction l with
  | nil => intro h; cases h
  | cons p rest ih =>
    obtain ⟨k₀, v₀⟩ := p
    intro h
    unfold lookupStr at h
    by_cases hk : k₀ = k
    · simp [hk]
    · rw [if_neg hk] at h
      simp [ih h]

theorem lookupStr_none_not_mem {k : String} : ∀ {l : List (String × String)},
    lookupStr k l = none → k ∉ l.map Prod.fst := by
  intro l
  induction l with
  | nil => intro _ hm; simp at hm
  | cons p rest ih =>
    obtain ⟨k₀, v₀⟩ := p
    intro h hm
    unfold lookupStr at h
    by_cases hk : k₀ = k
    · rw [if_pos hk] at h; cases h
    · rw [if_neg hk] at h
      rw [List.map_cons] at hm
      cases hm with
      | head => exact hk rfl
      | tail _ hm₂ => exact ih h hm₂

theorem addBackendInfoToMethod_cframe {s s' : ServiceInfo} {r : BackendRule}
    {scheme hostname path clusterName : String}
    (h : addBackendInfoToMethod s r scheme hostname path clusterName = .ok s') :
    CFrame s s' := by
  unfold addBackendInfoToMethod at h
  cases hg : getOrCreateMethod s r.selector with
  | error e => rw [hg] at h; cases h
  | ok p =>
    obtain ⟨mi, s₁⟩ := p
    rw [hg] at h
    dsimp only at h
    cases h
    exact cframe_trans (getOrCreateMethod_cframe hg) ⟨rfl, rfl⟩

/-- The invariant of the backend-rule fold: the dedup-map keys mirror
the remote clusters' `host:port` keys, those keys are distinct, every
cluster comes from a processed rule, every processed remote rule's
`host:port` is covered, and the gRPC flag is the initial flag or-ed with
the remote protocols. -/
def CluInv (g₀ : Bool) (pre : List BackendRule)
    (st : ServiceInfo × List (String × String)) : Prop :=
  st.2.map Prod.fst = st.1.remoteBackendClusters.map clusterKey ∧
  (st.1.remoteBackendClusters.map clusterKey).Nodup ∧
  (∀ c ∈ st.1.remoteBackendClusters, ∃ r ∈ pre, ∃ addr protocol tls,
      r.address = some addr ∧
      parseBackendProtocol addr.scheme r.protocol = .ok (protocol, tls) ∧
      c = remoteClusterFor addr protocol tls) ∧
  (∀ r ∈ pre, ∀ addr, r.address = some addr →
      addr.hostPort ∈ st.2.map Prod.fst) ∧
  st.1.grpcSupportRequired =
    (g₀ || st.1.remoteBackendClusters.any (fun c => c.protocol = BackendProtocol.grpc))

theorem processOneBackendRule_cluInv {g₀ : Bool} {pre : List BackendRule}
    {st st' : ServiceInfo × List (String × String)} {r : BackendRule}
    (hP : CluInv g₀ pre st) (h : processOneBackendRule st r = .ok st') :
    CluInv g₀ (pre ++ [r]) st' := by
  obtain ⟨s, c⟩ := st
  obtain ⟨hkeys, hnd, hsrc, hcov, hgrpc⟩ := hP
  dsimp only at hkeys hnd hsrc hcov hgrpc
  unfold processOneBackendRule at h
  dsimp only at h
  cases hr : r.address with
  | none =>
    rw [hr] at h
    dsimp only at h
    obtain ⟨sx, hb, hy⟩ := exceptMap_ok h
    subst hy
    obtain ⟨hrem, hg⟩ := addBackendInfoToMethod_cframe hb
    refine ⟨?_, ?_, ?_, ?_, ?_⟩
    · dsimp only; rw [hrem]; exact hkeys
    · dsimp only; rw [hrem]; exact hnd
    · dsimp only
      rw [hrem]
      intro cc hcc
      obtain ⟨r', hr', rest⟩ := hsrc cc hcc
      exact ⟨r', List.mem_append_left _ hr', rest⟩
    · dsimp only
      intro r' hr' addr haddr
      rcases List.mem_append.1 hr' with hr1 | hr1
      · exact hcov r' hr1 addr haddr
      · have he : r' = r := List.mem_singleton.1 hr1
        subst he
        rw [hr] at haddr
        cases haddr
    · dsimp only; rw [hrem, hg]; exact hgrpc
  | some addr =>
    rw [hr] at h
    dsimp only at h
    cases hl : lookupStr addr.hostPort c with
    | some cn =>
      rw [hl] at h
      obtain ⟨sx, hb, hy⟩ := exceptMap_ok h
      subst hy
      obtain ⟨hrem, hg⟩ := addBackendInfoToMethod_cframe hb
      refine ⟨?_, ?_, ?_, ?_, ?_⟩
      · dsimp only; rw [hrem]; exact hkeys
      · dsimp only; rw [hrem]; exact hnd
      · dsimp only
        rw [hrem]
        intro cc hcc
        obtain ⟨r', hr', rest⟩ := hsrc cc hcc
        exact ⟨r', List.mem_append_left _ hr', rest⟩
      · dsimp only
        intro r' hr' addr₂ haddr
        rcases List.mem_append.1 hr' with hr1 | hr1
        · exact hcov r' hr1 addr₂ haddr
        · have he : r' = r := List.mem_singleton.1 hr1
          subst he
          rw [hr] at haddr
          injection haddr with he₂
          subst he₂
          exact lookupStr_some_mem hl
      · dsimp only; rw [hrem, hg]; exact hgrpc
    | none =>
      rw [hl] at h
      cases hp : parseBackendProtocol addr.scheme r.protocol with
      | error e => rw [hp] at h; cases h
      | ok pt =>
        obtain ⟨protocol, tls⟩ := pt
        rw [hp] at h
        simp only at h
        obtain ⟨sx, hb, hy⟩ := exceptMap_ok h
        subst hy
        obtain ⟨hrem, hg⟩ := addBackendInfoToMethod_cframe hb
        have hrem' : sx.remoteBackendClusters =
            s.remoteBackendClusters ++ [remoteClusterFor addr protocol tls] := hrem
        have hg' : sx.grpcSupportRequired =
            (s.grpcSupportRequired || decide (protocol = BackendProtocol.grpc)) := hg
        have hnotin : addr.hostPort ∉ s.remoteBackendClusters.map clusterKey := by
          rw [← hkeys]
          exact lookupStr_none_not_mem hl
        refine ⟨?_, ?_, ?_, ?_, ?_⟩
        · dsimp only
          rw [List.map_append, hrem', List.map_append, hkeys]
          rfl
        · dsimp only
          rw [hrem', List.map_append]
          rw [List.nodup_append]
          refine ⟨hnd, List.nodup_singleton _, ?_⟩
          intro a ha hb₂
          have hb₃ : a = clusterKey (remoteClusterFor addr protocol tls) := by
            simpa using hb₂
          subst hb₃
          exact hnotin ha
        · dsimp only
          rw [hrem']
          intro cc hcc
          rcases List.mem_append.1 hcc with hc1 | hc1
          · obtain ⟨r', hr', rest⟩ := hsrc cc hc1
            exact ⟨r', List.mem_append_left _ hr', rest⟩
          · have he : cc = remoteClusterFor addr protocol tls := List.mem_singleton.1 hc1
            exact ⟨r, List.mem_append_right _ (List.mem_singleton_self r),
              addr, protocol, tls, hr, hp, he⟩
        · dsimp only
          intro r' hr' addr₂ haddr
          rw [List.map_append]
          rcases List.mem_append.1 hr' with hr1 | hr1
          · exact List.mem_append_left _ (hcov r' hr1 addr₂ haddr)
          · have he : r' = r := List.mem_singleton.1 hr1
            subst he
            rw [hr] at haddr
            injection haddr with he₂
            subst he₂
            exact List.mem_append_right _ (by simp)
        · dsimp only
          rw [hg', hgrpc, hrem', List.any_append]
          simp only [List.any_cons, List.any_nil, Bool.or_false, Bool.or_assoc]
          rfl

theorem processBackendRule_cluInv {s s' : ServiceInfo} {g₀ : Bool}
    (hrem : s.remoteBackendClusters = []) (hg : s.grpcSupportRequired = g₀)
    (h : processBackendRule s = .ok s') :
    (s'.remoteBackendClusters.map clusterKey).Nodup ∧
    (∀ c ∈ s'.remoteBackendClusters, ∃ r ∈ s.serviceConfig.backend,
        ∃ addr protocol tls,
        r.address = some addr ∧
        parseBackendProtocol addr.scheme r.protocol = .ok (protocol, tls) ∧
        c = remoteClusterFor addr protocol tls) ∧
    (∀ r ∈ s.serviceConfig.backend, ∀ addr, r.address = some addr →
        ∃ c ∈ s'.remoteBackendClusters, clusterKey c = addr.hostPort) ∧
    s'.grpcSupportRequired =
      (g₀ || s'.remoteBackendClusters.any (fun c => c.protocol = BackendProtocol.grpc)) := by
  unfold processBackendRule at h
  cases hf : foldE processOneBackendRule (s, []) s.serviceConfig.backend with
  | error e => rw [hf] at h; cases h
  | ok p =>
    obtain ⟨sx, c⟩ := p
    rw [hf] at h
    cases h
    have hinit : CluInv g₀ [] (s, []) := by
      refine ⟨by simp [hrem], by simp [hrem], ?_, ?_, ?_⟩
      · intro cc hcc
        rw [hrem] at hcc
        cases hcc
      · intro r hr
        cases hr
      · simp [hrem, hg]
    have hfin := foldE_inv_pre (P := CluInv g₀)
      (fun pre st a st' hP hst => processOneBackendRule_cluInv hP hst)
      _ _ _ _ hinit hf
    rw [List.nil_append] at hfin
    obtain ⟨hkeys, hnd, hsrc, hcov, hgrpc⟩ := hfin
    refine ⟨hnd, hsrc, ?_, hgrpc⟩
    intro r hr addr haddr
    have hmem := hcov r hr addr haddr
    rw [hkeys] at hmem
    obtain ⟨cc, hcc, hck⟩ := List.mem_map.1 hmem
    exact ⟨cc, hcc, hck⟩

end ESPv2

namespace ESPv2

/-- C8: after a successful build the single local cluster carries the
canonical `<service>_local` cluster name; remote clusters have pairwise
distinct `host:port` keys; every remote cluster is the parsed cluster of
some remote backend rule; every remote rule's `host:port` is covered by
exactly one cluster (coverage here, uniqueness by the distinct keys);
and the gRPC flag holds iff the local backend protocol is gRPC or some
remote cluster's protocol is. -/
theorem C8_cluster_invariant {cfg : ServiceConfig} {id : String}
    {opts : ConfigGeneratorOptions} {sF : ServiceInfo}
    (h : NewServiceInfoFromServiceConfig (some cfg) id opts = .ok sF) :
    sF.localBackendCluster.clusterName = backendClusterName (cfg.name ++ "_local") ∧
    (sF.remoteBackendClusters.map clusterKey).Nodup ∧
    (∀ c ∈ sF.remoteBackendClusters, ∃ r ∈ cfg.backend, ∃ addr protocol tls,
        r.address = some addr ∧
        parseBackendProtocol addr.scheme r.protocol = .ok (protocol, tls) ∧
        c = remoteClusterFor addr protocol tls) ∧
    (∀ r ∈ cfg.backend, ∀ addr, r.address = some addr →
        ∃ c ∈ sF.remoteBackendClusters, clusterKey c = addr.hostPort) ∧
    (sF.grpcSupportRequired = true ↔
      sF.localBackendCluster.protocol = .grpc ∨
      ∃ c ∈ sF.remoteBackendClusters, c.protocol = .grpc) := by
  obtain ⟨-, lc, grpc, s₂, s₃, s₄, s₅, s₆, s₇, s₈, s₉, s₁₀,
    hlb, h2, h3, h4, h5, h6, h7, h8, h9, h10, h11⟩ := build_decomp h
  set s₁ := processEndpoints (initState cfg id opts lc grpc) with hs₁
  have p2 : Pres s₁ s₂ := processApis_pres h2
  have p3 : Pres s₂ s₃ := processQuota_pres h3
  have hcfg₃ : s₃.serviceConfig = cfg := p3.1.2.1.trans p2.1.2.1
  have c13 : CFrame s₁ s₃ := cframe_trans (processApis_cframe h2) (processQuota_cframe h3)
  have hrem₃ : s₃.remoteBackendClusters = [] := c13.1.trans rfl
  have hg₃ : s₃.grpcSupportRequired = grpc := c13.2.trans rfl
  obtain ⟨hnd₄, hsrc₄, hcov₄, hgrpc₄⟩ := processBackendRule_cluInv hrem₃ hg₃ h4
  rw [hcfg₃] at hsrc₄ hcov₄
  have c4F : CFrame s₄ sF :=
    cframe_trans (processHttpRule_cframe h5) <|
    cframe_trans (processUsageRule_cframe h6) <|
    cframe_trans (processTypes_cframe h7) <|
    cframe_trans (addGrpcHttpRules_cframe h8) <|
    cframe_trans (processApiKeyLocations_cframe h9) <|
    cframe_trans (processLocalBackendOperations_cframe h10)
      (processAuthRequirement_cframe h11)
  have p1F : Pres s₁ sF :=
    pres_trans p2 <| pres_trans p3 <|
    pres_trans (processBackendRule_pres h4) <|
    pres_trans (processHttpRule_pres h5) <|
    pres_trans (processUsageRule_pres h6) <|
    pres_trans (processTypes_pres h7) <|
    pres_trans (addGrpcHttpRules_pres h8) <|
    pres_trans (processApiKeyLocations_pres h9) <|
    pres_trans (processLocalBackendOperations_pres h10)
      (processAuthRequirement_pres h11)
  have hlcF : sF.localBackendCluster = lc := p1F.1.2.2.2
  obtain ⟨protocol, tls, hpp, hlc, hgiff⟩ := buildLocalBackend_char hlb
  refine ⟨?_, ?_, ?_, ?_, ?_⟩
  · rw [hlcF, hlc]
  · rw [c4F.1]; exact hnd₄
  · rw [c4F.1]; exact hsrc₄
  · rw [c4F.1]; exact hcov₄
  · have hgF : sF.grpcSupportRequired = s₄.grpcSupportRequired := c4F.2
    have hremF : sF.remoteBackendClusters = s₄.remoteBackendClusters := c4F.1
    rw [hgF, hgrpc₄, hremF, hlcF, hlc]
    constructor
    · intro ht
      rw [Bool.or_eq_true] at ht
      rcases ht with hg1 | hg1
      · exact .inl (by
          have := hgiff.1 hg1
          simpa using this)
      · refine .inr ?_
        obtain ⟨cc, hcc, hcp⟩ := List.any_eq_true.1 hg1
        exact ⟨cc, hcc, of_decide_eq_true hcp⟩
    · intro hor
      rw [Bool.or_eq_true]
      rcases hor with hg1 | ⟨cc, hcc, hcp⟩
      · refine .inl (hgiff.2 ?_)
        simpa using hg1
      · exact .inr (List.any_eq_true.2 ⟨cc, hcc, decide_eq_true hcp⟩)

/-- C8 witness options: an HTTP (non-gRPC) local backend. -/
def optsC8 : ConfigGeneratorOptions :=
  { optsW with backendAddress :=
      { scheme := "http", host := "127.0.0.1", port := some 8082, path := "" } }

/-- The C8 witness fixture: two rules on the same `h:443` remote (one
cluster), plus a gRPC remote `g:80`. -/
def cfgC8 : ServiceConfig :=
  { cfgW with
    apis := [{ name := "a", version := "v1"
               methods := [
                 { name := "m1", requestStreaming := false, responseStreaming := false
                   requestTypeUrl := "" },
                 { name := "m2", requestStreaming := false, responseStreaming := false
                   requestTypeUrl := "" },
                 { name := "m3", requestStreaming := false, responseStreaming := false
                   requestTypeUrl := "" } ] }]
    backend := [
      { selector := "a.m1"
        address := some { scheme := "https", host := "h", port := none, path := "" }
        deadline := 0, protocol := "", authentication := none
        pathTranslation := .unspecified },
      { selector := "a.m2"
        address := some { scheme := "https", host := "h", port := none, path := "" }
        deadline := 0, protocol := "", authentication := none
        pathTranslation := .unspecified },
      { selector := "a.m3"
        address := some { scheme := "grpc", host := "g", port := none, path := "" }
        deadline := 0, protocol := "", authentication := none
        pathTranslation := .unspecified } ] }

def sC8 : ServiceInfo := buildOr (NewServiceInfoFromServiceConfig (some cfgC8) "id" optsC8)

/-- C8 witness: the two same-address rules yield one cluster
(`["h:443", "g:80"]`, no duplicate), the gRPC flag is raised by the
remote gRPC backend alone, and the cluster invariant holds at the
concrete built state. -/
theorem C8_cluster_invariant_witness :
    NewServiceInfoFromServiceConfig (some cfgC8) "id" optsC8 = .ok sC8 ∧
    sC8.remoteBackendClusters.map clusterKey = ["h:443", "g:80"] ∧
    sC8.localBackendCluster.protocol = .http1 ∧
    sC8.grpcSupportRequired = true ∧
    (sC8.localBackendCluster.clusterName = backendClusterName (cfgC8.name ++ "_local") ∧
     (sC8.remoteBackendClusters.map clusterKey).Nodup ∧
     (∀ c ∈ sC8.remoteBackendClusters, ∃ r ∈ cfgC8.backend, ∃ addr protocol tls,
         r.address = some addr ∧
         parseBackendProtocol addr.scheme r.protocol = .ok (protocol, tls) ∧
         c = remoteClusterFor addr protocol tls) ∧
     (∀ r ∈ cfgC8.backend, ∀ addr, r.address = some addr →
         ∃ c ∈ sC8.remoteBackendClusters, clusterKey c = addr.hostPort) ∧
     (sC8.grpcSupportRequired = true ↔
       sC8.localBackendCluster.protocol = .grpc ∨
       ∃ c ∈ sC8.remoteBackendClusters, c.protocol = .grpc)) :=
  ⟨by decide, by decide, by decide, by decide,
    @C8_cluster_invariant cfgC8 "id" optsC8 sC8 (by decide)⟩

end ESPv2

namespace ESPv2

/-! ## C4 counting apparatus -/

/-- An OPTIONS pattern for route-regex `R`. -/
def isOptPat (R : String) (p : Pattern) : Bool :=
  decide (p.httpMethod = "OPTIONS" ∧ p.uriTemplate.regex = R)

/-- An OPTIONS pattern for `R` that compiles to a safe-regex matcher
(non-exact template). -/
def isOptPatNE (R : String) (p : Pattern) : Bool :=
  decide (p.httpMethod = "OPTIONS" ∧ p.uriTemplate.regex = R ∧
    p.uriTemplate.isExactMatch = false)

/-- The number of `f`-patterns of one method. -/
def mCount (f : Pattern → Bool) (m : MethodInfo) : Nat := m.httpRule.countP f

/-- The number of `f`-patterns the route pipeline sees: the sum over
`Operations` of the looked-up method's count (exactly the traversal of
`collectPatterns`). -/
def opCount (f : Pattern → Bool) (s : ServiceInfo) : Nat :=
  (s.operations.map (fun op =>
    match lookupM op s.methods with
    | some m => mCount f m
    | none => 0)).sum

/-- Parsed OPTIONS-for-`R` indicator of one input pattern oneof. -/
def patOptCount (R : String) (rp : Option HttpRulePattern) : Nat :=
  match rp with
  | none => 0
  | some hp =>
    match parseHttpPattern hp with
    | .error _ => 0
    | .ok pat => if isOptPat R pat then 1 else 0

/-- The number of explicit OPTIONS-for-`R` bindings an http rule
declares (top-level pattern plus additional bindings). -/
def ruleOptCount (R : String) (r : HttpRule) : Nat :=
  ((r.pattern :: r.additionalBindings).map (patOptCount R)).sum

/-- The number of explicit OPTIONS-for-`R` bindings of a rule list. -/
def explicitOptCount (R : String) (rules : List HttpRule) : Nat :=
  (rules.map (ruleOptCount R)).sum

/-- A route that matches `(R, OPTIONS)`: safe-regex path `R` with the
single `:method = OPTIONS` header matcher. -/
def routeIsOpt (R : String) (rt : Route) : Bool :=
  decide (rt.routeMatch.pathSpec = .safeRegex R ∧
    rt.routeMatch.headers = [{ name := ":method", exactMatch := "OPTIONS" }])

/-- The map well-formedness the builder maintains: `Operations` is
exactly the method-map key list, without duplicates. -/
def WF (s : ServiceInfo) : Prop :=
  keysM s.methods = s.operations ∧ s.operations.Nodup

theorem lookupM_some_mem {k : String} {v : MethodInfo} :
    ∀ {l : List (String × MethodInfo)}, lookupM k l = some v → k ∈ keysM l := by
  intro l
  induction l with
  | nil => intro h; cases h
  | cons p rest ih =>
    obtain ⟨k₀, v₀⟩ := p
    intro h
    unfold lookupM at h
    by_cases hk : k₀ = k
    · simp [keysM, hk]
    · rw [if_neg hk] at h
      simp [keysM] at ih ⊢
      exact .inr (ih h)

theorem lookupM_none_not_mem {k : String} :
    ∀ {l : List (String × MethodInfo)}, lookupM k l = none → k ∉ keysM l := by
  intro l
  induction l with
  | nil => intro _ hm; simp [keysM] at hm
  | cons p rest ih =>
    obtain ⟨k₀, v₀⟩ := p
    intro h hm
    unfold lookupM at h
    by_cases hk : k₀ = k
    · rw [if_pos hk] at h; cases h
    · rw [if_neg hk] at h
      simp [keysM] at hm
      rcases hm with hm | hm
      · exact hk hm.symm
      · exact ih h (by simpa [keysM] using hm)

theorem wf_getOrCreate {s s₁ : ServiceInfo} {n : String} {mi : MethodInfo}
    (h : getOrCreateMethod s n = .ok (mi, s₁)) (hs : WF s) : WF s₁ := by
  rcases getOrCreateMethod_cases h with ⟨-, h2⟩ | ⟨hnone, -, h2⟩
  · subst h2; exact hs
  · subst h2
    obtain ⟨hsync, hnd⟩ := hs
    have hnm : n ∉ s.operations := by
      rw [← hsync]
      exact lookupM_none_not_mem hnone
    constructor
    · simp only [keysM_append, hsync]
      rfl
    · simp only
      rw [List.nodup_append]
      exact ⟨hnd, List.nodup_singleton n, fun a ha hb => by
        have : a = n := by simpa using hb
        subst this
        exact hnm ha⟩

theorem wf_updateM {s : ServiceInfo} (hs : WF s) (k : String)
    (f : MethodInfo → MethodInfo) :
    WF { s with methods := updateM k f s.methods } := by
  obtain ⟨hsync, hnd⟩ := hs
  exact ⟨by simpa [keysM_updateM] using hsync, hnd⟩

theorem opCount_record (f : Pattern → Bool) (s : ServiceInfo)
    {ms : List (String × MethodInfo)} {ops : List String}
    (hm : ms = s.methods) (ho : ops = s.operations) :
    opCount f { s with methods := ms, operations := ops } = opCount f s := by
  subst hm
  subst ho
  rfl

theorem opCount_updateM {f : Pattern → Bool} {s : ServiceInfo} {k : String}
    {m : MethodInfo} (hs : WF s) (hl : lookupM k s.methods = some m)
    (g : MethodInfo → MethodInfo) :
    opCount f { s with methods := updateM k g s.methods } + mCount f m =
      opCount f s + mCount f (g m) := by
  obtain ⟨hsync, hnd⟩ := hs
  have hk : k ∈ s.operations := by rw [← hsync]; exact lookupM_some_mem hl
  unfold opCount
  dsimp only
  revert hnd hk
  generalize s.operations = ops
  intro hnd hk
  induction ops with
  | nil => cases hk
  | cons op rest ih =>
    rw [List.map_cons, List.map_cons, List.sum_cons, List.sum_cons]
    rcases List.mem_cons.1 hk with he | hmem
    · subst he
      have hrest : k ∉ rest := (List.nodup_cons.1 hnd).1
      have hmaps : rest.map (fun op' =>
          match lookupM op' (updateM k g s.methods) with
          | some m => mCount f m
          | none => 0) = rest.map (fun op' =>
          match lookupM op' s.methods with
          | some m => mCount f m
          | none => 0) := by
        refine List.map_congr_left ?_
        intro op' hop'
        have hne : k ≠ op' := fun he₂ => hrest (he₂ ▸ hop')
        rw [lookupM_updateM_ne hne]
      rw [hmaps, lookupM_updateM_self, hl]
      simp only [Option.map_some']
      omega
    · have hop : op ≠ k := by
        intro he
        exact (List.nodup_cons.1 hnd).1 (he ▸ hmem)
      rw [lookupM_updateM_ne (Ne.symm hop)]
      have := ih (List.nodup_cons.1 hnd).2 hmem
      omega

end ESPv2

namespace ESPv2

theorem opCount_getOrCreate {f : Pattern → Bool} {s s₁ : ServiceInfo} {n : String}
    {mi : MethodInfo} (hs : WF s) (h : getOrCreateMethod s n = .ok (mi, s₁)) :
    opCount f s₁ = opCount f s := by
  rcases getOrCreateMethod_cases h with ⟨-, h2⟩ | ⟨hnone, -, h2⟩
  · subst h2; rfl
  · subst h2
    obtain ⟨hsync, hnd⟩ := hs
    unfold opCount
    dsimp only
    rw [List.map_append, List.sum_append]
    have hlast : lookupM n (s.methods ++ [(n, freshMethod n)]) = some (freshMethod n) := by
      rw [lookupM_append_none hnone, lookupM_singleton_self]
    have hmaps : s.operations.map (fun op =>
        match lookupM op (s.methods ++ [(n, freshMethod n)]) with
        | some m => mCount f m
        | none => 0) = s.operations.map (fun op =>
        match lookupM op s.methods with
        | some m => mCount f m
        | none => 0) := by
      refine List.map_congr_left ?_
      intro op hop
      have hmem : op ∈ keysM s.methods := by rw [hsync]; exact hop
      cases hl : lookupM op s.methods with
      | some v => rw [lookupM_append_some hl]
      | none => exact absurd hmem (lookupM_none_not_mem hl)
    rw [hmaps, List.map_cons, hlast]
    have hz : mCount f (freshMethod n) = 0 := rfl
    simp [hz]

theorem containsStr_append (R x : String) :
    ∀ l, containsStr R (l ++ [x]) = (containsStr R l || decide (x = R)) := by
  intro l
  induction l with
  | nil => simp [containsStr]
  | cons y ys ih =>
    by_cases hy : y = R
    · simp [containsStr, hy]
    · simp only [List.cons_append]
      unfold containsStr
      rw [if_neg hy, if_neg hy, ih]

theorem containsStr_insertStr (R x : String) (l : List String) :
    containsStr R (insertStr x l) = (containsStr R l || decide (x = R)) := by
  unfold insertStr
  by_cases hc : containsStr x l = true
  · rw [if_pos hc]
    by_cases hx : x = R
    · subst hx
      simp [hc]
    · simp [hx]
  · rw [if_neg hc]
    exact containsStr_append R x l

theorem decide_pos_add (a b : Nat) :
    decide (0 < a + b) = (decide (0 < a) || decide (0 < b)) := by
  by_cases ha : 0 < a <;> by_cases hb : 0 < b <;>
    simp [ha, hb]

theorem opCount_zero_of_entryInv (f : Pattern → Bool) {s : ServiceInfo}
    (hs : EntryInv (fun _ m => m.httpRule = []) s.methods) : opCount f s = 0 := by
  unfold opCount
  refine List.sum_eq_zero ?_
  intro x hx
  obtain ⟨op, hop, hxe⟩ := List.mem_map.1 hx
  subst hxe
  cases hl : lookupM op s.methods with
  | none => rfl
  | some m =>
    have := hs op m hl
    simp [mCount, this]

/-- The combined invariant carried to the http phase: a well-formed map
whose entries all have empty pattern lists. -/
def WE (s : ServiceInfo) : Prop :=
  WF s ∧ EntryInv (fun _ m => m.httpRule = []) s.methods

theorem we_getOrCreate {s s₁ : ServiceInfo} {n : String} {mi : MethodInfo}
    (h : getOrCreateMethod s n = .ok (mi, s₁)) (hs : WE s) :
    WE s₁ ∧ mi.httpRule = [] := by
  obtain ⟨hwf, he⟩ := hs
  obtain ⟨he₁, hmi⟩ := entryInv_getOrCreate h he (fun _ => rfl)
  exact ⟨⟨wf_getOrCreate h hwf, he₁⟩, hmi⟩

theorem we_updateM {s : ServiceInfo} (hs : WE s) (k : String)
    {f : MethodInfo → MethodInfo} (hf : ∀ m, m.httpRule = [] → (f m).httpRule = []) :
    WE { s with methods := updateM k f s.methods } := by
  obtain ⟨hwf, he⟩ := hs
  exact ⟨wf_updateM hwf k f, entryInv_updateM he (fun m hm => hf m hm)⟩

theorem processApiMethod_we {api : Api} {s : ServiceInfo} {m : ApiMethod}
    {s' : ServiceInfo} (h : processApiMethod api s m = .ok s') (hs : WE s) :
    WE s' := by
  unfold processApiMethod at h
  cases hg : getOrCreateMethod s (api.name ++ "." ++ m.name) with
  | error e => rw [hg] at h; cases h
  | ok p =>
    obtain ⟨mi, s₁⟩ := p
    rw [hg] at h
    simp at h
    obtain ⟨hs₁, hmi⟩ := we_getOrCreate hg hs
    rw [← h]
    refine we_updateM hs₁ _ (fun _ _ => ?_)
    dsimp only
    split <;> split <;> exact hmi

theorem processApis_we {s s' : ServiceInfo} (h : processApis s = .ok s')
    (hs : WE s) : WE s' := by
  unfold processApis at h
  refine foldE_inv (P := WE) ?_ _ _ _ hs h
  intro sa api sa' hP hstep
  have hP₁ : WE { sa with apiNames := sa.apiNames ++ [api.name] } := hP
  exact foldE_inv (P := WE) (fun sb mm sb' hQ hm => processApiMethod_we hm hQ)
    _ _ _ hP₁ hstep

theorem processEndpoints_we {s : ServiceInfo} (hs : WE s) :
    WE (processEndpoints s) := hs

theorem processQuota_we {s s' : ServiceInfo} (h : processQuota s = .ok s')
    (hs : WE s) : WE s' := by
  unfold processQuota at h
  refine foldE_inv (P := WE) ?_ _ _ _ hs h
  intro sa rule sa' hP hstep
  cases hl : lookupM rule.selector sa.methods with
  | none => rw [hl] at hstep; cases hstep
  | some m =>
    rw [hl] at hstep
    cases hstep
    exact we_updateM hP _ (fun _ hm => hm)

theorem addBackendInfoToMethod_we {s s' : ServiceInfo} {r : BackendRule}
    {scheme hostname path clusterName : String}
    (h : addBackendInfoToMethod s r scheme hostname path clusterName = .ok s')
    (hs : WE s) : WE s' := by
  unfold addBackendInfoToMethod at h
  cases hg : getOrCreateMethod s r.selector with
  | error e => rw [hg] at h; cases h
  | ok p =>
    obtain ⟨mi, s₁⟩ := p
    rw [hg] at h
    dsimp only at h
    cases h
    exact we_updateM (we_getOrCreate hg hs).1 _ (fun _ hm => hm)

theorem processBackendRule_we {s s' : ServiceInfo}
    (h : processBackendRule s = .ok s') (hs : WE s) : WE s' := by
  unfold processBackendRule at h
  cases hf : foldE processOneBackendRule (s, []) s.serviceConfig.backend with
  | error e => rw [hf] at h; cases h
  | ok p =>
    obtain ⟨sx, c⟩ := p
    rw [hf] at h
    cases h
    refine foldE_inv (P := fun (st : ServiceInfo × List (String × String)) => WE st.1)
      ?_ _ _ _ hs hf
    intro st r st' hP hstep
    obtain ⟨sa, ca⟩ := st
    unfold processOneBackendRule at hstep
    dsimp only at hstep
    cases hr : r.address with
    | none =>
      rw [hr] at hstep
      dsimp only at hstep
      obtain ⟨sx₂, hb, hy⟩ := exceptMap_ok hstep
      subst hy
      exact addBackendInfoToMethod_we hb hP
    | some addr =>
      rw [hr] at hstep
      dsimp only at hstep
      cases hl : lookupStr addr.hostPort ca with
      | some cn =>
        rw [hl] at hstep
        obtain ⟨sx₂, hb, hy⟩ := exceptMap_ok hstep
        subst hy
        exact addBackendInfoToMethod_we hb hP
      | none =>
        rw [hl] at hstep
        cases hp : parseBackendProtocol addr.scheme r.protocol with
        | error e => rw [hp] at hstep; cases hstep
        | ok pt =>
          obtain ⟨protocol, tls⟩ := pt
          rw [hp] at hstep
          simp only at hstep
          obtain ⟨sx₂, hb, hy⟩ := exceptMap_ok hstep
          subst hy
          exact addBackendInfoToMethod_we hb hP

end ESPv2

namespace ESPv2

/-- The explicit OPTIONS-for-`R` count of a rule's additional
bindings. -/
def bindsOptCount (R : String) (l : List (Option HttpRulePattern)) : Nat :=
  (l.map (patOptCount R)).sum

theorem ruleOptCount_parts (R : String) (r : HttpRule) :
    ruleOptCount R r = patOptCount R r.pattern + bindsOptCount R r.additionalBindings := by
  simp [ruleOptCount, bindsOptCount]

theorem explicitOptCount_append (R : String) (rules : List HttpRule) (r : HttpRule) :
    explicitOptCount R (rules ++ [r]) = explicitOptCount R rules + ruleOptCount R r := by
  simp [explicitOptCount]

theorem addHttpRule_count {R : String} {m m' : MethodInfo} {rp : Option HttpRulePattern}
    {os os' : List String} (h : addHttpRule m rp os = .ok (m', os')) :
    mCount (isOptPat R) m' = mCount (isOptPat R) m + patOptCount R rp ∧
    containsStr R os' = (containsStr R os || decide (0 < patOptCount R rp)) := by
  unfold addHttpRule at h
  cases rp with
  | none => cases h
  | some hp =>
    dsimp only at h
    cases hP : parseHttpPattern hp with
    | error e => rw [hP] at h; cases h
    | ok pat =>
      rw [hP] at h
      dsimp only at h
      injection h with h1
      injection h1 with h2 h3
      have hpc : patOptCount R (some hp) = (if isOptPat R pat then 1 else 0) := by
        simp [patOptCount, hP]
      constructor
      · rw [← h2, hpc]
        simp [mCount, List.countP_append, List.countP_cons]
      · rw [← h3, hpc]
        by_cases hm : pat.httpMethod = "OPTIONS"
        · rw [if_pos (by simp [hm])]
          rw [containsStr_insertStr]
          by_cases hreg : pat.uriTemplate.regex = R
          · simp [isOptPat, hm, hreg]
          · simp [isOptPat, hm, hreg]
        · rw [if_neg (by simp [hm])]
          have hI : isOptPat R pat = false := by
            simp [isOptPat, hm]
          simp [hI]

theorem addHttpRuleFold_count {R : String} :
    ∀ {bs : List (Option HttpRulePattern)} {m m' : MethodInfo} {os os' : List String},
      foldE (fun (st : MethodInfo × List String) b => addHttpRule st.1 b st.2)
        (m, os) bs = .ok (m', os') →
      mCount (isOptPat R) m' = mCount (isOptPat R) m + bindsOptCount R bs ∧
      containsStr R os' = (containsStr R os || decide (0 < bindsOptCount R bs)) := by
  intro bs
  induction bs with
  | nil =>
    intro m m' os os' h
    rw [foldE_nil] at h
    injection h with h1
    injection h1 with h2 h3
    subst h2
    subst h3
    simp [bindsOptCount]
  | cons b bs ih =>
    intro m m' os os' h
    rw [foldE_cons] at h
    cases hb : addHttpRule m b os with
    | error e => rw [hb] at h; cases h
    | ok q =>
      obtain ⟨m₁, os₁⟩ := q
      rw [hb] at h
      obtain ⟨hc1, hs1⟩ := addHttpRule_count (R := R) hb
      obtain ⟨hc2, hs2⟩ := ih h
      have hbind : bindsOptCount R (b :: bs) = patOptCount R b + bindsOptCount R bs := by
        simp [bindsOptCount]
      constructor
      · rw [hc2, hc1, hbind]
        omega
      · rw [hs2, hs1, hbind, decide_pos_add, Bool.or_assoc]

theorem processOneHttpRule_count {R : String} {pre : List HttpRule}
    {st st' : ServiceInfo × List String} {r : HttpRule}
    (hP : WF st.1 ∧ opCount (isOptPat R) st.1 = explicitOptCount R pre ∧
      containsStr R st.2 = decide (0 < explicitOptCount R pre))
    (h : processOneHttpRule st r = .ok st') :
    WF st'.1 ∧ opCount (isOptPat R) st'.1 = explicitOptCount R (pre ++ [r]) ∧
    containsStr R st'.2 = decide (0 < explicitOptCount R (pre ++ [r])) := by
  obtain ⟨s, os⟩ := st
  obtain ⟨hwf, hcnt, hset⟩ := hP
  unfold processOneHttpRule at h
  dsimp only at h
  cases hg : getOrCreateMethod s r.selector with
  | error e => rw [hg] at h; cases h
  | ok p =>
    obtain ⟨mi, s₁⟩ := p
    rw [hg] at h
    dsimp only at h
    cases ha : addHttpRule mi r.pattern os with
    | error e => rw [ha] at h; cases h
    | ok q =>
      obtain ⟨mi₁, os₁⟩ := q
      rw [ha] at h
      dsimp only at h
      cases hf : foldE (fun (st : MethodInfo × List String) b => addHttpRule st.1 b st.2)
          (mi₁, os₁) r.additionalBindings with
      | error e => rw [hf] at h; cases h
      | ok q₂ =>
        obtain ⟨mi₂, os₂⟩ := q₂
        rw [hf] at h
        dsimp only at h
        cases h
        have hwf₁ : WF s₁ := wf_getOrCreate hg hwf
        have hc₁ : opCount (isOptPat R) s₁ = opCount (isOptPat R) s :=
          opCount_getOrCreate hwf hg
        have hl₁ : lookupM r.selector s₁.methods = some mi := getOrCreateMethod_present hg
        obtain ⟨ha1, ha2⟩ := addHttpRule_count (R := R) ha
        obtain ⟨hf1, hf2⟩ := addHttpRuleFold_count (R := R) hf
        have hupd := opCount_updateM (f := isOptPat R) hwf₁ hl₁ (fun _ => mi₂)
        refine ⟨wf_updateM hwf₁ _ _, ?_, ?_⟩
        · dsimp only
          rw [explicitOptCount_append, ruleOptCount_parts]
          have hms : opCount (isOptPat R) s₁ = explicitOptCount R pre := by
            rw [hc₁]
            exact hcnt
          omega
        · rw [hf2, ha2, hset, explicitOptCount_append, ruleOptCount_parts,
            decide_pos_add, decide_pos_add, Bool.or_assoc]

end ESPv2

namespace ESPv2

theorem updateM_noop {k : String} {f : MethodInfo → MethodInfo} :
    ∀ {l : List (String × MethodInfo)}, lookupM k l = none → updateM k f l = l := by
  intro l
  induction l with
  | nil => intro _; rfl
  | cons p rest ih =>
    obtain ⟨k₀, v₀⟩ := p
    intro h
    unfold lookupM at h
    by_cases hk : k₀ = k
    · rw [if_pos hk] at h; cases h
    · rw [if_neg hk] at h
      unfold updateM
      rw [if_neg hk, ih h]

theorem addOptionMethod_count {R : String} {s s' : ServiceInfo} {sel : String}
    {orig : MethodInfo} {pat : Pattern} (hwf : WF s)
    (h : addOptionMethod s sel orig pat = .ok s') :
    WF s' ∧ opCount (isOptPat R) s' =
      opCount (isOptPat R) s + (if isOptPat R pat then 1 else 0) := by
  unfold addOptionMethod at h
  by_cases hm : pat.httpMethod ≠ "OPTIONS"
  · rw [if_pos hm] at h; cases h
  · rw [if_neg hm] at h
    cases hg : getOrCreateMethod s (corsSelectorOf orig) with
    | error e => rw [hg] at h; cases h
    | ok p₂ =>
      obtain ⟨mi, s₁⟩ := p₂
      rw [hg] at h
      simp at h
      subst h
      have hwf₁ : WF s₁ := wf_getOrCreate hg hwf
      have hc₁ : opCount (isOptPat R) s₁ = opCount (isOptPat R) s :=
        opCount_getOrCreate hwf hg
      have hl₁ : lookupM (corsSelectorOf orig) s₁.methods = some mi :=
        getOrCreateMethod_present hg
      have hstep₁ := opCount_updateM (f := isOptPat R) hwf₁ hl₁
        (fun _ => { mi with
          apiVersion := orig.apiVersion
          backendInfo := orig.backendInfo
          isGenerated := true
          httpRule := mi.httpRule ++ [pat] })
      have hwf₂ : WF { s₁ with
          methods := updateM (corsSelectorOf orig)
              (fun _ => { mi with
                apiVersion := orig.apiVersion
                backendInfo := orig.backendInfo
                isGenerated := true
                httpRule := mi.httpRule ++ [pat] }) s₁.methods } :=
        wf_updateM hwf₁ _ _
      have hmc : mCount (isOptPat R) { mi with
          apiVersion := orig.apiVersion
          backendInfo := orig.backendInfo
          isGenerated := true
          httpRule := mi.httpRule ++ [pat] } =
          mCount (isOptPat R) mi + (if isOptPat R pat then 1 else 0) := by
        simp [mCount, List.countP_append, List.countP_cons]
      cases hl₂ : lookupM sel (updateM (corsSelectorOf orig)
          (fun _ => { mi with
            apiVersion := orig.apiVersion
            backendInfo := orig.backendInfo
            isGenerated := true
            httpRule := mi.httpRule ++ [pat] }) s₁.methods) with
      | some m₂ =>
        have hstep₂ := opCount_updateM (f := isOptPat R) hwf₂ hl₂
          (fun m => { m with generatedCorsMethod := some (corsSelectorOf orig) })
        have hmc₂ : mCount (isOptPat R) { m₂ with
            generatedCorsMethod := some (corsSelectorOf orig) } =
            mCount (isOptPat R) m₂ := rfl
        dsimp only at hstep₂
        refine ⟨wf_updateM hwf₂ _ _, ?_⟩
        rw [hmc₂] at hstep₂
        omega
      | none =>
        rw [updateM_noop hl₂]
        refine ⟨⟨hwf₂.1, hwf₂.2⟩, ?_⟩
        omega

/-- The CORS-loop invariant for regex `R`: the count stays at its
initial value `C₀` with the set tracking its positivity, or — only when
`C₀` was zero — exactly one synthetic OPTIONS pattern has been added and
the set records `R`. -/
def CorsLoopInv (R : String) (C₀ : Nat) (st : ServiceInfo × List String) : Prop :=
  WF st.1 ∧
  ((opCount (isOptPat R) st.1 = C₀ ∧ containsStr R st.2 = decide (0 < C₀)) ∨
   (C₀ = 0 ∧ opCount (isOptPat R) st.1 = 1 ∧ containsStr R st.2 = true))

theorem corsPatternStep_corsInv {R : String} {C₀ : Nat} {sel : String}
    {orig : MethodInfo} {st st' : ServiceInfo × List String} {p : Pattern}
    (hP : CorsLoopInv R C₀ st) (h : corsPatternStep sel orig st p = .ok st') :
    CorsLoopInv R C₀ st' := by
  obtain ⟨s, os⟩ := st
  obtain ⟨hwf, hdisj⟩ := hP
  unfold corsPatternStep at h
  dsimp only at h
  by_cases hm : p.httpMethod ≠ "OPTIONS"
  · rw [if_pos hm] at h
    by_cases hc : containsStr p.uriTemplate.regex os = true
    · rw [if_pos hc] at h
      cases h
      exact ⟨hwf, hdisj⟩
    · rw [if_neg hc] at h
      cases ha : addOptionMethod s sel orig ⟨"OPTIONS", p.uriTemplate⟩ with
      | error e => rw [ha] at h; cases h
      | ok sx =>
        rw [ha] at h
        cases h
        obtain ⟨hwfx, hcx⟩ := addOptionMethod_count (R := R) hwf ha
        by_cases hreg : p.uriTemplate.regex = R
        · have hcR : containsStr R os = false := by
            rw [← hreg]
            exact Bool.not_eq_true _ ▸ eq_false_of_ne_true hc
          have hOpt : isOptPat R ⟨"OPTIONS", p.uriTemplate⟩ = true := by
            simp [isOptPat, hreg]
          rcases hdisj with ⟨hcnt, hset⟩ | ⟨hC, hcnt, hset⟩
          · have hC0 : C₀ = 0 := by
              rw [hcR] at hset
              by_cases h0 : 0 < C₀
              · rw [decide_eq_true h0] at hset; cases hset
              · omega
            refine ⟨hwfx, .inr ⟨hC0, ?_, ?_⟩⟩
            · rw [hcx, hOpt, hcnt, hC0]
              simp
            · dsimp only
              rw [containsStr_insertStr, hreg]
              simp
          · rw [hset] at hcR
            cases hcR
        · have hOpt : isOptPat R ⟨"OPTIONS", p.uriTemplate⟩ = false := by
            simp [isOptPat, hreg]
          have hkeep : containsStr R (insertStr p.uriTemplate.regex os) =
              containsStr R os := by
            rw [containsStr_insertStr]
            simp [hreg]
          rcases hdisj with ⟨hcnt, hset⟩ | ⟨hC, hcnt, hset⟩
          · refine ⟨hwfx, .inl ⟨?_, ?_⟩⟩
            · rw [hcx, hOpt]
              simpa using hcnt
            · dsimp only
              rw [hkeep]
              exact hset
          · refine ⟨hwfx, .inr ⟨hC, ?_, ?_⟩⟩
            · rw [hcx, hOpt]
              simpa using hcnt
            · dsimp only
              rw [hkeep]
              exact hset
  · rw [if_neg hm] at h
    cases h
    exact ⟨hwf, hdisj⟩

theorem corsRuleStep_corsInv {R : String} {C₀ : Nat}
    {st st' : ServiceInfo × List String} {r : HttpRule}
    (hP : CorsLoopInv R C₀ st) (h : corsRuleStep st r = .ok st') :
    CorsLoopInv R C₀ st' := by
  unfold corsRuleStep at h
  cases hl : lookupM r.selector st.1.methods with
  | none => rw [hl] at h; cases h
  | some m =>
    rw [hl] at h
    exact foldE_inv (P := CorsLoopInv R C₀)
      (fun sa a sa' hQ hstep => corsPatternStep_corsInv hQ hstep) _ _ _ hP h

theorem addHealthzMethod_count {R : String} {s s' : ServiceInfo} (hwf : WF s)
    (h : addHealthzMethod s = .ok s') :
    WF s' ∧ opCount (isOptPat R) s' = opCount (isOptPat R) s := by
  unfold addHealthzMethod at h
  cases hz : s.options.healthz with
  | none => rw [hz] at h; cases h; exact ⟨hwf, rfl⟩
  | some t =>
    rw [hz] at h
    cases hg : getOrCreateMethod s (espOperation ++ "." ++ autogenBase ++ "_HealthCheck") with
    | error e => rw [hg] at h; cases h
    | ok p =>
      obtain ⟨mi, s₁⟩ := p
      rw [hg] at h
      simp at h
      subst h
      have hwf₁ : WF s₁ := wf_getOrCreate hg hwf
      have hc₁ : opCount (isOptPat R) s₁ = opCount (isOptPat R) s :=
        opCount_getOrCreate hwf hg
      have hl₁ : lookupM (espOperation ++ "." ++ autogenBase ++ "_HealthCheck")
          s₁.methods = some mi := getOrCreateMethod_present hg
      have hstep := opCount_updateM (f := isOptPat R) hwf₁ hl₁
        (fun _ => { mi with
          httpRule := mi.httpRule ++ [⟨"GET", t⟩]
          skipServiceControl := true
          isGenerated := true })
      have hmc : mCount (isOptPat R) { mi with
          httpRule := mi.httpRule ++ [⟨"GET", t⟩]
          skipServiceControl := true
          isGenerated := true } = mCount (isOptPat R) mi := by
        simp [mCount, List.countP_append, List.countP_cons, isOptPat]
      refine ⟨wf_updateM hwf₁ _ _, ?_⟩
      omega

theorem processOneHttpRule_allowCors {st st' : ServiceInfo × List String}
    {r : HttpRule} (h : processOneHttpRule st r = .ok st') :
    st'.1.allowCors = st.1.allowCors := by
  obtain ⟨s, os⟩ := st
  unfold processOneHttpRule at h
  dsimp only at h
  cases hg : getOrCreateMethod s r.selector with
  | error e => rw [hg] at h; cases h
  | ok p =>
    obtain ⟨mi, s₁⟩ := p
    rw [hg] at h
    dsimp only at h
    cases ha : addHttpRule mi r.pattern os with
    | error e => rw [ha] at h; cases h
    | ok q =>
      obtain ⟨mi₁, os₁⟩ := q
      rw [ha] at h
      dsimp only at h
      cases hf : foldE (fun (st : MethodInfo × List String) b => addHttpRule st.1 b st.2)
          (mi₁, os₁) r.additionalBindings with
      | error e => rw [hf] at h; cases h
      | ok q₂ =>
        obtain ⟨mi₂, os₂⟩ := q₂
        rw [hf] at h
        dsimp only at h
        cases h
        have : s₁.allowCors = s.allowCors := by
          rcases getOrCreateMethod_cases hg with ⟨-, h2⟩ | ⟨-, -, h2⟩ <;> subst h2 <;> rfl
        exact this

/-- The OPTIONS-count characterization of the http phase, per regex `R`:
starting from a well-formed map with no patterns, the final count is the
explicit count when CORS is off or when the explicit count is positive,
and in every case at most `max explicit 1` — at most one synthetic
OPTIONS binding is ever created for `R`, and only when `R` has no
explicit OPTIONS binding. -/
theorem processHttpRule_count {R : String} {s s' : ServiceInfo}
    (hwf : WF s) (hzero : opCount (isOptPat R) s = 0)
    (h : processHttpRule s = .ok s') :
    WF s' ∧
    opCount (isOptPat R) s' ≤ max (explicitOptCount R s.serviceConfig.http) 1 ∧
    (0 < explicitOptCount R s.serviceConfig.http →
      opCount (isOptPat R) s' = explicitOptCount R s.serviceConfig.http) ∧
    (s.allowCors = false →
      opCount (isOptPat R) s' = explicitOptCount R s.serviceConfig.http) := by
  unfold processHttpRule at h
  cases hf : foldE processOneHttpRule (s, []) s.serviceConfig.http with
  | error e => rw [hf] at h; cases h
  | ok p =>
    obtain ⟨s₁, os₁⟩ := p
    rw [hf] at h
    simp only at h
    have hP₁ := foldE_inv_pre (P := fun pre (st : ServiceInfo × List String) =>
        WF st.1 ∧ opCount (isOptPat R) st.1 = explicitOptCount R pre ∧
        containsStr R st.2 = decide (0 < explicitOptCount R pre))
      (fun pre st a st' hP hst => processOneHttpRule_count hP hst)
      _ [] _ _ ⟨hwf, by simpa [explicitOptCount] using hzero,
        by simp [explicitOptCount, containsStr]⟩ hf
    rw [List.nil_append] at hP₁
    obtain ⟨hwf₁, hcnt₁, hset₁⟩ := hP₁
    have hac : s₁.allowCors = s.allowCors :=
      foldE_rel (R := fun (a b : ServiceInfo × List String) =>
          b.1.allowCors = a.1.allowCors)
        (fun a => rfl) (fun _ _ _ hab hbc => hbc.trans hab)
        (fun _ _ _ hstep => processOneHttpRule_allowCors hstep) _ _ _ hf
    by_cases hc : s₁.allowCors = true
    · rw [if_pos hc] at h
      cases hf₂ : foldE corsRuleStep (s₁, os₁) s₁.serviceConfig.http with
      | error e => rw [hf₂] at h; cases h
      | ok p₂ =>
        obtain ⟨s₂, os₂⟩ := p₂
        rw [hf₂] at h
        simp only at h
        have hP₂ := foldE_inv (P := CorsLoopInv R (explicitOptCount R s.serviceConfig.http))
          (fun sa a sa' hQ hstep => corsRuleStep_corsInv hQ hstep)
          _ _ _ ⟨hwf₁, .inl ⟨hcnt₁, hset₁⟩⟩ hf₂
        obtain ⟨hwf₂, hdisj⟩ := hP₂
        obtain ⟨hwfF, hcF⟩ := addHealthzMethod_count (R := R) hwf₂ h
        refine ⟨hwfF, ?_, ?_, ?_⟩
        · rw [hcF]
          rcases hdisj with ⟨hcnt₂, -⟩ | ⟨hC, hcnt₂, -⟩
          · rw [hcnt₂]
            exact Nat.le_max_left _ _
          · rw [hcnt₂, hC]
            simp
        · intro hpos
          rw [hcF]
          rcases hdisj with ⟨hcnt₂, -⟩ | ⟨hC, hcnt₂, -⟩
          · exact hcnt₂
          · omega
        · intro hfalse
          rw [hac] at hc
          rw [hfalse] at hc
          cases hc
    · rw [if_neg hc] at h
      simp only at h
      obtain ⟨hwfF, hcF⟩ := addHealthzMethod_count (R := R) hwf₁ h
      refine ⟨hwfF, ?_, ?_, ?_⟩
      · rw [hcF, hcnt₁]
        exact Nat.le_max_left _ _
      · intro hpos
        rw [hcF]
        exact hcnt₁
      · intro hfalse
        rw [hcF]
        exact hcnt₁

end ESPv2

namespace ESPv2

theorem regex_replaceVariableField (t : UriTemplate) (m : List (String × String)) :
    (t.replaceVariableField m).regex = t.regex := by
  unfold UriTemplate.replaceVariableField UriTemplate.regex
  dsimp only
  rw [List.map_map]
  have hmap : List.map (Seg.regex ∘ Seg.rename m) t.segments =
      List.map Seg.regex t.segments :=
    List.map_congr_left (fun s hs => by
      cases s with
      | lit a => rfl
      | star => rfl
      | doubleStar => rfl
      | capture n sp => cases sp <;> rfl)
  rw [hmap]

theorem mCount_renamePatterns (R : String) (sj : List (String × String))
    (m : MethodInfo) :
    mCount (isOptPat R) (renamePatterns sj m) = mCount (isOptPat R) m := by
  unfold mCount renamePatterns
  dsimp only
  rw [List.countP_map]
  refine List.countP_congr ?_
  intro p hp
  simp [Function.comp, isOptPat, regex_replaceVariableField]

theorem processUsageRule_wcount {R : String} {s s' : ServiceInfo} (hwf : WF s)
    (h : processUsageRule s = .ok s') :
    WF s' ∧ opCount (isOptPat R) s' = opCount (isOptPat R) s := by
  unfold processUsageRule at h
  refine foldE_inv (P := fun sa =>
      WF sa ∧ opCount (isOptPat R) sa = opCount (isOptPat R) s)
    ?_ _ _ _ ⟨hwf, rfl⟩ h
  intro sa r sa' hP hstep
  obtain ⟨hwfa, hca⟩ := hP
  cases hg : getOrCreateMethod sa r.selector with
  | error e => rw [hg] at hstep; cases hstep
  | ok p =>
    obtain ⟨mi, s₁⟩ := p
    rw [hg] at hstep
    cases hstep
    have hwf₁ : WF s₁ := wf_getOrCreate hg hwfa
    have hc₁ : opCount (isOptPat R) s₁ = opCount (isOptPat R) sa :=
      opCount_getOrCreate hwfa hg
    have hl₁ : lookupM r.selector s₁.methods = some mi := getOrCreateMethod_present hg
    have hstep₂ := opCount_updateM (f := isOptPat R) hwf₁ hl₁
      (fun m => { m with
        allowUnregisteredCalls := r.allowUnregisteredCalls
        skipServiceControl := r.skipServiceControl })
    have hmc : mCount (isOptPat R) { mi with
        allowUnregisteredCalls := r.allowUnregisteredCalls
        skipServiceControl := r.skipServiceControl } = mCount (isOptPat R) mi := rfl
    refine ⟨wf_updateM hwf₁ _ _, ?_⟩
    rw [hmc] at hstep₂
    omega

theorem processTypesStep_wcount {R : String} {types : List ProtoType}
    {s s' : ServiceInfo} {op : String} (hwf : WF s)
    (h : processTypesStep types s op = .ok s') :
    WF s' ∧ opCount (isOptPat R) s' = opCount (isOptPat R) s := by
  unfold processTypesStep at h
  cases hl : lookupM op s.methods with
  | none => rw [hl] at h; cases h; exact ⟨hwf, rfl⟩
  | some mi =>
    rw [hl] at h
    dsimp only at h
    by_cases he : mi.requestTypeName = ""
    · rw [if_pos he] at h; cases h; exact ⟨hwf, rfl⟩
    · rw [if_neg he] at h
      cases hft : types.find? (fun t => t.name = mi.requestTypeName) with
      | none => rw [hft] at h; cases h; exact ⟨hwf, rfl⟩
      | some rt =>
        rw [hft] at h
        dsimp only at h
        cases hb : buildSnakeToJson rt.fields with
        | error e => rw [hb] at h; cases h
        | ok sj =>
          rw [hb] at h
          dsimp only at h
          by_cases hn : sj.length > 0
          · rw [if_pos hn] at h
            have hwf₁ : WF { s with methods := updateM op (renamePatterns sj) s.methods } :=
              wf_updateM hwf _ _
            have hstep₁ := opCount_updateM (f := isOptPat R) hwf hl (renamePatterns sj)
            rw [mCount_renamePatterns] at hstep₁
            have hc₁ : opCount (isOptPat R)
                { s with methods := updateM op (renamePatterns sj) s.methods } =
                opCount (isOptPat R) s := by omega
            cases hg : mi.generatedCorsMethod with
            | none =>
              rw [hg] at h
              cases h
              exact ⟨hwf₁, hc₁⟩
            | some g =>
              rw [hg] at h
              cases h
              cases hl₂ : lookupM g (updateM op (renamePatterns sj) s.methods) with
              | none =>
                rw [updateM_noop hl₂]
                exact ⟨⟨hwf₁.1, hwf₁.2⟩, hc₁⟩
              | some m₂ =>
                have hstep₂ := opCount_updateM (f := isOptPat R) hwf₁ hl₂ (renamePatterns sj)
                rw [mCount_renamePatterns] at hstep₂
                dsimp only at hstep₂
                refine ⟨wf_updateM hwf₁ _ _, ?_⟩
                omega
          · rw [if_neg hn] at h
            cases h
            exact ⟨hwf, rfl⟩

theorem processTypes_wcount {R : String} {s s' : ServiceInfo} (hwf : WF s)
    (h : processTypes s = .ok s') :
    WF s' ∧ opCount (isOptPat R) s' = opCount (isOptPat R) s := by
  unfold processTypes at h
  refine foldE_inv (P := fun sa =>
      WF sa ∧ opCount (isOptPat R) sa = opCount (isOptPat R) s)
    ?_ _ _ _ ⟨hwf, rfl⟩ h
  intro sa op sa' hP hstep
  obtain ⟨hwfa, hca⟩ := hP
  obtain ⟨hw, hc⟩ := processTypesStep_wcount (R := R) hwfa hstep
  exact ⟨hw, hc.trans hca⟩

theorem addGrpcMethodRule_wcount {R : String} {api : Api} {s s' : ServiceInfo}
    {m : ApiMethod} (hwf : WF s) (h : addGrpcMethodRule api s m = .ok s') :
    WF s' ∧ opCount (isOptPat R) s' = opCount (isOptPat R) s := by
  unfold addGrpcMethodRule at h
  cases hg : getOrCreateMethod s (api.name ++ "." ++ m.name) with
  | error e => rw [hg] at h; cases h
  | ok p =>
    obtain ⟨mi, s₁⟩ := p
    rw [hg] at h
    dsimp only at h
    cases hp : parseUriTemplate ⟨[.lit api.name, .lit m.name]⟩ with
    | error e => rw [hp] at h; cases h
    | ok t =>
      rw [hp] at h
      cases h
      have hwf₁ : WF s₁ := wf_getOrCreate hg hwf
      have hc₁ : opCount (isOptPat R) s₁ = opCount (isOptPat R) s :=
        opCount_getOrCreate hwf hg
      have hl₁ : lookupM (api.name ++ "." ++ m.name) s₁.methods = some mi :=
        getOrCreateMethod_present hg
      have hstep₂ := opCount_updateM (f := isOptPat R) hwf₁ hl₁
        (fun _ => { mi with httpRule := mi.httpRule ++ [⟨"POST", t⟩] })
      have hmc : mCount (isOptPat R) { mi with httpRule := mi.httpRule ++ [⟨"POST", t⟩] } =
          mCount (isOptPat R) mi := by
        simp [mCount, List.countP_append, List.countP_cons, isOptPat]
      refine ⟨wf_updateM hwf₁ _ _, ?_⟩
      rw [hmc] at hstep₂
      omega

theorem addGrpcHttpRules_wcount {R : String} {s s' : ServiceInfo} (hwf : WF s)
    (h : addGrpcHttpRules s = .ok s') :
    WF s' ∧ opCount (isOptPat R) s' = opCount (isOptPat R) s := by
  unfold addGrpcHttpRules at h
  cases hgr : s.grpcSupportRequired with
  | false =>
    rw [hgr] at h
    simp at h
    rw [← h]
    exact ⟨hwf, rfl⟩
  | true =>
    rw [hgr] at h
    simp at h
    refine foldE_inv (P := fun sa =>
        WF sa ∧ opCount (isOptPat R) sa = opCount (isOptPat R) s)
      ?_ _ _ _ ⟨hwf, rfl⟩ h
    intro sa api sa' hP hstep
    refine foldE_inv (P := fun sb =>
        WF sb ∧ opCount (isOptPat R) sb = opCount (isOptPat R) s)
      ?_ _ _ _ hP hstep
    intro sb mm sb' hQ hm
    obtain ⟨hw, hc⟩ := addGrpcMethodRule_wcount (R := R) hQ.1 hm
    exact ⟨hw, hc.trans hQ.2⟩

theorem opCount_eq_of (f : Pattern → Bool) {s s' : ServiceInfo}
    (hm : s'.methods = s.methods) (ho : s'.operations = s.operations) :
    opCount f s' = opCount f s := by
  unfold opCount
  rw [hm, ho]

theorem wf_eq_of {s s' : ServiceInfo} (hm : s'.methods = s.methods)
    (ho : s'.operations = s.operations) (h : WF s) : WF s' :=
  ⟨by rw [hm, ho]; exact h.1, ho ▸ h.2⟩

theorem opCount_updateM_keep (f : Pattern → Bool) {s : ServiceInfo} (hwf : WF s)
    (k : String) (g : MethodInfo → MethodInfo)
    (hg : ∀ m, (g m).httpRule = m.httpRule) :
    opCount f { s with methods := updateM k g s.methods } = opCount f s := by
  cases hl : lookupM k s.methods with
  | none => rw [updateM_noop hl]
  | some m =>
    have hstep := opCount_updateM (f := f) hwf hl g
    have hmc : mCount f (g m) = mCount f m := by
      unfold mCount
      rw [hg m]
    omega

theorem processApiKeyLocations_wcount {R : String} {s s' : ServiceInfo} (hwf : WF s)
    (h : processApiKeyLocations s = .ok s') :
    WF s' ∧ opCount (isOptPat R) s' = opCount (isOptPat R) s := by
  unfold processApiKeyLocations at h
  cases hf : foldE (fun s (rule : SystemParameterRule) =>
      let apiKeyLocationParameters := rule.parameters.filter
        (fun p => p.name = apiKeyParameterName)
      match getOrCreateMethod s rule.selector with
      | .error e => .error e
      | .ok (_, s) => .ok (extractApiKeyLocations s rule.selector apiKeyLocationParameters))
      s s.serviceConfig.systemParameters with
  | error e => rw [hf] at h; cases h
  | ok s₁ =>
    rw [hf] at h
    dsimp only at h
    cases h
    have hP₁ : WF s₁ ∧ opCount (isOptPat R) s₁ = opCount (isOptPat R) s := by
      refine foldE_inv (P := fun sa =>
          WF sa ∧ opCount (isOptPat R) sa = opCount (isOptPat R) s)
        ?_ _ _ _ ⟨hwf, rfl⟩ hf
      intro sa rule sa' hP hstep
      obtain ⟨hwfa, hca⟩ := hP
      dsimp only at hstep
      cases hg : getOrCreateMethod sa rule.selector with
      | error e => rw [hg] at hstep; cases hstep
      | ok p =>
        obtain ⟨mi, s₂⟩ := p
        rw [hg] at hstep
        cases hstep
        have hwf₂ : WF s₂ := wf_getOrCreate hg hwfa
        have hc₂ : opCount (isOptPat R) s₂ = opCount (isOptPat R) sa :=
          opCount_getOrCreate hwfa hg
        constructor
        · exact wf_eq_of rfl rfl (wf_updateM hwf₂ _ _)
        · have hopc := @opCount_eq_of (isOptPat R)
            { s₂ with methods := (extractApiKeyLocations s₂ rule.selector
              (rule.parameters.filter (fun p => p.name = apiKeyParameterName))).methods }
            (extractApiKeyLocations s₂ rule.selector
              (rule.parameters.filter (fun p => p.name = apiKeyParameterName)))
            rfl rfl
          rw [hopc]
          have hkeep := opCount_updateM_keep (isOptPat R) hwf₂ rule.selector
            (fun m => { m with apiKeyLocations := m.apiKeyLocations ++
              ((rule.parameters.filter (fun p => p.name = apiKeyParameterName)).filterMap
                fun p => if p.urlQueryParameter ≠ "" then
                  some (ApiKeyLocation.query p.urlQueryParameter) else none) ++
              ((rule.parameters.filter (fun p => p.name = apiKeyParameterName)).filterMap
                fun p => if p.httpHeader ≠ "" then
                  some (ApiKeyLocation.header p.httpHeader) else none) })
            (fun m => rfl)
          exact hkeep.trans (hc₂.trans hca)
    exact ⟨wf_eq_of rfl rfl hP₁.1, (opCount_eq_of (isOptPat R) rfl rfl).trans hP₁.2⟩

theorem processLocalBackendOperations_wcount {R : String} {s s' : ServiceInfo}
    (hwf : WF s) (h : processLocalBackendOperations s = .ok s') :
    WF s' ∧ opCount (isOptPat R) s' = opCount (isOptPat R) s := by
  unfold processLocalBackendOperations at h
  cases h
  constructor
  · refine ⟨?_, hwf.2⟩
    show keysM (mapVals (installDefault (defaultLocalBinding s)) s.methods) =
      s.operations
    rw [keysM_mapVals]
    exact hwf.1
  · unfold opCount
    dsimp only
    refine congrArg List.sum (List.map_congr_left ?_)
    intro op hop
    rw [lookupM_mapVals]
    cases lookupM op s.methods with
    | none => rfl
    | some m =>
      simp only [Option.map_some']
      cases hb : m.backendInfo <;> simp [mCount, installDefault, hb]

theorem processAuthRequirement_wcount {R : String} {s s' : ServiceInfo} (hwf : WF s)
    (h : processAuthRequirement s = .ok s') :
    WF s' ∧ opCount (isOptPat R) s' = opCount (isOptPat R) s := by
  unfold processAuthRequirement at h
  refine foldE_inv (P := fun sa =>
      WF sa ∧ opCount (isOptPat R) sa = opCount (isOptPat R) s)
    ?_ _ _ _ ⟨hwf, rfl⟩ h
  intro sa rule sa' hP hstep
  obtain ⟨hwfa, hca⟩ := hP
  by_cases hn : rule.requirements.length > 0
  · rw [if_pos hn] at hstep
    cases hl : lookupM rule.selector sa.methods with
    | none => rw [hl] at hstep; cases hstep
    | some mi =>
      rw [hl] at hstep
      cases hstep
      refine ⟨wf_updateM hwfa _ _, ?_⟩
      rw [opCount_updateM_keep (isOptPat R) hwfa rule.selector
        (fun m => { m with requireAuth := true }) (fun m => rfl)]
      exact hca
  · rw [if_neg hn] at hstep
    cases hstep
    exact ⟨hwfa, hca⟩

end ESPv2

namespace ESPv2

theorem sum_ind_countP (f : α → Bool) :
    ∀ l : List α, (l.map (fun a => if f a then 1 else 0)).sum = l.countP f := by
  intro l
  induction l with
  | nil => rfl
  | cons a l ih =>
    rw [List.map_cons, List.sum_cons, List.countP_cons, ih]
    cases hf : f a <;> simp [hf]
    omega

theorem matchers_opt_count (R : String) (p : Pattern) :
    ((makeHttpRouteMatchers p).countP fun rm =>
      decide (rm.pathSpec = .safeRegex R ∧
        rm.headers = [{ name := ":method", exactMatch := "OPTIONS" }])) =
    (if isOptPatNE R p then 1 else 0) := by
  unfold makeHttpRouteMatchers makeHttpExactPathRouteMatcher
  cases hex : p.uriTemplate.isExactMatch with
  | true =>
    have hne : isOptPatNE R p = false := by simp [isOptPatNE, hex]
    rw [hne]
    simp only [hex]
    split_ifs <;>
      simp_all [List.countP_cons, List.countP_nil, List.countP_map, Function.comp]
  | false =>
    simp only [hex]
    by_cases hw : p.httpMethod ≠ httpMethodWildCard
    · rw [if_pos hw]
      by_cases hm : p.httpMethod = "OPTIONS"
      · by_cases hreg : p.uriTemplate.regex = R
        · have hne : isOptPatNE R p = true := by simp [isOptPatNE, hm, hreg, hex]
          rw [hne]
          simp [List.countP_cons, hm, hreg]
        · have hne : isOptPatNE R p = false := by simp [isOptPatNE, hreg]
          rw [hne]
          simp [List.countP_cons, hreg]
      · have hne : isOptPatNE R p = false := by simp [isOptPatNE, hm]
        rw [hne]
        simp [List.countP_cons, hm]
    · rw [if_neg hw]
      have hww : p.httpMethod = httpMethodWildCard := by
        by_contra hc
        exact hw hc
      have hne : isOptPatNE R p = false := by
        simp [isOptPatNE, hww, httpMethodWildCard]
      rw [hne]
      simp [List.countP_cons]

theorem routesForPattern_count {R : String} {s : ServiceInfo} {op : String}
    {p : Pattern} {rs : List Route} (h : routesForPattern s op p = .ok rs) :
    rs.countP (routeIsOpt R) = (if isOptPatNE R p then 1 else 0) := by
  unfold routesForPattern at h
  cases hl : lookupM op s.methods with
  | none => rw [hl] at h; cases h
  | some method =>
    rw [hl] at h
    dsimp only at h
    cases hb : method.backendInfo with
    | none => rw [hb] at h; cases h
    | some bi =>
      rw [hb] at h
      dsimp only at h
      cases h
      rw [List.countP_map]
      rw [← matchers_opt_count R p]
      rfl

theorem routesFold_count {R : String} {s : ServiceInfo} :
    ∀ (l : List (String × Pattern)) (acc routes : List Route),
      foldE (fun acc (opp : String × Pattern) =>
          match routesForPattern s opp.1 opp.2 with
          | .error e => .error e
          | .ok rs => .ok (acc ++ rs)) acc l = .ok routes →
      routes.countP (routeIsOpt R) = acc.countP (routeIsOpt R) +
        (l.map (fun opp => if isOptPatNE R opp.2 then 1 else 0)).sum := by
  intro l
  induction l with
  | nil =>
    intro acc routes h
    rw [foldE_nil] at h
    cases h
    simp
  | cons opp l ih =>
    intro acc routes h
    rw [foldE_cons] at h
    cases hr : routesForPattern s opp.1 opp.2 with
    | error e => rw [hr] at h; cases h
    | ok rs =>
      rw [hr] at h
      have := ih (acc ++ rs) routes h
      rw [this, List.countP_append, routesForPattern_count hr, List.map_cons,
        List.sum_cons]
      omega

theorem insertLe_perm (le : α → α → Bool) (x : α) :
    ∀ l : List α, (insertLe le x l).Perm (x :: l) := by
  intro l
  induction l with
  | nil => exact List.Perm.refl _
  | cons y ys ih =>
    unfold insertLe
    by_cases hle : le x y = true
    · rw [if_pos hle]
    · rw [if_neg hle]
      exact (ih.cons y).trans (List.Perm.swap x y ys)

theorem sortLe_perm (le : α → α → Bool) :
    ∀ l : List α, (sortLe le l).Perm l := by
  intro l
  induction l with
  | nil => exact List.Perm.refl _
  | cons x xs ih =>
    unfold sortLe
    exact (insertLe_perm le x (sortLe le xs)).trans (ih.cons x)

theorem collectFold_count {R : String} {s : ServiceInfo} :
    ∀ (ops : List String) (acc : List (String × Pattern)) (l : List (String × Pattern)),
      foldE (fun acc op =>
          match lookupM op s.methods with
          | none => .error .nilDeref
          | some m => .ok (acc ++ m.httpRule.map fun p => (op, p))) acc ops = .ok l →
      (l.map (fun opp => if isOptPatNE R opp.2 then 1 else 0)).sum =
        (acc.map (fun opp => if isOptPatNE R opp.2 then 1 else 0)).sum +
        (ops.map (fun op =>
          match lookupM op s.methods with
          | some m => mCount (isOptPatNE R) m
          | none => 0)).sum := by
  intro ops
  induction ops with
  | nil =>
    intro acc l h
    rw [foldE_nil] at h
    cases h
    simp
  | cons op ops ih =>
    intro acc l h
    rw [foldE_cons] at h
    cases hl : lookupM op s.methods with
    | none => rw [hl] at h; cases h
    | some m =>
      rw [hl] at h
      have := ih _ l h
      rw [this, List.map_append, List.sum_append, List.map_cons, List.sum_cons, hl]
      dsimp only
      have hmc : ((m.httpRule.map fun p => (op, p)).map
          (fun opp => if isOptPatNE R opp.2 then 1 else 0)).sum =
          mCount (isOptPatNE R) m := by
        rw [List.map_map]
        have : (fun opp => if isOptPatNE R (Prod.snd opp) then 1 else 0) ∘
            (fun p => (op, p)) = fun p => if isOptPatNE R p then 1 else 0 := rfl
        rw [this, sum_ind_countP]
        rfl
      rw [hmc]
      omega

/-- The emitted route table carries exactly one `(R, OPTIONS)` route per
non-exact OPTIONS pattern with regex `R` in the method map — emission
performs no deduplication. -/
theorem makeRouteTable_optCount {R : String} {s : ServiceInfo} {routes : List Route}
    (h : makeRouteTable s = .ok routes) :
    routes.countP (routeIsOpt R) = opCount (isOptPatNE R) s := by
  unfold makeRouteTable getSortMethodsByHttpPattern at h
  cases hc : collectPatterns s with
  | error e => rw [hc] at h; cases h
  | ok l =>
    rw [hc] at h
    dsimp only at h
    have hfold := routesFold_count (R := R) (sortLe patternLe l) [] routes h
    rw [hfold]
    have hperm : ((sortLe patternLe l).map
        (fun opp => if isOptPatNE R opp.2 then 1 else 0)).Perm
        (l.map (fun opp => if isOptPatNE R opp.2 then 1 else 0)) :=
      (sortLe_perm patternLe l).map _
    rw [hperm.sum_eq]
    unfold collectPatterns at hc
    have := collectFold_count (R := R) s.operations [] l hc
    rw [this]
    simp [opCount]

theorem opCount_ne_le (R : String) (s : ServiceInfo) :
    opCount (isOptPatNE R) s ≤ opCount (isOptPat R) s := by
  unfold opCount
  refine List.sum_le_sum ?_
  intro op hop
  cases hl : lookupM op s.methods with
  | none => exact Nat.le_refl 0
  | some m =>
    dsimp only
    unfold mCount
    refine List.countP_mono_left ?_
    intro p hp hne
    simp [isOptPatNE] at hne
    simp [isOptPat, hne.1, hne.2.1]

end ESPv2

namespace ESPv2

/-- The C4 counterexample fixture: two rules with explicit custom
OPTIONS bindings on the same `/foo/*` template. -/
def cfgC4 : ServiceConfig :=
  { cfgW with
    apis := [{ name := "a", version := "v1"
               methods := [
                 { name := "m1", requestStreaming := false, responseStreaming := false
                   requestTypeUrl := "" },
                 { name := "m2", requestStreaming := false, responseStreaming := false
                   requestTypeUrl := "" } ] }]
    http := [
      { selector := "a.m1"
        pattern := some (.custom "OPTIONS" ⟨[.lit "foo", .star]⟩)
        additionalBindings := [] },
      { selector := "a.m2"
        pattern := some (.custom "OPTIONS" ⟨[.lit "foo", .star]⟩)
        additionalBindings := [] } ] }

def sC4 : ServiceInfo := buildOr (NewServiceInfoFromServiceConfig (some cfgC4) "id" optsW)
def routesC4 : List Route := routesOr (makeRouteTable sC4)

/-- The C4 witness fixture: CORS enabled, one GET `/x/*` rule (gets a
synthetic OPTIONS companion) and one explicit OPTIONS `/y/*` rule. -/
def cfgC4w : ServiceConfig :=
  { cfgC4 with
    http := [
      { selector := "a.m1", pattern := some (.get ⟨[.lit "x", .star]⟩)
        additionalBindings := [] },
      { selector := "a.m2"
        pattern := some (.custom "OPTIONS" ⟨[.lit "y", .star]⟩)
        additionalBindings := [] } ]
    endpoints := [{ name := "svc", allowCors := true }] }

def sC4w : ServiceInfo := buildOr (NewServiceInfoFromServiceConfig (some cfgC4w) "id" optsW)
def routesC4w : List Route := routesOr (makeRouteTable sC4w)

end ESPv2

namespace ESPv2

theorem getOrCreateMethod_allowCors {s s₁ : ServiceInfo} {n : String}
    {mi : MethodInfo} (h : getOrCreateMethod s n = .ok (mi, s₁)) :
    s₁.allowCors = s.allowCors := by
  rcases getOrCreateMethod_cases h with ⟨-, h2⟩ | ⟨-, -, h2⟩ <;> subst h2 <;> rfl

theorem processApis_allowCors {s s' : ServiceInfo} (h : processApis s = .ok s') :
    s'.allowCors = s.allowCors := by
  unfold processApis at h
  refine foldE_rel (R := fun (a b : ServiceInfo) => b.allowCors = a.allowCors)
    (fun a => rfl) (fun _ _ _ hab hbc => hbc.trans hab) ?_ _ _ _ h
  intro sa api sa' hstep
  have inner : sa'.allowCors =
      ({ sa with apiNames := sa.apiNames ++ [api.name] } : ServiceInfo).allowCors := by
    refine foldE_rel (R := fun (a b : ServiceInfo) => b.allowCors = a.allowCors)
      (fun a => rfl) (fun _ _ _ hab hbc => hbc.trans hab) ?_ _ _ _ hstep
    intro sb mm sb' hm
    unfold processApiMethod at hm
    cases hg : getOrCreateMethod sb (api.name ++ "." ++ mm.name) with
    | error e => rw [hg] at hm; cases hm
    | ok p =>
      obtain ⟨mi, s₁⟩ := p
      rw [hg] at hm
      simp at hm
      subst hm
      show s₁.allowCors = sb.allowCors
      exact getOrCreateMethod_allowCors hg
  exact inner

theorem processQuota_allowCors {s s' : ServiceInfo} (h : processQuota s = .ok s') :
    s'.allowCors = s.allowCors := by
  unfold processQuota at h
  refine foldE_rel (R := fun (a b : ServiceInfo) => b.allowCors = a.allowCors)
    (fun a => rfl) (fun _ _ _ hab hbc => hbc.trans hab) ?_ _ _ _ h
  intro sa rule sa' hstep
  cases hl : lookupM rule.selector sa.methods with
  | none => rw [hl] at hstep; cases hstep
  | some m =>
    rw [hl] at hstep
    cases hstep
    rfl

theorem addBackendInfoToMethod_allowCors {s s' : ServiceInfo} {r : BackendRule}
    {scheme hostname path clusterName : String}
    (h : addBackendInfoToMethod s r scheme hostname path clusterName = .ok s') :
    s'.allowCors = s.allowCors := by
  unfold addBackendInfoToMethod at h
  cases hg : getOrCreateMethod s r.selector with
  | error e => rw [hg] at h; cases h
  | ok p =>
    obtain ⟨mi, s₁⟩ := p
    rw [hg] at h
    dsimp only at h
    cases h
    show s₁.allowCors = s.allowCors
    exact getOrCreateMethod_allowCors hg

theorem processBackendRule_allowCors {s s' : ServiceInfo}
    (h : processBackendRule s = .ok s') : s'.allowCors = s.allowCors := by
  unfold processBackendRule at h
  cases hf : foldE processOneBackendRule (s, []) s.serviceConfig.backend with
  | error e => rw [hf] at h; cases h
  | ok p =>
    obtain ⟨sx, c⟩ := p
    rw [hf] at h
    cases h
    refine foldE_rel (R := fun (a b : ServiceInfo × List (String × String)) =>
        b.1.allowCors = a.1.allowCors)
      (fun a => rfl) (fun _ _ _ hab hbc => hbc.trans hab) ?_ _ _ _ hf
    intro st r st' hstep
    obtain ⟨sa, ca⟩ := st
    unfold processOneBackendRule at hstep
    dsimp only at hstep
    cases hr : r.address with
    | none =>
      rw [hr] at hstep
      dsimp only at hstep
      obtain ⟨sx₂, hb, hy⟩ := exceptMap_ok hstep
      subst hy
      show sx₂.allowCors = sa.allowCors
      exact addBackendInfoToMethod_allowCors hb
    | some addr =>
      rw [hr] at hstep
      dsimp only at hstep
      cases hl : lookupStr addr.hostPort ca with
      | some cn =>
        rw [hl] at hstep
        obtain ⟨sx₂, hb, hy⟩ := exceptMap_ok hstep
        subst hy
        show sx₂.allowCors = sa.allowCors
        exact addBackendInfoToMethod_allowCors hb
      | none =>
        rw [hl] at hstep
        cases hp : parseBackendProtocol addr.scheme r.protocol with
        | error e => rw [hp] at hstep; cases hstep
        | ok pt =>
          obtain ⟨protocol, tls⟩ := pt
          rw [hp] at hstep
          simp only at hstep
          obtain ⟨sx₂, hb, hy⟩ := exceptMap_ok hstep
          subst hy
          show sx₂.allowCors = sa.allowCors
          rw [addBackendInfoToMethod_allowCors hb]
          rfl

end ESPv2

namespace ESPv2

/-! ## C4 creation direction: the companion OPTIONS binding is synthesised -/

/-- One input pattern oneof parses to a non-OPTIONS pattern with route
regex `R`. -/
def patIsNonOptFor (R : String) (rp : Option HttpRulePattern) : Bool :=
  match rp with
  | none => false
  | some hp =>
    match parseHttpPattern hp with
    | .error _ => false
    | .ok pat => decide (pat.httpMethod ≠ "OPTIONS" ∧ pat.uriTemplate.regex = R)

/-- Some rule declares a non-OPTIONS binding with route regex `R`
(top-level pattern or an additional binding). -/
def hasNonOptPat (R : String) (rules : List HttpRule) : Bool :=
  rules.any fun r => (r.pattern :: r.additionalBindings).any (patIsNonOptFor R)

theorem patIsNonOptFor_spec {R : String} {rp : Option HttpRulePattern}
    (h : patIsNonOptFor R rp = true) :
    ∃ hp pat, rp = some hp ∧ parseHttpPattern hp = .ok pat ∧
      pat.httpMethod ≠ "OPTIONS" ∧ pat.uriTemplate.regex = R := by
  cases rp with
  | none => simp [patIsNonOptFor] at h
  | some hp =>
    unfold patIsNonOptFor at h
    dsimp only at h
    cases hP : parseHttpPattern hp with
    | error e => rw [hP] at h; cases h
    | ok pat =>
      rw [hP] at h
      obtain ⟨h1, h2⟩ := of_decide_eq_true h
      exact ⟨hp, pat, rfl, hP, h1, h2⟩

/-- The pattern `pat` is recorded on the method at `sel`. -/
def PatIn (sel : String) (pat : Pattern) (s : ServiceInfo) : Prop :=
  ∃ m, lookupM sel s.methods = some m ∧ pat ∈ m.httpRule

theorem getOrCreateMethod_lookup_pres {s s₁ : ServiceInfo} {n : String}
    {mi : MethodInfo} (h : getOrCreateMethod s n = .ok (mi, s₁)) {k : String}
    {v : MethodInfo} (hk : lookupM k s.methods = some v) :
    lookupM k s₁.methods = some v := by
  rcases getOrCreateMethod_cases h with ⟨-, h2⟩ | ⟨-, -, h2⟩
  · rw [h2]; exact hk
  · subst h2
    simp only
    exact lookupM_append_some hk _

theorem patIn_getOrCreate {sel : String} {pat : Pattern} {s s₁ : ServiceInfo}
    {n : String} {mi : MethodInfo} (h : getOrCreateMethod s n = .ok (mi, s₁))
    (hP : PatIn sel pat s) : PatIn sel pat s₁ := by
  obtain ⟨m, hm, hpm⟩ := hP
  exact ⟨m, getOrCreateMethod_lookup_pres h hm, hpm⟩

/-- An in-place update whose new value keeps every recorded pattern of
the old value preserves pattern membership. -/
theorem patIn_updateM {sel : String} {pat : Pattern} {s : ServiceInfo} {k : String}
    {f : MethodInfo → MethodInfo} (hP : PatIn sel pat s)
    (hgrow : ∀ m, lookupM k s.methods = some m → ∀ q ∈ m.httpRule, q ∈ (f m).httpRule) :
    PatIn sel pat { s with methods := updateM k f s.methods } := by
  obtain ⟨m, hm, hpm⟩ := hP
  by_cases hk : k = sel
  · subst hk
    refine ⟨f m, ?_, hgrow m hm pat hpm⟩
    simp only
    rw [lookupM_updateM_self, hm]
    rfl
  · refine ⟨m, ?_, hpm⟩
    simp only
    rw [lookupM_updateM_ne hk]
    exact hm

theorem addHttpRule_mem_pres {m m' : MethodInfo} {rp : Option HttpRulePattern}
    {os os' : List String} (h : addHttpRule m rp os = .ok (m', os')) :
    ∀ q ∈ m.httpRule, q ∈ m'.httpRule := by
  obtain ⟨-, -, -, pat, hr⟩ := addHttpRule_fields h
  intro q hq
  rw [hr]
  exact List.mem_append_left _ hq

/-- `addHttpRule` records the parsed pattern on the method. -/
theorem addHttpRule_mem_self {m m' : MethodInfo} {hp : HttpRulePattern}
    {pat : Pattern} {os os' : List String}
    (hparse : parseHttpPattern hp = .ok pat)
    (h : addHttpRule m (some hp) os = .ok (m', os')) : pat ∈ m'.httpRule := by
  unfold addHttpRule at h
  dsimp only at h
  rw [hparse] at h
  dsimp only at h
  injection h with h1
  injection h1 with h2 h3
  rw [← h2]
  simp

theorem addHttpRuleFold_mem_pres {bs : List (Option HttpRulePattern)} :
    ∀ {m m' : MethodInfo} {os os' : List String},
      foldE (fun (st : MethodInfo × List String) b => addHttpRule st.1 b st.2)
        (m, os) bs = .ok (m', os') →
      ∀ q ∈ m.httpRule, q ∈ m'.httpRule := by
  induction bs with
  | nil =>
    intro m m' os os' h q hq
    rw [foldE_nil] at h
    injection h with h1
    injection h1 with h2 h3
    subst h2
    exact hq
  | cons b bs ih =>
    intro m m' os os' h q hq
    rw [foldE_cons] at h
    cases hb : addHttpRule m b os with
    | error e => rw [hb] at h; cases h
    | ok p =>
      obtain ⟨m₁, os₁⟩ := p
      rw [hb] at h
      exact ih h q (addHttpRule_mem_pres hb q hq)

/-- The additional-bindings fold records every parsed binding pattern. -/
theorem addHttpRuleFold_mem_self {bs : List (Option HttpRulePattern)} :
    ∀ {m m' : MethodInfo} {os os' : List String},
      foldE (fun (st : MethodInfo × List String) b => addHttpRule st.1 b st.2)
        (m, os) bs = .ok (m', os') →
      ∀ hp pat, some hp ∈ bs → parseHttpPattern hp = .ok pat → pat ∈ m'.httpRule := by
  induction bs with
  | nil =>
    intro m m' os os' h hp pat hmem hparse
    cases hmem
  | cons b bs ih =>
    intro m m' os os' h hp pat hmem hparse
    rw [foldE_cons] at h
    cases hb : addHttpRule m b os with
    | error e => rw [hb] at h; cases h
    | ok p =>
      obtain ⟨m₁, os₁⟩ := p
      rw [hb] at h
      rcases List.mem_cons.1 hmem with he | hmem2
      · subst he
        exact addHttpRuleFold_mem_pres h pat (addHttpRule_mem_self hparse hb)
      · exact ih h hp pat hmem2 hparse

/-- One rule of loop 1 records each of its own parsed patterns on its
selector's method. -/
theorem processOneHttpRule_patIn {st st' : ServiceInfo × List String}
    {r : HttpRule} {hp : HttpRulePattern} {pat : Pattern}
    (hsel : some hp ∈ r.pattern :: r.additionalBindings)
    (hparse : parseHttpPattern hp = .ok pat)
    (h : processOneHttpRule st r = .ok st') : PatIn r.selector pat st'.1 := by
  obtain ⟨s, os⟩ := st
  unfold processOneHttpRule at h
  dsimp only at h
  cases hg : getOrCreateMethod s r.selector with
  | error e => rw [hg] at h; cases h
  | ok p =>
    obtain ⟨mi, s₁⟩ := p
    rw [hg] at h
    dsimp only at h
    cases ha : addHttpRule mi r.pattern os with
    | error e => rw [ha] at h; cases h
    | ok q =>
      obtain ⟨mi₁, os₁⟩ := q
      rw [ha] at h
      dsimp only at h
      cases hf : foldE (fun (st : MethodInfo × List String) b => addHttpRule st.1 b st.2)
          (mi₁, os₁) r.additionalBindings with
      | error e => rw [hf] at h; cases h
      | ok q₂ =>
        obtain ⟨mi₂, os₂⟩ := q₂
        rw [hf] at h
        cases h
        refine ⟨mi₂, ?_, ?_⟩
        · dsimp only
          rw [lookupM_updateM_self, getOrCreateMethod_present hg]
          rfl
        · rcases List.mem_cons.1 hsel with he | hmem
          · rw [← he] at ha
            exact addHttpRuleFold_mem_pres hf pat (addHttpRule_mem_self hparse ha)
          · exact addHttpRuleFold_mem_self hf hp pat hmem hparse

/-- Loop 1 preserves pattern membership on every method. -/
theorem patIn_processOneHttpRule {sel : String} {pat : Pattern}
    {st st' : ServiceInfo × List String} {r : HttpRule}
    (h : processOneHttpRule st r = .ok st') (hP : PatIn sel pat st.1) :
    PatIn sel pat st'.1 := by
  obtain ⟨s, os⟩ := st
  unfold processOneHttpRule at h
  dsimp only at h
  cases hg : getOrCreateMethod s r.selector with
  | error e => rw [hg] at h; cases h
  | ok p =>
    obtain ⟨mi, s₁⟩ := p
    rw [hg] at h
    dsimp only at h
    cases ha : addHttpRule mi r.pattern os with
    | error e => rw [ha] at h; cases h
    | ok q =>
      obtain ⟨mi₁, os₁⟩ := q
      rw [ha] at h
      dsimp only at h
      cases hf : foldE (fun (st : MethodInfo × List String) b => addHttpRule st.1 b st.2)
          (mi₁, os₁) r.additionalBindings with
      | error e => rw [hf] at h; cases h
      | ok q₂ =>
        obtain ⟨mi₂, os₂⟩ := q₂
        rw [hf] at h
        cases h
        have hP₁ : PatIn sel pat s₁ := patIn_getOrCreate hg hP
        have hl₁ : lookupM r.selector s₁.methods = some mi :=
          getOrCreateMethod_present hg
        exact patIn_updateM hP₁ (fun m hm₂ q hq => by
          rw [hl₁] at hm₂
          injection hm₂ with he
          subst he
          exact addHttpRuleFold_mem_pres hf q (addHttpRule_mem_pres ha q hq))

/-- `addOptionMethod` only appends to the companion's pattern list and
flips the back-pointer on the original: membership is preserved. -/
theorem addOptionMethod_patIn {sel : String} {pat : Pattern} {s s' : ServiceInfo}
    {osel : String} {orig : MethodInfo} {p : Pattern}
    (h : addOptionMethod s osel orig p = .ok s') (hP : PatIn sel pat s) :
    PatIn sel pat s' := by
  unfold addOptionMethod at h
  by_cases hm : p.httpMethod ≠ "OPTIONS"
  · rw [if_pos hm] at h; cases h
  · rw [if_neg hm] at h
    cases hg : getOrCreateMethod s (corsSelectorOf orig) with
    | error e => rw [hg] at h; cases h
    | ok q =>
      obtain ⟨mi, s₁⟩ := q
      rw [hg] at h
      dsimp only at h
      cases h
      have hP₁ : PatIn sel pat s₁ := patIn_getOrCreate hg hP
      have hl₁ : lookupM (corsSelectorOf orig) s₁.methods = some mi :=
        getOrCreateMethod_present hg
      have hP₂ : PatIn sel pat { s₁ with
          methods := updateM (corsSelectorOf orig)
            (fun _ => { mi with
              apiVersion := orig.apiVersion
              backendInfo := orig.backendInfo
              isGenerated := true
              httpRule := mi.httpRule ++ [p] }) s₁.methods } :=
        patIn_updateM hP₁ (fun m hm₂ q hq => by
          rw [hl₁] at hm₂
          injection hm₂ with he
          subst he
          exact List.mem_append_left _ hq)
      exact patIn_updateM hP₂ (fun m hm₂ q hq => hq)

/-- One pattern of the CORS loop preserves membership. -/
theorem corsPatternStep_patIn {sel : String} {pat : Pattern} {osel : String}
    {orig : MethodInfo} {st st' : ServiceInfo × List String} {p : Pattern}
    (h : corsPatternStep osel orig st p = .ok st') (hP : PatIn sel pat st.1) :
    PatIn sel pat st'.1 := by
  obtain ⟨sa, os⟩ := st
  unfold corsPatternStep at h
  dsimp only at h
  by_cases hm : p.httpMethod ≠ "OPTIONS"
  · rw [if_pos hm] at h
    by_cases hc : containsStr p.uriTemplate.regex os = true
    · rw [if_pos hc] at h
      cases h
      exact hP
    · rw [if_neg hc] at h
      cases ha : addOptionMethod sa osel orig ⟨"OPTIONS", p.uriTemplate⟩ with
      | error e => rw [ha] at h; cases h
      | ok sx =>
        rw [ha] at h
        cases h
        exact addOptionMethod_patIn ha hP
  · rw [if_neg hm] at h
    cases h
    exact hP

/-- One rule of the CORS loop preserves membership. -/
theorem corsRuleStep_patIn {sel : String} {pat : Pattern}
    {st st' : ServiceInfo × List String} {r : HttpRule}
    (h : corsRuleStep st r = .ok st') (hP : PatIn sel pat st.1) :
    PatIn sel pat st'.1 := by
  unfold corsRuleStep at h
  cases hl : lookupM r.selector st.1.methods with
  | none => rw [hl] at h; cases h
  | some m =>
    rw [hl] at h
    exact foldE_inv (P := fun (t : ServiceInfo × List String) => PatIn sel pat t.1)
      (fun t a t' hQ hstep => corsPatternStep_patIn hstep hQ) _ _ _ hP h

/-- One pattern of the CORS loop never removes `R` from the
deduplication set. -/
theorem corsPatternStep_setDone {R : String} {osel : String} {orig : MethodInfo}
    {st st' : ServiceInfo × List String} {p : Pattern}
    (h : corsPatternStep osel orig st p = .ok st') (hQ : containsStr R st.2 = true) :
    containsStr R st'.2 = true := by
  obtain ⟨sa, os⟩ := st
  unfold corsPatternStep at h
  dsimp only at h
  by_cases hm : p.httpMethod ≠ "OPTIONS"
  · rw [if_pos hm] at h
    by_cases hc : containsStr p.uriTemplate.regex os = true
    · rw [if_pos hc] at h
      cases h
      exact hQ
    · rw [if_neg hc] at h
      cases ha : addOptionMethod sa osel orig ⟨"OPTIONS", p.uriTemplate⟩ with
      | error e => rw [ha] at h; cases h
      | ok sx =>
        rw [ha] at h
        cases h
        dsimp only at hQ ⊢
        rw [containsStr_insertStr, hQ]
        simp
  · rw [if_neg hm] at h
    cases h
    exact hQ

/-- One rule of the CORS loop never removes `R` from the set. -/
theorem corsRuleStep_setDone {R : String} {st st' : ServiceInfo × List String}
    {r : HttpRule} (h : corsRuleStep st r = .ok st')
    (hQ : containsStr R st.2 = true) : containsStr R st'.2 = true := by
  unfold corsRuleStep at h
  cases hl : lookupM r.selector st.1.methods with
  | none => rw [hl] at h; cases h
  | some m =>
    rw [hl] at h
    exact foldE_inv (P := fun (t : ServiceInfo × List String) => containsStr R t.2 = true)
      (fun t a t' hQt hstep => corsPatternStep_setDone hstep hQt) _ _ _ hQ h

/-- A one-shot fold principle: an invariant `P` flows through the fold,
some member `a` establishes `Q` from any `P`-state, and every step
preserves `Q`; then `Q` holds at the end. -/
theorem foldE_establish {σ α : Type} (P Q : σ → Prop) {f : σ → α → Except BuildErr σ}
    (hP : ∀ s a s', f s a = .ok s' → P s → P s')
    (hQ : ∀ s a s', f s a = .ok s' → Q s → Q s') :
    ∀ (l : List α) (s s' : σ), foldE f s l = .ok s' → P s →
      ∀ a ∈ l, (∀ t t', P t → f t a = .ok t' → Q t') → Q s' := by
  intro l
  induction l with
  | nil =>
    intro s s' h hPs a ha hest
    cases ha
  | cons b l ih =>
    intro s s' h hPs a ha hest
    rw [foldE_cons] at h
    cases hb : f s b with
    | error e => rw [hb] at h; cases h
    | ok s₁ =>
      rw [hb] at h
      rcases List.mem_cons.1 ha with he | ha2
      · subst he
        exact foldE_inv (P := Q) (fun t c t' hQt hstep => hQ t c t' hstep hQt)
          _ _ _ (hest s s₁ hPs hb) h
      · exact ih s₁ s' h (hP s b s₁ hb hPs) a ha2 hest

/-- A non-OPTIONS pattern with regex `R` is never skipped: after its
step of the CORS loop the set contains `R` (either it already did, or
a companion OPTIONS method was added and `R` recorded). -/
theorem corsPatternStep_establish {R : String} {osel : String} {orig : MethodInfo}
    {st st' : ServiceInfo × List String} {pat : Pattern}
    (hnopt : pat.httpMethod ≠ "OPTIONS") (hreg : pat.uriTemplate.regex = R)
    (h : corsPatternStep osel orig st pat = .ok st') :
    containsStr R st'.2 = true := by
  obtain ⟨sa, os⟩ := st
  unfold corsPatternStep at h
  dsimp only at h
  rw [if_pos hnopt] at h
  by_cases hc : containsStr pat.uriTemplate.regex os = true
  · rw [if_pos hc] at h
    cases h
    dsimp only
    rw [← hreg]
    exact hc
  · rw [if_neg hc] at h
    cases ha : addOptionMethod sa osel orig ⟨"OPTIONS", pat.uriTemplate⟩ with
    | error e => rw [ha] at h; cases h
    | ok sx =>
      rw [ha] at h
      cases h
      dsimp only
      rw [containsStr_insertStr, hreg]
      simp

/-- A rule whose method records a non-OPTIONS pattern with regex `R`
forces `R` into the set when the CORS loop processes it. -/
theorem corsRuleStep_establish {R : String} {r : HttpRule} {pat : Pattern}
    (hnopt : pat.httpMethod ≠ "OPTIONS") (hreg : pat.uriTemplate.regex = R)
    {st st' : ServiceInfo × List String}
    (hP : PatIn r.selector pat st.1) (h : corsRuleStep st r = .ok st') :
    containsStr R st'.2 = true := by
  obtain ⟨m, hm, hpm⟩ := hP
  unfold corsRuleStep at h
  rw [hm] at h
  exact foldE_establish (fun _ => True)
    (fun (t : ServiceInfo × List String) => containsStr R t.2 = true)
    (fun t a t' hstep ht => trivial)
    (fun t a t' hstep hQ => corsPatternStep_setDone hstep hQ)
    _ _ _ h trivial pat hpm
    (fun t t' ht hstep => corsPatternStep_establish hnopt hreg hstep)

/-- When CORS is enabled and some rule declares a non-OPTIONS binding
with route regex `R` but no rule declares an explicit OPTIONS binding
for `R`, `processHttpRule` synthesises exactly one OPTIONS pattern
for `R`. -/
theorem processHttpRule_creates {R : String} {s s' : ServiceInfo}
    (hwf : WF s) (hzero : opCount (isOptPat R) s = 0)
    (h : processHttpRule s = .ok s') (hcors : s.allowCors = true)
    (hexp : explicitOptCount R s.serviceConfig.http = 0)
    (hnon : hasNonOptPat R s.serviceConfig.http = true) :
    opCount (isOptPat R) s' = 1 := by
  obtain ⟨r₀, hr₀, hrule⟩ := List.any_eq_true.1 hnon
  obtain ⟨rp, hrp, hpat⟩ := List.any_eq_true.1 hrule
  obtain ⟨hp, pat, hrpeq, hparse, hnopt, hreg⟩ := patIsNonOptFor_spec hpat
  subst hrpeq
  unfold processHttpRule at h
  cases hf : foldE processOneHttpRule (s, []) s.serviceConfig.http with
  | error e => rw [hf] at h; cases h
  | ok p =>
    obtain ⟨s₁, os₁⟩ := p
    rw [hf] at h
    simp only at h
    have hP₁ := foldE_inv_pre (P := fun pre (st : ServiceInfo × List String) =>
        WF st.1 ∧ opCount (isOptPat R) st.1 = explicitOptCount R pre ∧
        containsStr R st.2 = decide (0 < explicitOptCount R pre))
      (fun pre st a st' hPp hst => processOneHttpRule_count hPp hst)
      _ [] _ _ ⟨hwf, by simpa [explicitOptCount] using hzero,
        by simp [explicitOptCount, containsStr]⟩ hf
    rw [List.nil_append] at hP₁
    obtain ⟨hwf₁, hcnt₁, hset₁⟩ := hP₁
    have hac : s₁.allowCors = s.allowCors :=
      foldE_rel (R := fun (a b : ServiceInfo × List String) =>
          b.1.allowCors = a.1.allowCors)
        (fun a => rfl) (fun _ _ _ hab hbc => hbc.trans hab)
        (fun _ _ _ hstep => processOneHttpRule_allowCors hstep) _ _ _ hf
    have hsc₁ : s₁.serviceConfig = s.serviceConfig :=
      foldE_rel (R := fun (a b : ServiceInfo × List String) =>
          b.1.serviceConfig = a.1.serviceConfig)
        (fun a => rfl) (fun _ _ _ hab hbc => hbc.trans hab)
        (fun _ _ _ hstep => (processOneHttpRule_pres hstep).1.2.1) _ _ _ hf
    have hpatin : PatIn r₀.selector pat s₁ :=
      foldE_establish (fun _ => True)
        (fun (st : ServiceInfo × List String) => PatIn r₀.selector pat st.1)
        (fun t a t' hstep ht => trivial)
        (fun t a t' hstep hQ => patIn_processOneHttpRule hstep hQ)
        _ _ _ hf trivial r₀ hr₀
        (fun t t' ht hstep => processOneHttpRule_patIn hrp hparse hstep)
    have hc : s₁.allowCors = true := hac.trans hcors
    rw [if_pos hc] at h
    cases hf₂ : foldE corsRuleStep (s₁, os₁) s₁.serviceConfig.http with
    | error e => rw [hf₂] at h; cases h
    | ok p₂ =>
      obtain ⟨s₂, os₂⟩ := p₂
      rw [hf₂] at h
      simp only at h
      have hP₂ := foldE_inv (P := CorsLoopInv R (explicitOptCount R s.serviceConfig.http))
        (fun sa a sa' hQ hstep => corsRuleStep_corsInv hQ hstep)
        _ _ _ ⟨hwf₁, .inl ⟨hcnt₁, hset₁⟩⟩ hf₂
      obtain ⟨hwf₂, hdisj⟩ := hP₂
      have hr₀' : r₀ ∈ s₁.serviceConfig.http := by rw [hsc₁]; exact hr₀
      have hdone : containsStr R os₂ = true :=
        foldE_establish
          (fun (st : ServiceInfo × List String) => PatIn r₀.selector pat st.1)
          (fun (st : ServiceInfo × List String) => containsStr R st.2 = true)
          (fun t a t' hstep hPt => corsRuleStep_patIn hstep hPt)
          (fun t a t' hstep hQt => corsRuleStep_setDone hstep hQt)
          _ _ _ hf₂ hpatin r₀ hr₀'
          (fun t t' hPt hstep => corsRuleStep_establish hnopt hreg hPt hstep)
      obtain ⟨hwfF, hcF⟩ := addHealthzMethod_count (R := R) hwf₂ h
      rcases hdisj with ⟨hcnt₂, hset₂⟩ | ⟨-, hcnt₂, -⟩
      · rw [hexp] at hset₂
        rw [hdone] at hset₂
        simp at hset₂
      · rw [hcF]
        exact hcnt₂

end ESPv2

namespace ESPv2

/-- C4 (amended): per route-regex `R`, the emitted route table carries
exactly one `(R, OPTIONS)` route per non-exact OPTIONS pattern of the
method map (no deduplication at emission); the method map carries at
most `max explicit 1` OPTIONS patterns for `R` — at most one synthetic
one, created only when `R` has no explicit OPTIONS binding; with a
positive explicit count the method-map count equals it exactly (no
synthetic companion is added for an explicitly covered regex); when `R`
has no explicit OPTIONS binding at most one `(R, OPTIONS)` route is
emitted; with CORS disabled the count is exactly the explicit one; and
— the creation direction — with CORS enabled, every regex `R` that has
a non-OPTIONS binding but no explicit OPTIONS binding gets exactly one
(necessarily synthetic) OPTIONS binding.  Duplicate `(R, OPTIONS)`
routes therefore arise exactly from duplicate explicit OPTIONS
bindings. -/
theorem C4_options_uniqueness {cfg : ServiceConfig} {id : String}
    {opts : ConfigGeneratorOptions} {sF : ServiceInfo} {routes : List Route}
    (h : NewServiceInfoFromServiceConfig (some cfg) id opts = .ok sF)
    (hroutes : makeRouteTable sF = .ok routes) (R : String) :
    routes.countP (routeIsOpt R) = opCount (isOptPatNE R) sF ∧
    opCount (isOptPat R) sF ≤ max (explicitOptCount R cfg.http) 1 ∧
    routes.countP (routeIsOpt R) ≤ max (explicitOptCount R cfg.http) 1 ∧
    (0 < explicitOptCount R cfg.http →
      opCount (isOptPat R) sF = explicitOptCount R cfg.http) ∧
    (explicitOptCount R cfg.http = 0 → routes.countP (routeIsOpt R) ≤ 1) ∧
    ((cfg.endpoints.any fun e => e.name = cfg.name ∧ e.allowCors) = false →
      opCount (isOptPat R) sF = explicitOptCount R cfg.http) ∧
    ((cfg.endpoints.any fun e => e.name = cfg.name ∧ e.allowCors) = true →
      explicitOptCount R cfg.http = 0 → hasNonOptPat R cfg.http = true →
      opCount (isOptPat R) sF = 1) := by
  obtain ⟨-, lc, grpc, s₂, s₃, s₄, s₅, s₆, s₇, s₈, s₉, s₁₀,
    hlb, h2, h3, h4, h5, h6, h7, h8, h9, h10, h11⟩ := build_decomp h
  set s₁ := processEndpoints (initState cfg id opts lc grpc) with hs₁
  have hwe₁ : WE s₁ := by
    rw [hs₁]
    exact ⟨⟨rfl, List.nodup_nil⟩, fun k m hm => by cases hm⟩
  have hwe₄ : WE s₄ :=
    processBackendRule_we h4 (processQuota_we h3 (processApis_we h2 hwe₁))
  have hzero : opCount (isOptPat R) s₄ = 0 := opCount_zero_of_entryInv _ hwe₄.2
  have p2 : Pres s₁ s₂ := processApis_pres h2
  have p3 : Pres s₂ s₃ := processQuota_pres h3
  have p4 : Pres s₃ s₄ := processBackendRule_pres h4
  have hcfg₄ : s₄.serviceConfig = cfg :=
    p4.1.2.1.trans (p3.1.2.1.trans p2.1.2.1)
  obtain ⟨hwf₅, hle₅, hpos₅, hnc₅⟩ := processHttpRule_count (R := R) hwe₄.1 hzero h5
  rw [hcfg₄] at hle₅ hpos₅ hnc₅
  obtain ⟨hwf₆, hc₆⟩ := processUsageRule_wcount (R := R) hwf₅ h6
  obtain ⟨hwf₇, hc₇⟩ := processTypes_wcount (R := R) hwf₆ h7
  obtain ⟨hwf₈, hc₈⟩ := addGrpcHttpRules_wcount (R := R) hwf₇ h8
  obtain ⟨hwf₉, hc₉⟩ := processApiKeyLocations_wcount (R := R) hwf₈ h9
  obtain ⟨hwf₁₀, hc₁₀⟩ := processLocalBackendOperations_wcount (R := R) hwf₉ h10
  obtain ⟨hwfF, hcF⟩ := processAuthRequirement_wcount (R := R) hwf₁₀ h11
  have hchain : opCount (isOptPat R) sF = opCount (isOptPat R) s₅ := by
    rw [hcF, hc₁₀, hc₉, hc₈, hc₇, hc₆]
  have hac₄ : s₄.allowCors =
      (cfg.endpoints.any fun e => e.name = cfg.name ∧ e.allowCors) := by
    rw [processBackendRule_allowCors h4, processQuota_allowCors h3,
      processApis_allowCors h2, hs₁]
    rfl
  have hra : routes.countP (routeIsOpt R) = opCount (isOptPatNE R) sF :=
    makeRouteTable_optCount hroutes
  have hne : opCount (isOptPatNE R) sF ≤ opCount (isOptPat R) sF := opCount_ne_le R sF
  refine ⟨hra, ?_, ?_, ?_, ?_, ?_, ?_⟩
  · rw [hchain]
    exact hle₅
  · rw [hra]
    refine le_trans hne ?_
    rw [hchain]
    exact hle₅
  · intro hp
    rw [hchain]
    exact hpos₅ hp
  · intro hz
    rw [hra]
    have hb : opCount (isOptPat R) sF ≤ max (explicitOptCount R cfg.http) 1 := by
      rw [hchain]
      exact hle₅
    rw [hz] at hb
    simp at hb
    exact le_trans hne hb
  · intro hfalse
    rw [hchain]
    exact hnc₅ (hac₄.trans hfalse)
  · intro htrue hz hnn
    rw [hchain]
    refine processHttpRule_creates hwe₄.1 hzero h5 ?_ ?_ ?_
    · rw [hac₄]
      exact htrue
    · rw [hcfg₄]
      exact hz
    · rw [hcfg₄]
      exact hnn

end ESPv2

namespace ESPv2

/-- C4 counterexample: two explicit custom-OPTIONS bindings on the same
`/foo/*` template make the emitted route list contain two routes
matching `(^/foo/[^/]+$, OPTIONS)`, while the claim allows at most
one. -/
theorem C4_options_uniqueness_counterexample :
    isOkE (NewServiceInfoFromServiceConfig (some cfgC4) "id" optsW) = true ∧
    makeRouteTable sC4 = .ok routesC4 ∧
    routesC4.countP (routeIsOpt "^/foo/[^/]+$") = 2 := by
  decide

/-- C4 witness: with CORS enabled, a GET `/x/*` rule gets exactly one
synthetic OPTIONS route and an explicit OPTIONS `/y/*` rule exactly one
explicit one — `^/x/[^/]+$` has a non-OPTIONS binding, no explicit
OPTIONS binding, and exactly one OPTIONS pattern in the built method
map — and the amended count characterization, creation direction
included, holds at the concrete built state. -/
theorem C4_options_uniqueness_witness :
    NewServiceInfoFromServiceConfig (some cfgC4w) "id" optsW = .ok sC4w ∧
    makeRouteTable sC4w = .ok routesC4w ∧
    routesC4w.countP (routeIsOpt "^/x/[^/]+$") = 1 ∧
    routesC4w.countP (routeIsOpt "^/y/[^/]+$") = 1 ∧
    hasNonOptPat "^/x/[^/]+$" cfgC4w.http = true ∧
    explicitOptCount "^/x/[^/]+$" cfgC4w.http = 0 ∧
    opCount (isOptPat "^/x/[^/]+$") sC4w = 1 ∧
    (cfgC4w.endpoints.any fun e => e.name = cfgC4w.name ∧ e.allowCors) = true ∧
    (∀ R,
      routesC4w.countP (routeIsOpt R) = opCount (isOptPatNE R) sC4w ∧
      opCount (isOptPat R) sC4w ≤ max (explicitOptCount R cfgC4w.http) 1 ∧
      routesC4w.countP (routeIsOpt R) ≤ max (explicitOptCount R cfgC4w.http) 1 ∧
      (0 < explicitOptCount R cfgC4w.http →
        opCount (isOptPat R) sC4w = explicitOptCount R cfgC4w.http) ∧
      (explicitOptCount R cfgC4w.http = 0 → routesC4w.countP (routeIsOpt R) ≤ 1) ∧
      ((cfgC4w.endpoints.any fun e => e.name = cfgC4w.name ∧ e.allowCors) = false →
        opCount (isOptPat R) sC4w = explicitOptCount R cfgC4w.http) ∧
      ((cfgC4w.endpoints.any fun e => e.name = cfgC4w.name ∧ e.allowCors) = true →
        explicitOptCount R cfgC4w.http = 0 → hasNonOptPat R cfgC4w.http = true →
        opCount (isOptPat R) sC4w = 1)) :=
  ⟨by decide, by decide, by decide, by decide, by decide, by decide, by decide,
    by decide,
    @C4_options_uniqueness cfgC4w "id" optsW sC4w routesC4w (by decide) (by decide)⟩

end ESPv2
